import Mathlib

/-
  Verification of the demand-paged virtual-memory simulator.

  Shallow embedding of:
    src/python/core/data_structures.py
    src/python/core/mmu.py
    src/python/core/implementor.py
    src/python/core/scheduler.py
    src/python/core/process_manager.py
    src/backend/core/mmu.py
  Human-readable message strings returned by the source functions are
  omitted throughout: no claim depends on them.  Trace snapshots keep the
  fields the claims inspect; the page_tables / tlb_state dictionary
  projections of get_state_snapshot are omitted for the same reason.
-/

namespace VMSim

/-- Event kinds: the event_type strings of both mmu.py files plus the
step events emitted by the orchestrator (implementor.py). -/
inductive Event where
  | tlb_hit
  | page_hit
  | page_fault
  | invalid_reference
  | protection_fault
  | page_fault_handled
  | process_complete
  deriving DecidableEq, Repr

/-- Memory access kinds (backend handle_page_request's access_type string;
the source compares access_type.upper() against "WRITE"). -/
inductive AccessKind where
  | READ
  | WRITE
  deriving DecidableEq, Repr

/-- sys.maxsize on a 64-bit CPython, used by the eviction scans as the
initial minimum. -/
def sysMaxsize : Int := 2 ^ 63 - 1

/-- Python list index semantics: a negative index counts from the end. -/
def pyIdx (len : Nat) (i : Int) : Int := if i < 0 then i + len else i

/-- Python-style list read (default instead of IndexError out of range). -/
def pyGetD {α : Type} (l : List α) (i : Int) (d : α) : α :=
  let j := pyIdx l.length i
  if 0 ≤ j then l.getD j.toNat d else d

/-- Python-style list write (no-op instead of IndexError out of range). -/
def pySet {α : Type} (l : List α) (i : Int) (a : α) : List α :=
  let j := pyIdx l.length i
  if 0 ≤ j then l.set j.toNat a else l

/-- TLBEntry of data_structures.py (identical in both cores). -/
structure TLBEntry where
  pid : Int := -1
  pageno : Int := -1
  frameno : Int := -1
  time : Nat := 0
  valid : Bool := false
  deriving DecidableEq, Repr

/-- _check_tlb of mmu.py (identical in both cores): first valid matching
entry wins; (-1, false) on a miss. -/
def check_tlb (tlb : List TLBEntry) (pid : Nat) (page : Int) : Int × Bool :=
  match tlb.find? (fun t => t.valid && t.pid == (pid : Int) && t.pageno == page) with
  | some t => (t.frameno, true)
  | none => (-1, false)

/-- _update_tlb_time of mmu.py: refresh the timestamp of the first valid
matching entry (the source breaks after the first match). -/
def update_tlb_time : List TLBEntry → Nat → Int → Nat → List TLBEntry
  | [], _, _, _ => []
  | t :: ts, pid, page, now =>
    if t.valid && t.pid == (pid : Int) && t.pageno == page then
      { t with time := now } :: ts
    else
      t :: update_tlb_time ts pid page now

/-- First phase of _update_tlb: if a valid entry for (pid, page) exists,
update its frame and timestamp (first match only). -/
def tlbUpdateExisting : List TLBEntry → Nat → Int → Int → Nat → Option (List TLBEntry)
  | [], _, _, _, _ => none
  | t :: ts, pid, page, frame, now =>
    if t.valid && t.pid == (pid : Int) && t.pageno == page then
      some ({ t with frameno := frame, time := now } :: ts)
    else
      (tlbUpdateExisting ts pid page frame now).map (t :: ·)

/-- Second phase of _update_tlb: fill the first invalid slot. -/
def tlbFillInvalid : List TLBEntry → Nat → Int → Int → Nat → Option (List TLBEntry)
  | [], _, _, _, _ => none
  | t :: ts, pid, page, frame, now =>
    if t.valid then
      (tlbFillInvalid ts pid page frame now).map (t :: ·)
    else
      some ({ pid := (pid : Int), pageno := page, frameno := frame, time := now, valid := true } :: ts)

/-- min(entry.time for entry in self.tlb).  The source raises on an empty
TLB; the configuration guarantees tlbSize ≥ 1, so the 0 default for the
empty list is never exercised by a run. -/
def tlbMinTime : List TLBEntry → Nat
  | [] => 0
  | t :: ts => ts.foldl (fun a u => min a u.time) t.time

/-- Third phase of _update_tlb: replace the first entry whose timestamp
equals the minimum (the source breaks after it; the valid bit is not
written, matching the source). -/
def tlbReplaceMin : List TLBEntry → Nat → Nat → Int → Int → Nat → List TLBEntry
  | [], _, _, _, _, _ => []
  | t :: ts, mt, pid, page, frame, now =>
    if t.time == mt then
      { t with pid := (pid : Int), pageno := page, frameno := frame, time := now } :: ts
    else
      t :: tlbReplaceMin ts mt pid page frame now

/-- _update_tlb of mmu.py (identical in both cores): refresh an existing
entry, else fill an empty slot, else replace the LRU entry. -/
def update_tlb (tlb : List TLBEntry) (pid : Nat) (page : Int) (frame : Int) (now : Nat) :
    List TLBEntry :=
  match tlbUpdateExisting tlb pid page frame now with
  | some l => l
  | none =>
    match tlbFillInvalid tlb pid page frame now with
    | some l => l
    | none => tlbReplaceMin tlb (tlbMinTime tlb) pid page frame now

/-- TLB invalidation loop appearing in each _evict_* function: invalidate
every valid entry for (pid, victim page). -/
def tlbInvalidatePage (tlb : List TLBEntry) (pid : Nat) (page : Int) : List TLBEntry :=
  tlb.map fun t =>
    if t.valid && t.pid == (pid : Int) && t.pageno == page then { t with valid := false } else t

/-- TLB clearing loop of free_process_frames: invalidate every valid entry
of the process. -/
def tlbClearPid (tlb : List TLBEntry) (pid : Nat) : List TLBEntry :=
  tlb.map fun t =>
    if t.valid && t.pid == (pid : Int) then { t with valid := false } else t

/-- The victim scan shared by the textual pattern of every _evict_*
function: iterate over the page numbers, keeping (best key, victim page)
starting from (sentinel, -1), updating when the entry is valid and its key
is strictly below the current best. -/
def scanGo (valid : Nat → Bool) (key : Nat → Int) : List Nat → Int × Int → Int × Int
  | [], acc => acc
  | p :: ps, acc =>
    scanGo valid key ps (if valid p && decide (key p < acc.1) then (key p, (p : Int)) else acc)

/-- The mirrored scan of _evict_mru: strictly greater keys win. -/
def scanGoMax (valid : Nat → Bool) (key : Nat → Int) : List Nat → Int × Int → Int × Int
  | [], acc => acc
  | p :: ps, acc =>
    scanGoMax valid key ps (if valid p && decide (acc.1 < key p) then (key p, (p : Int)) else acc)

/-! ## The python core: src/python/core -/

namespace PyCore

/-- PageReplacementAlgorithm of src/python/core/data_structures.py. -/
inductive Alg where
  | LRU
  | FIFO
  | LFU
  deriving DecidableEq, Repr

/-- PTEntry of src/python/core/data_structures.py. -/
structure PTEntry where
  frame : Int := -1
  valid : Bool := false
  time : Nat := 0
  frequency : Nat := 0
  deriving DecidableEq, Repr

/-- Process (PCB) of src/python/core/data_structures.py. -/
structure Process where
  pid : Nat := 0
  m : Nat := 0
  allocount : Nat := 0
  usecount : Nat := 0
  reference_string : List Int := []
  current_index : Nat := 0
  completed : Bool := false
  deriving DecidableEq, Repr

/-- The MMU state of src/python/core/mmu.py.  The process list is stored
here: in the source the same Process objects are shared by the MMU, the
scheduler and the implementor, so the embedding keeps one copy. -/
structure MMU where
  k : Nat := 0
  m : Nat := 0
  f : Nat := 0
  s : Nat := 0
  algorithm : Alg := Alg.LRU
  page_table : List (List PTEntry) := []
  tlb : List TLBEntry := []
  free_frames : List Int := []
  physical_memory : List Int := []
  timestamp : Nat := 0
  page_fault_counts : List Nat := []
  tlb_hit_count : Nat := 0
  page_hit_count : Nat := 0
  processes : List Process := []
  deriving DecidableEq, Repr

/-- MMU.__init__ plus set_processes. -/
def initMMU (k m f s : Nat) (alg : Alg) (procs : List Process) : MMU :=
  { k := k, m := m, f := f, s := s, algorithm := alg
    page_table := List.replicate k (List.replicate m {})
    tlb := List.replicate s {}
    free_frames := ((List.range f).reverse).map (Int.ofNat)
    physical_memory := List.replicate f (-1)
    timestamp := 0
    page_fault_counts := List.replicate k 0
    tlb_hit_count := 0, page_hit_count := 0
    processes := procs }

def getProc (s : MMU) (pid : Nat) : Process := s.processes.getD pid {}

def setProc (s : MMU) (pid : Nat) (p : Process) : MMU :=
  { s with processes := s.processes.set pid p }

def getRow (s : MMU) (pid : Nat) : List PTEntry := s.page_table.getD pid []

def getEntry (s : MMU) (pid : Nat) (page : Int) : PTEntry :=
  pyGetD (getRow s pid) page {}

def setEntry (s : MMU) (pid : Nat) (page : Int) (e : PTEntry) : MMU :=
  { s with page_table := s.page_table.set pid (pySet (getRow s pid) page e) }

/-- handle_page_request of src/python/core/mmu.py.  Returns
(frame_number, event_type, new MMU state). -/
def handle_page_request (s0 : MMU) (pid : Nat) (page : Int) : Int × Event × MMU :=
  let s := { s0 with timestamp := s0.timestamp + 1 }
  if page < 0 ∨ ((getProc s pid).m : Int) ≤ page then
    (-2, Event.invalid_reference, s)
  else
    let tl := check_tlb s.tlb pid page
    if tl.2 then
      (tl.1, Event.tlb_hit,
        { s with tlb_hit_count := s.tlb_hit_count + 1
                 tlb := update_tlb_time s.tlb pid page s.timestamp })
    else
      let e := getEntry s pid page
      if e.valid then
        let s := setEntry s pid page { e with time := s.timestamp, frequency := e.frequency + 1 }
        let s := { s with page_hit_count := s.page_hit_count + 1
                          tlb := update_tlb s.tlb pid page e.frame s.timestamp }
        (e.frame, Event.page_hit, s)
      else
        (-1, Event.page_fault,
          { s with page_fault_counts :=
              s.page_fault_counts.set pid (s.page_fault_counts.getD pid 0 + 1) })

/-- The victim page chosen by _evict_lru / _evict_fifo / _evict_lfu for the
configured algorithm: the scan of the process's own page-table entries. -/
def selectVictim (s : MMU) (pid : Nat) : Int :=
  let row := getRow s pid
  let mP := (getProc s pid).m
  let validAt := fun p => (row.getD p {}).valid
  match s.algorithm with
  | Alg.LRU => (scanGo validAt (fun p => ((row.getD p {}).time : Int)) (List.range mP) (sysMaxsize, -1)).2
  | Alg.FIFO => (scanGo validAt (fun p => (row.getD p {}).frame) (List.range mP) (sysMaxsize, -1)).2
  | Alg.LFU => (scanGo validAt (fun p => ((row.getD p {}).frequency : Int)) (List.range mP) (sysMaxsize, -1)).2

/-- Shared tail of the _evict_* functions: read the victim's frame,
invalidate its entry (python indexing: victim -1 reads the row's last
entry), invalidate the victim's TLB entries, return the freed frame. -/
def evictVictim (s : MMU) (pid : Nat) (victim : Int) : Int × MMU :=
  let e := pyGetD (getRow s pid) victim {}
  let s := setEntry s pid victim { e with valid := false }
  let s := { s with tlb := tlbInvalidatePage s.tlb pid victim }
  (e.frame, s)

/-- _evict_page of src/python/core/mmu.py, dispatching on the algorithm
(the source's else-branch falls back to LRU and is unreachable for the
three-valued enum); each branch is the corresponding _evict_* function. -/
def evict_page (s : MMU) (pid : Nat) : Int × MMU :=
  evictVictim s pid (selectVictim s pid)

/-- handle_page_fault of src/python/core/mmu.py. -/
def handle_page_fault (s : MMU) (pid : Nat) (page : Int) : Int × MMU :=
  let process := getProc s pid
  let fs :=
    if s.free_frames.length = 0 ∨ process.allocount ≤ process.usecount then
      evict_page s pid
    else
      -- FreeFrameList.allocate pops the last element; the pool is known
      -- nonempty here, so the -1 default of getLast? is never used.
      ((s.free_frames.getLastD (-1)),
        setProc { s with free_frames := s.free_frames.dropLast } pid
          { process with usecount := process.usecount + 1 })
  let frame := fs.1
  let s := fs.2
  let e := getEntry s pid page
  let s := setEntry s pid page
    { e with frame := frame, valid := true, time := s.timestamp, frequency := 1 }
  let s := { s with physical_memory := pySet s.physical_memory frame (pid : Int) }
  let s := { s with tlb := update_tlb s.tlb pid page frame s.timestamp }
  (frame, s)

/-- The per-page loop of free_process_frames, reading and invalidating the
entries in page order while returning frames to the free pool and clearing
the physical-memory map. -/
def freeGo : List PTEntry → List Int → List Int → List Nat →
    List PTEntry × List Int × List Int
  | row, free, phys, [] => (row, free, phys)
  | row, free, phys, p :: ps =>
    let e := row.getD p {}
    if e.valid then
      freeGo (row.set p { e with valid := false }) (free ++ [e.frame])
        (pySet phys e.frame (-1)) ps
    else
      freeGo row free phys ps

/-- free_process_frames of src/python/core/mmu.py. -/
def free_process_frames (s : MMU) (pid : Nat) : MMU :=
  let mP := (getProc s pid).m
  let rfp := freeGo (getRow s pid) s.free_frames s.physical_memory (List.range mP)
  { s with page_table := s.page_table.set pid rfp.1
           free_frames := rfp.2.1
           physical_memory := rfp.2.2
           tlb := tlbClearPid s.tlb pid
           processes := s.processes.set pid { getProc s pid with usecount := 0 } }

/-! ### Orchestrator: src/python/core/implementor.py with the round-robin
scheduler of src/python/core/scheduler.py.  The scheduler's ready queue and
completed count are carried next to the MMU; the Process records live in
the MMU state (shared objects in the source). -/

/-- SimulationStep of src/python/core/data_structures.py.  The snapshot
fields kept are the ones a claim could inspect; the message string and the
page_tables / tlb_state dictionary projections are omitted. -/
structure Step where
  timestamp : Nat := 0
  process_id : Nat := 0
  page_number : Int := -1
  event : Event := Event.page_fault
  frame_number : Int := -1
  physical_memory : List Int := []
  free_frames : List Int := []
  page_fault_count : Nat := 0
  tlb_hit_count : Nat := 0
  page_hit_count : Nat := 0
  deriving DecidableEq, Repr

/-- The combined implementor + scheduler state. -/
structure SimState where
  mmu : MMU := {}
  ready_queue : List Nat := []
  completed_count : Nat := 0
  steps : List Step := []
  deriving DecidableEq, Repr

/-- _create_step of implementor.py (message omitted, snapshot reduced). -/
def mkStep (s : MMU) (pid : Nat) (page : Int) (frame : Int) (ev : Event) : Step :=
  { timestamp := s.timestamp, process_id := pid, page_number := page
    event := ev, frame_number := frame
    physical_memory := s.physical_memory, free_frames := s.free_frames
    page_fault_count := s.page_fault_counts.sum
    tlb_hit_count := s.tlb_hit_count, page_hit_count := s.page_hit_count }

/-- Scheduler.return_to_ready_queue: re-enqueue at the tail unless the
process is marked complete. -/
def returnToReady (st : SimState) (pid : Nat) : SimState :=
  if (getProc st.mmu pid).completed then st
  else { st with ready_queue := st.ready_queue ++ [pid] }

/-- _handle_process_completion of implementor.py: free the process's
frames, mark it complete in the scheduler, emit a completion step. -/
def handleCompletion (st : SimState) (pid : Nat) : SimState :=
  let mmu := free_process_frames st.mmu pid
  let mmu := setProc mmu pid { getProc mmu pid with completed := true }
  { st with mmu := mmu
            completed_count := st.completed_count + 1
            steps := st.steps ++ [mkStep mmu pid (-1) (-1) Event.process_complete] }

/-- One iteration of the main loop of run_simulation (implementor.py):
dequeue a process, complete it if its references are exhausted, otherwise
resolve its current reference and react to the outcome. -/
def loopStep (st : SimState) : SimState :=
  match st.ready_queue with
  | [] => st
  | pid :: rest =>
    let st := { st with ready_queue := rest }
    let proc := getProc st.mmu pid
    if proc.reference_string.length ≤ proc.current_index then
      handleCompletion st pid
    else
      let page := proc.reference_string.getD proc.current_index 0
      let r := handle_page_request st.mmu pid page
      let st := { st with mmu := r.2.2
                          steps := st.steps ++ [mkStep r.2.2 pid page r.1 r.2.1] }
      match r.2.1 with
      | Event.invalid_reference => handleCompletion st pid
      | Event.page_fault =>
        let fr := handle_page_fault st.mmu pid page
        let st := { st with mmu := fr.2
                            steps := st.steps ++ [mkStep fr.2 pid page fr.1 Event.page_fault_handled] }
        returnToReady st pid
      | Event.tlb_hit =>
        let mmu := setProc st.mmu pid
          { getProc st.mmu pid with current_index := (getProc st.mmu pid).current_index + 1 }
        let st := { st with mmu := mmu }
        let proc := getProc st.mmu pid
        if proc.current_index < proc.reference_string.length then returnToReady st pid
        else handleCompletion st pid
      | Event.page_hit =>
        let mmu := setProc st.mmu pid
          { getProc st.mmu pid with current_index := (getProc st.mmu pid).current_index + 1 }
        let st := { st with mmu := mmu }
        let proc := getProc st.mmu pid
        if proc.current_index < proc.reference_string.length then returnToReady st pid
        else handleCompletion st pid
      | _ => st

/-- The while loop of run_simulation: stop when the scheduler reports the
simulation complete or the ready queue is empty; fuel-indexed iteration. -/
def simActive (st : SimState) : Bool :=
  !(decide (st.mmu.k ≤ st.completed_count)) && !st.ready_queue.isEmpty

def iterate : Nat → SimState → SimState
  | 0, st => st
  | n + 1, st => if simActive st then iterate n (loopStep st) else st

/-- A state reached at some point of the run started from init. -/
def Reaches (init st : SimState) : Prop := ∃ n, iterate n init = st

/-- Count of valid entries among the first n pages of a row — the number
of frames the row actually holds (framesInUse accounting). -/
def countValid (row : List PTEntry) : Nat → Nat
  | 0 => 0
  | n + 1 => countValid row n + (if (row.getD n {}).valid then 1 else 0)

/-- The structural and accounting invariant of the python MMU: list
shapes, per-process quota accounting, the frame ledger tying the free
pool to the usage counters, and range/recency bounds on every valid
page-table entry and every pooled frame. -/
def Inv (s : MMU) : Prop :=
  s.processes.length = s.k ∧
  s.page_table.length = s.k ∧
  (∀ i, i < s.k → (getRow s i).length = s.m) ∧
  (∀ i, i < s.k → (getProc s i).m ≤ s.m) ∧
  (∀ i, i < s.k → 1 ≤ (getProc s i).allocount) ∧
  (∀ i, i < s.k → (getProc s i).usecount ≤ (getProc s i).allocount) ∧
  (∀ i, i < s.k → countValid (getRow s i) (getProc s i).m = (getProc s i).usecount) ∧
  (s.processes.map (fun p => p.usecount)).sum + s.free_frames.length = s.f ∧
  (s.processes.map (fun p => p.allocount)).sum = s.f ∧
  (∀ i, i < s.k → ∀ j, j < (getProc s i).m → ((getRow s i).getD j {}).valid = true →
    0 ≤ ((getRow s i).getD j {}).frame ∧ ((getRow s i).getD j {}).frame < (s.f : Int) ∧
    ((getRow s i).getD j {}).time ≤ s.timestamp ∧
    1 ≤ ((getRow s i).getD j {}).frequency ∧
    ((getRow s i).getD j {}).frequency ≤ s.timestamp) ∧
  (∀ fr ∈ s.free_frames, 0 ≤ fr ∧ fr < (s.f : Int))

/-- Invariant of the orchestrator state: the MMU invariant plus validity
of every queued process id. -/
def InvS (st : SimState) : Prop :=
  Inv st.mmu ∧ ∀ p ∈ st.ready_queue, p < st.mmu.k

/-! ### Process creation: src/python/core/process_manager.py -/

/-- max of a nonempty python list (max(reference_strings[pid])). -/
def pyMax (l : List Int) : Int := l.foldl max (l.headD 0)

/-- create_processes_with_references of src/python/core/process_manager.py.
The page count of each process is max(refs)+1; each process receives
1 + m_i * (f - k) / total_pages frames (the source computes this with float
division and int() truncation, which agrees with natural division on the
configurations modelled here).  The random distribution of remaining
frames only runs when the proportional allocation leaves a remainder; the
configurations modelled here leave none.  The configure-time validations
(count mismatch, empty string, page over maximum) raise in the source and
are outside every claim. -/
def create_processes_with_references (k _maxPages f : Nat) (refss : List (List Int)) :
    List Process :=
  let ms := refss.map (fun refs => (pyMax refs + 1).toNat)
  let total_pages := ms.sum
  (List.range k).map fun pid =>
    let refs := refss.getD pid []
    let mP := ms.getD pid 0
    { pid := pid, m := mP
      allocount := 1 + mP * (f - k) / total_pages
      usecount := 0
      reference_string := refs
      current_index := 0
      completed := false }

/-- configure of implementor.py with explicit reference strings: create
the processes, initialize the MMU over them, initialize the scheduler's
ready queue with every process id. -/
def configure (k maxPages f s : Nat) (alg : Alg) (refss : List (List Int)) : SimState :=
  { mmu := initMMU k maxPages f s alg (create_processes_with_references k maxPages f refss)
    ready_queue := List.range k
    completed_count := 0
    steps := [] }

end PyCore

/-! ## The backend core: src/backend/core/mmu.py (shared-memory /
copy-on-write variant).  Its data_structures module is not under src/:
PTEntry is modelled from the python core's PTEntry plus the read_only and
shared bits the backend MMU reads and writes (newly faulted pages are
private by default, per the source comments and the spec's data model),
and the algorithm enumeration gains the MRU member the backend dispatches
on. -/

namespace Backend

/-- PageReplacementAlgorithm as dispatched by the backend _evict_page. -/
inductive Alg where
  | LRU
  | MRU
  | FIFO
  | LFU
  deriving DecidableEq, Repr

/-- Backend PTEntry: the python-core entry plus protection metadata.
Modelled from the spec: the backend data_structures module is not under
src/; field set and defaults follow the spec's PageTableEntry
{frame, valid, lastAccessTime, accessFrequency, readOnly, shared} and the
backend MMU's uses of it. -/
structure PTEntry where
  frame : Int := -1
  valid : Bool := false
  time : Nat := 0
  frequency : Nat := 0
  read_only : Bool := false
  shared : Bool := false
  deriving DecidableEq, Repr

/-- Backend Process: the python-core PCB plus the per-reference access
kinds of the enhanced data structures (READ when absent). -/
structure Process where
  pid : Nat := 0
  m : Nat := 0
  allocount : Nat := 0
  usecount : Nat := 0
  reference_string : List Int := []
  access_types : List AccessKind := []
  current_index : Nat := 0
  completed : Bool := false
  deriving DecidableEq, Repr

/-- The MMU state of src/backend/core/mmu.py. -/
structure MMU where
  k : Nat := 0
  m : Nat := 0
  f : Nat := 0
  s : Nat := 0
  algorithm : Alg := Alg.LRU
  enable_shared_memory : Bool := false
  shared_page_numbers : List Int := []
  page_table : List (List PTEntry) := []
  tlb : List TLBEntry := []
  free_frames : List Int := []
  physical_memory : List Int := []
  timestamp : Nat := 0
  page_fault_counts : List Nat := []
  tlb_hit_count : Nat := 0
  page_hit_count : Nat := 0
  processes : List Process := []
  deriving DecidableEq, Repr

/-- Backend MMU.__init__ plus set_processes; shared_page_numbers is {0}
when sharing is enabled, empty otherwise. -/
def initMMU (k m f s : Nat) (alg : Alg) (enableShared : Bool) (procs : List Process) : MMU :=
  { k := k, m := m, f := f, s := s, algorithm := alg
    enable_shared_memory := enableShared
    shared_page_numbers := if enableShared then [0] else []
    page_table := List.replicate k (List.replicate m {})
    tlb := List.replicate s {}
    free_frames := ((List.range f).reverse).map (Int.ofNat)
    physical_memory := List.replicate f (-1)
    timestamp := 0
    page_fault_counts := List.replicate k 0
    tlb_hit_count := 0, page_hit_count := 0
    processes := procs }

def getProc (s : MMU) (pid : Nat) : Process := s.processes.getD pid {}

def setProc (s : MMU) (pid : Nat) (p : Process) : MMU :=
  { s with processes := s.processes.set pid p }

def getRow (s : MMU) (pid : Nat) : List PTEntry := s.page_table.getD pid []

def getEntry (s : MMU) (pid : Nat) (page : Int) : PTEntry :=
  pyGetD (getRow s pid) page {}

def setEntry (s : MMU) (pid : Nat) (page : Int) (e : PTEntry) : MMU :=
  { s with page_table := s.page_table.set pid (pySet (getRow s pid) page e) }

/-- handle_page_request of src/backend/core/mmu.py: the TLB is consulted
for hit classification, but the page table decides validity and
protection; a WRITE to a valid read-only entry is a protection fault
before any counter or recency update. -/
def handle_page_request (s0 : MMU) (pid : Nat) (page : Int) (access : AccessKind) :
    Int × Event × MMU :=
  let s := { s0 with timestamp := s0.timestamp + 1 }
  if page < 0 ∨ ((getProc s pid).m : Int) ≤ page then
    (-2, Event.invalid_reference, s)
  else
    let tl := check_tlb s.tlb pid page
    let e := getEntry s pid page
    if e.valid then
      if access = AccessKind.WRITE ∧ e.read_only then
        (-1, Event.protection_fault, s)
      else
        let s := setEntry s pid page { e with time := s.timestamp, frequency := e.frequency + 1 }
        if tl.2 then
          (e.frame, Event.tlb_hit,
            { s with tlb_hit_count := s.tlb_hit_count + 1
                     tlb := update_tlb_time s.tlb pid page s.timestamp })
        else
          (e.frame, Event.page_hit,
            { s with page_hit_count := s.page_hit_count + 1
                     tlb := update_tlb s.tlb pid page e.frame s.timestamp })
    else
      (-1, Event.page_fault,
        { s with page_fault_counts :=
            s.page_fault_counts.set pid (s.page_fault_counts.getD pid 0 + 1) })

/-- The donor scan of the backend handle_page_fault's shared-memory
branch: the first other process holding a valid mapping for the page
(enumerate order), with that mapping's frame. -/
def findShareDonor (s : MMU) (pid : Nat) (page : Int) : Option (Nat × Int) :=
  let candidates := (List.range s.processes.length).filter fun other =>
    (other != pid) && decide (page < ((getProc s other).m : Int)) &&
      (getEntry s other page).valid
  match candidates with
  | [] => none
  | other :: _ => some (other, (getEntry s other page).frame)

/-- The victim page chosen by the backend _evict_lru / _evict_mru /
_evict_fifo / _evict_lfu for the configured algorithm. -/
def selectVictim (s : MMU) (pid : Nat) : Int :=
  let row := getRow s pid
  let mP := (getProc s pid).m
  let validAt := fun p => (row.getD p {}).valid
  match s.algorithm with
  | Alg.LRU => (scanGo validAt (fun p => ((row.getD p {}).time : Int)) (List.range mP) (sysMaxsize, -1)).2
  | Alg.MRU => (scanGoMax validAt (fun p => ((row.getD p {}).time : Int)) (List.range mP) (-1, -1)).2
  | Alg.FIFO => (scanGo validAt (fun p => (row.getD p {}).frame) (List.range mP) (sysMaxsize, -1)).2
  | Alg.LFU => (scanGo validAt (fun p => ((row.getD p {}).frequency : Int)) (List.range mP) (sysMaxsize, -1)).2

/-- Shared tail of the backend _evict_* functions. -/
def evictVictim (s : MMU) (pid : Nat) (victim : Int) : Int × MMU :=
  let e := pyGetD (getRow s pid) victim {}
  let s := setEntry s pid victim { e with valid := false }
  let s := { s with tlb := tlbInvalidatePage s.tlb pid victim }
  (e.frame, s)

/-- _evict_page of src/backend/core/mmu.py (the else-branch LRU fallback
is unreachable for the four-valued enum). -/
def evict_page (s : MMU) (pid : Nat) : Int × MMU :=
  evictVictim s pid (selectVictim s pid)

/-- The non-shared allocation path common to handle_page_fault and
handle_protection_fault: evict when the pool is empty or the process is
at/over quota, else pop a free frame and bump the usage counter. -/
def allocateFrame (s : MMU) (pid : Nat) : Int × MMU :=
  let process := getProc s pid
  if s.free_frames.length = 0 ∨ process.allocount ≤ process.usecount then
    evict_page s pid
  else
    ((s.free_frames.getLastD (-1)),
      setProc { s with free_frames := s.free_frames.dropLast } pid
        { process with usecount := process.usecount + 1 })

/-- The non-shared tail of the backend handle_page_fault: allocate (or
evict), then install a fresh private writable entry, update physical
memory and TLB. -/
def handlePageFaultNormal (s : MMU) (pid : Nat) (page : Int) : Int × MMU :=
  let fs := allocateFrame s pid
  let frame := fs.1
  let s := fs.2
  let e := getEntry s pid page
  let s := setEntry s pid page
    { e with frame := frame, valid := true, time := s.timestamp, frequency := 1
             read_only := false, shared := false }
  let s := { s with physical_memory := pySet s.physical_memory frame (pid : Int) }
  let s := { s with tlb := update_tlb s.tlb pid page frame s.timestamp }
  (frame, s)

/-- handle_page_fault of src/backend/core/mmu.py. -/
def handle_page_fault (s : MMU) (pid : Nat) (page : Int) : Int × MMU :=
  -- Shared memory: map to the frame of the first other process already
  -- holding the page, read-only for both sides, no allocation.
  if s.enable_shared_memory && s.shared_page_numbers.contains page then
    match findShareDonor s pid page with
    | some df =>
      let frame := df.2
      let e := getEntry s pid page
      let s := setEntry s pid page
        { e with frame := frame, valid := true, time := s.timestamp, frequency := 1
                 read_only := true, shared := true }
      let other := getEntry s df.1 page
      let s := setEntry s df.1 page { other with read_only := true, shared := true }
      let s := { s with tlb := update_tlb s.tlb pid page frame s.timestamp }
      (frame, s)
    | none =>
      handlePageFaultNormal s pid page
  else
    handlePageFaultNormal s pid page

/-- handle_protection_fault of src/backend/core/mmu.py (copy-on-write):
the allocation path of a normal fault, then a private writable entry whose
access frequency is incremented rather than reset. -/
def handle_protection_fault (s : MMU) (pid : Nat) (page : Int) : Int × MMU :=
  let fs := allocateFrame s pid
  let frame := fs.1
  let s := fs.2
  let e := getEntry s pid page
  let s := setEntry s pid page
    { e with frame := frame, valid := true, time := s.timestamp,
             frequency := e.frequency + 1, read_only := false, shared := false }
  let s := { s with physical_memory := pySet s.physical_memory frame (pid : Int) }
  let s := { s with tlb := update_tlb s.tlb pid page frame s.timestamp }
  (frame, s)

/-- The backend freeGo loop, identical to the python core's. -/
def freeGo : List PTEntry → List Int → List Int → List Nat →
    List PTEntry × List Int × List Int
  | row, free, phys, [] => (row, free, phys)
  | row, free, phys, p :: ps =>
    let e := row.getD p {}
    if e.valid then
      freeGo (row.set p { e with valid := false }) (free ++ [e.frame])
        (pySet phys e.frame (-1)) ps
    else
      freeGo row free phys ps

/-- free_process_frames of src/backend/core/mmu.py (textually identical to
the python core's). -/
def free_process_frames (s : MMU) (pid : Nat) : MMU :=
  let mP := (getProc s pid).m
  let rfp := freeGo (getRow s pid) s.free_frames s.physical_memory (List.range mP)
  { s with page_table := s.page_table.set pid rfp.1
           free_frames := rfp.2.1
           physical_memory := rfp.2.2
           tlb := tlbClearPid s.tlb pid
           processes := s.processes.set pid { getProc s pid with usecount := 0 } }

/-! ### Backend orchestrator.  Modelled from the spec: the backend's
implementor module is not under src/ (only its package __init__ declares
it); the loop follows spec §4.3 — it has the shape of the python core's
run_simulation loop, passes each reference's access kind to
ResolveReference, and reacts to ProtectionFault with the same
retry-without-advancing shape as PageFault, via HandleProtectionFault. -/

structure Step where
  timestamp : Nat := 0
  process_id : Nat := 0
  page_number : Int := -1
  event : Event := Event.page_fault
  frame_number : Int := -1
  physical_memory : List Int := []
  free_frames : List Int := []
  page_fault_count : Nat := 0
  tlb_hit_count : Nat := 0
  page_hit_count : Nat := 0
  deriving DecidableEq, Repr

structure SimState where
  mmu : MMU := {}
  ready_queue : List Nat := []
  completed_count : Nat := 0
  steps : List Step := []
  deriving DecidableEq, Repr

def mkStep (s : MMU) (pid : Nat) (page : Int) (frame : Int) (ev : Event) : Step :=
  { timestamp := s.timestamp, process_id := pid, page_number := page
    event := ev, frame_number := frame
    physical_memory := s.physical_memory, free_frames := s.free_frames
    page_fault_count := s.page_fault_counts.sum
    tlb_hit_count := s.tlb_hit_count, page_hit_count := s.page_hit_count }

def returnToReady (st : SimState) (pid : Nat) : SimState :=
  if (getProc st.mmu pid).completed then st
  else { st with ready_queue := st.ready_queue ++ [pid] }

def handleCompletion (st : SimState) (pid : Nat) : SimState :=
  let mmu := free_process_frames st.mmu pid
  let mmu := setProc mmu pid { getProc mmu pid with completed := true }
  { st with mmu := mmu
            completed_count := st.completed_count + 1
            steps := st.steps ++ [mkStep mmu pid (-1) (-1) Event.process_complete] }

/-- Modelled from the spec: one iteration of the backend orchestrator loop
(spec §4.3; outcome handling per the bullet list there, the
ProtectionFault case with the identical retry shape via
HandleProtectionFault). -/
def loopStep (st : SimState) : SimState :=
  match st.ready_queue with
  | [] => st
  | pid :: rest =>
    let st := { st with ready_queue := rest }
    let proc := getProc st.mmu pid
    if proc.reference_string.length ≤ proc.current_index then
      handleCompletion st pid
    else
      let page := proc.reference_string.getD proc.current_index 0
      let access := proc.access_types.getD proc.current_index AccessKind.READ
      let r := handle_page_request st.mmu pid page access
      let st := { st with mmu := r.2.2
                          steps := st.steps ++ [mkStep r.2.2 pid page r.1 r.2.1] }
      match r.2.1 with
      | Event.invalid_reference => handleCompletion st pid
      | Event.page_fault =>
        let fr := handle_page_fault st.mmu pid page
        let st := { st with mmu := fr.2
                            steps := st.steps ++ [mkStep fr.2 pid page fr.1 Event.page_fault_handled] }
        returnToReady st pid
      | Event.protection_fault =>
        let fr := handle_protection_fault st.mmu pid page
        let st := { st with mmu := fr.2
                            steps := st.steps ++ [mkStep fr.2 pid page fr.1 Event.page_fault_handled] }
        returnToReady st pid
      | Event.tlb_hit =>
        let mmu := setProc st.mmu pid
          { getProc st.mmu pid with current_index := (getProc st.mmu pid).current_index + 1 }
        let st := { st with mmu := mmu }
        let proc := getProc st.mmu pid
        if proc.current_index < proc.reference_string.length then returnToReady st pid
        else handleCompletion st pid
      | Event.page_hit =>
        let mmu := setProc st.mmu pid
          { getProc st.mmu pid with current_index := (getProc st.mmu pid).current_index + 1 }
        let st := { st with mmu := mmu }
        let proc := getProc st.mmu pid
        if proc.current_index < proc.reference_string.length then returnToReady st pid
        else handleCompletion st pid
      | _ => st

def simActive (st : SimState) : Bool :=
  !(decide (st.mmu.k ≤ st.completed_count)) && !st.ready_queue.isEmpty

def iterate : Nat → SimState → SimState
  | 0, st => st
  | n + 1, st => if simActive st then iterate n (loopStep st) else st

end Backend

/-! ## Concrete configurations and states used by the theorems -/

/-- Scenario A (spec §8): 1 process, 3 pages, 2 frames, TLB size 1, FIFO,
reference sequence [0,1,2,0,1], with explicit reference strings. -/
def scenarioA : PyCore.SimState :=
  PyCore.configure 1 3 2 1 PyCore.Alg.FIFO [[0, 1, 2, 0, 1]]

/-- The sharing run refuting double-free safety: 2 processes, sharing
enabled (page 0 shareable), 2 frames, quota 1 each (the allocation the
source computes for this configuration), process 0 references [0,0] and
process 1 references [0], all reads. -/
def shareRunInit : Backend.SimState :=
  { mmu := Backend.initMMU 2 1 2 2 Backend.Alg.LRU true
      [ { pid := 0, m := 1, allocount := 1, reference_string := [0, 0] },
        { pid := 1, m := 1, allocount := 1, reference_string := [0] } ]
    ready_queue := [0, 1]
    completed_count := 0
    steps := [] }

/-- A backend MMU state with a free frame available while process 0 is at
its quota: one process of two pages, page 0 resident in frame 0, frame 1
free, sharing disabled. -/
def quotaFullState : Backend.MMU :=
  { k := 1, m := 2, f := 2, s := 1, algorithm := Backend.Alg.LRU
    enable_shared_memory := false, shared_page_numbers := []
    page_table := [[{ frame := 0, valid := true, time := 1, frequency := 1 }, {}]]
    tlb := [{}]
    free_frames := [1]
    physical_memory := [0, -1]
    timestamp := 5
    page_fault_counts := [1]
    tlb_hit_count := 0, page_hit_count := 0
    processes := [{ pid := 0, m := 2, allocount := 1, usecount := 1, reference_string := [0, 1] }] }

/-- A python-core MMU state whose TLB holds the mapping for (process 0,
page 0) while the page-table entry carries stale recency metadata. -/
def tlbHitState : PyCore.MMU :=
  { k := 1, m := 1, f := 1, s := 1, algorithm := PyCore.Alg.LRU
    page_table := [[{ frame := 0, valid := true, time := 5, frequency := 2 }]]
    tlb := [{ pid := 0, pageno := 0, frameno := 0, time := 3, valid := true }]
    free_frames := []
    physical_memory := [0]
    timestamp := 10
    page_fault_counts := [1]
    tlb_hit_count := 0, page_hit_count := 0
    processes := [{ pid := 0, m := 1, allocount := 1, usecount := 1, reference_string := [0] }] }

/-- A backend MMU state in which process 1 already holds a valid mapping
for the shareable page 0 (in frame 0) and process 0 is about to fault on
page 0, with sharing enabled. -/
def sharedReadyState : Backend.MMU :=
  { k := 2, m := 1, f := 2, s := 2, algorithm := Backend.Alg.LRU
    enable_shared_memory := true, shared_page_numbers := [0]
    page_table := [[{}], [{ frame := 0, valid := true, time := 1, frequency := 1 }]]
    tlb := [{}, {}], free_frames := [1], physical_memory := [1, -1]
    timestamp := 2, page_fault_counts := [1, 1], tlb_hit_count := 0, page_hit_count := 0
    processes :=
      [ { pid := 0, m := 1, allocount := 1, usecount := 0, reference_string := [0] },
        { pid := 1, m := 1, allocount := 1, usecount := 1, reference_string := [0] } ] }

/-- quotaFullState with the process under its quota instead (2 frames
allowed, 1 in use): the allocation branch of the fault handler applies. -/
def underQuotaState : Backend.MMU :=
  { quotaFullState with processes :=
      [{ pid := 0, m := 2, allocount := 2, usecount := 1, reference_string := [0, 1] }] }

/-- tlbHitState with an invalid TLB slot instead: the same reference
resolves through the page table (page hit). -/
def pageHitState : PyCore.MMU :=
  { tlbHitState with tlb := [{}] }

/-- A python-core simulation state whose single process is about to
reference page 3 while declaring only 1 page: an out-of-range runtime
reference. -/
def invalidRefState : PyCore.SimState :=
  { mmu := { k := 1, m := 1, f := 1, s := 1, algorithm := PyCore.Alg.LRU
             page_table := [[{}]], tlb := [{}], free_frames := [0], physical_memory := [-1]
             timestamp := 0, page_fault_counts := [0]
             tlb_hit_count := 0, page_hit_count := 0
             processes := [{ pid := 0, m := 1, allocount := 1, reference_string := [3] }] }
    ready_queue := [0], completed_count := 0, steps := [] }

/-! ## Theorems -/

set_option maxRecDepth 4000

/-! ### List and TLB helper lemmas -/

lemma getD_set_self {α : Type} (l : List α) (i : Nat) (a d : α) :
    (l.set i a).getD i d = if i < l.length then a else d := by
  induction l generalizing i with
  | nil => simp
  | cons x xs ih =>
    cases i with
    | zero => simp
    | succ n => simpa using ih n

lemma getD_set_ne {α : Type} (l : List α) (i j : Nat) (a d : α) (h : i ≠ j) :
    (l.set i a).getD j d = l.getD j d := by
  induction l generalizing i j with
  | nil => simp
  | cons x xs ih =>
    cases i with
    | zero => cases j with
      | zero => exact absurd rfl h
      | succ n => simp
    | succ n => cases j with
      | zero => simp
      | succ o => simpa using ih n o (by omega)

lemma set_oob {α : Type} (l : List α) (i : Nat) (a : α) (h : l.length ≤ i) : l.set i a = l :=
  List.set_eq_of_length_le h

lemma set_getD_self {α : Type} (l : List α) (i : Nat) (d : α) :
    l.set i (l.getD i d) = l := by
  induction l generalizing i with
  | nil => simp
  | cons x xs ih =>
    cases i with
    | zero => simp
    | succ n => simpa using ih n

lemma pyIdx_nonneg (len : Nat) (i : Int) (h : 0 ≤ i) : pyIdx len i = i := by
  unfold pyIdx
  rw [if_neg (by omega)]

lemma pyGetD_nonneg {α : Type} (l : List α) (i : Int) (d : α) (h : 0 ≤ i) :
    pyGetD l i d = l.getD i.toNat d := by
  unfold pyGetD
  rw [pyIdx_nonneg _ _ h, if_pos h]

lemma pySet_nonneg {α : Type} (l : List α) (i : Int) (a : α) (h : 0 ≤ i) :
    pySet l i a = l.set i.toNat a := by
  unfold pySet
  rw [pyIdx_nonneg _ _ h, if_pos h]

lemma pyGetD_pySet_ne {α : Type} (l : List α) (i v : Int) (a d : α)
    (h0i : 0 ≤ i) (h0v : 0 ≤ v) (hne : v ≠ i) :
    pyGetD (pySet l i a) v d = pyGetD l v d := by
  rw [pySet_nonneg _ _ _ h0i, pyGetD_nonneg _ _ _ h0v, pyGetD_nonneg _ _ _ h0v]
  exact getD_set_ne _ _ _ _ _ (fun he => hne (by omega))

lemma tlbClearPid_idem (tlb : List TLBEntry) (pid : Nat) :
    tlbClearPid (tlbClearPid tlb pid) pid = tlbClearPid tlb pid := by
  unfold tlbClearPid
  rw [List.map_map]
  apply List.map_congr_left
  intro t _
  dsimp only [Function.comp]
  by_cases h : (t.valid && t.pid == (pid : Int)) = true
  · rw [if_pos h, if_neg (by simp)]
  · rw [if_neg h, if_neg h]

lemma tlbUpdateExisting_some (tlb : List TLBEntry) (pid : Nat) (page frame : Int) (now : Nat)
    (l : List TLBEntry) (h : tlbUpdateExisting tlb pid page frame now = some l) :
    ∃ t ∈ l, t.valid = true ∧ t.pid = (pid : Int) ∧ t.pageno = page ∧
      t.frameno = frame ∧ t.time = now := by
  induction tlb generalizing l with
  | nil => exact absurd h (by simp [tlbUpdateExisting])
  | cons t ts ih =>
    rw [tlbUpdateExisting] at h
    by_cases hm : (t.valid && t.pid == (pid : Int) && t.pageno == page) = true
    · rw [if_pos hm] at h
      have hm' := hm
      simp only [Bool.and_eq_true, beq_iff_eq] at hm'
      obtain ⟨⟨hv, hp⟩, hg⟩ := hm'
      refine ⟨{ t with frameno := frame, time := now }, ?_, hv, hp, hg, rfl, rfl⟩
      rw [← Option.some.inj h]
      exact List.mem_cons_self _ _
    · rw [if_neg hm] at h
      cases hr : tlbUpdateExisting ts pid page frame now with
      | none => rw [hr] at h; exact absurd h (by simp)
      | some l' =>
        rw [hr] at h
        simp only [Option.map_some'] at h
        obtain ⟨u, hu, hprops⟩ := ih l' hr
        exact ⟨u, by rw [← Option.some.inj h]; exact List.mem_cons_of_mem _ hu, hprops⟩

lemma tlbFillInvalid_some (tlb : List TLBEntry) (pid : Nat) (page frame : Int) (now : Nat)
    (l : List TLBEntry) (h : tlbFillInvalid tlb pid page frame now = some l) :
    ∃ t ∈ l, t.valid = true ∧ t.pid = (pid : Int) ∧ t.pageno = page ∧
      t.frameno = frame ∧ t.time = now := by
  induction tlb generalizing l with
  | nil => exact absurd h (by simp [tlbFillInvalid])
  | cons t ts ih =>
    rw [tlbFillInvalid] at h
    by_cases hv : t.valid = true
    · rw [if_pos hv] at h
      cases hr : tlbFillInvalid ts pid page frame now with
      | none => rw [hr] at h; exact absurd h (by simp)
      | some l' =>
        rw [hr] at h
        simp only [Option.map_some'] at h
        obtain ⟨u, hu, hprops⟩ := ih l' hr
        exact ⟨u, by rw [← Option.some.inj h]; exact List.mem_cons_of_mem _ hu, hprops⟩
    · rw [if_neg hv] at h
      refine ⟨⟨(pid : Int), page, frame, now, true⟩, ?_, rfl, rfl, rfl, rfl, rfl⟩
      rw [← Option.some.inj h]
      exact List.mem_cons_self _ _

lemma tlbFillInvalid_none_all_valid (tlb : List TLBEntry) (pid : Nat) (page frame : Int)
    (now : Nat) (h : tlbFillInvalid tlb pid page frame now = none) :
    ∀ t ∈ tlb, t.valid = true := by
  induction tlb with
  | nil => intro t ht; simp at ht
  | cons t ts ih =>
    rw [tlbFillInvalid] at h
    by_cases hv : t.valid = true
    · rw [if_pos hv] at h
      intro u hu
      rcases List.mem_cons.mp hu with rfl | hu'
      · exact hv
      · cases hr : tlbFillInvalid ts pid page frame now with
        | none => exact ih hr u hu'
        | some l' => rw [hr] at h; exact absurd h (by simp)
    · rw [if_neg hv] at h
      exact absurd h (by simp)

lemma foldl_min_attained (ts : List TLBEntry) (a : Nat) :
    (ts.foldl (fun x u => min x u.time) a = a) ∨
      (∃ u ∈ ts, ts.foldl (fun x u => min x u.time) a = u.time) := by
  induction ts generalizing a with
  | nil => exact Or.inl rfl
  | cons u us ih =>
    rw [List.foldl_cons]
    rcases ih (min a u.time) with h | h
    · rw [h]
      rcases le_total a u.time with hle | hle
      · exact Or.inl (min_eq_left hle)
      · exact Or.inr ⟨u, List.mem_cons_self _ _, min_eq_right hle⟩
    · obtain ⟨w, hw, hweq⟩ := h
      exact Or.inr ⟨w, List.mem_cons_of_mem _ hw, hweq⟩

lemma tlbMinTime_attained (tlb : List TLBEntry) (hne : tlb ≠ []) :
    ∃ t ∈ tlb, t.time = tlbMinTime tlb := by
  cases tlb with
  | nil => exact absurd rfl hne
  | cons t ts =>
    rw [tlbMinTime]
    rcases foldl_min_attained ts t.time with h | h
    · exact ⟨t, List.mem_cons_self _ _, h.symm⟩
    · obtain ⟨w, hw, hweq⟩ := h
      exact ⟨w, List.mem_cons_of_mem _ hw, hweq.symm⟩

lemma tlbReplaceMin_spec (tlb : List TLBEntry) (mt : Nat) (pid : Nat) (page frame : Int)
    (now : Nat) (hall : ∀ t ∈ tlb, t.valid = true) (hex : ∃ t ∈ tlb, t.time = mt) :
    ∃ t ∈ tlbReplaceMin tlb mt pid page frame now, t.valid = true ∧ t.pid = (pid : Int) ∧
      t.pageno = page ∧ t.frameno = frame ∧ t.time = now := by
  induction tlb with
  | nil => obtain ⟨t, ht, _⟩ := hex; simp at ht
  | cons t ts ih =>
    rw [tlbReplaceMin]
    by_cases hm : (t.time == mt) = true
    · rw [if_pos hm]
      exact ⟨{ t with pid := (pid : Int), pageno := page, frameno := frame, time := now },
        List.mem_cons_self _ _, hall t (List.mem_cons_self _ _), rfl, rfl, rfl, rfl⟩
    · rw [if_neg hm]
      have hex' : ∃ u ∈ ts, u.time = mt := by
        obtain ⟨u, hu, hueq⟩ := hex
        rcases List.mem_cons.mp hu with rfl | hu'
        · exact absurd (by rw [hueq]; exact beq_self_eq_true mt) hm
        · exact ⟨u, hu', hueq⟩
      obtain ⟨u, hu, hprops⟩ := ih (fun x hx => hall x (List.mem_cons_of_mem _ hx)) hex'
      exact ⟨u, List.mem_cons_of_mem _ hu, hprops⟩

/-- After _update_tlb on a nonempty TLB there is a valid entry for
(pid, page) carrying the given frame and timestamp. -/
lemma update_tlb_mem (tlb : List TLBEntry) (pid : Nat) (page frame : Int) (now : Nat)
    (hne : tlb ≠ []) :
    ∃ t ∈ update_tlb tlb pid page frame now, t.valid = true ∧ t.pid = (pid : Int) ∧
      t.pageno = page ∧ t.frameno = frame ∧ t.time = now := by
  unfold update_tlb
  cases h1 : tlbUpdateExisting tlb pid page frame now with
  | some l => exact tlbUpdateExisting_some tlb pid page frame now l h1
  | none =>
    cases h2 : tlbFillInvalid tlb pid page frame now with
    | some l => exact tlbFillInvalid_some tlb pid page frame now l h2
    | none =>
      exact tlbReplaceMin_spec tlb (tlbMinTime tlb) pid page frame now
        (tlbFillInvalid_none_all_valid tlb pid page frame now h2)
        (tlbMinTime_attained tlb hne)

/-- If the TLB holds a valid (pid, page) entry, _update_tlb_time leaves a
valid (pid, page) entry carrying the new timestamp. -/
lemma update_tlb_time_mem (tlb : List TLBEntry) (pid : Nat) (page : Int) (now : Nat)
    (hhit : (check_tlb tlb pid page).2 = true) :
    ∃ t ∈ update_tlb_time tlb pid page now, t.valid = true ∧ t.pid = (pid : Int) ∧
      t.pageno = page ∧ t.time = now := by
  induction tlb with
  | nil => simp [check_tlb] at hhit
  | cons t ts ih =>
    rw [update_tlb_time]
    by_cases hm : (t.valid && t.pid == (pid : Int) && t.pageno == page) = true
    · rw [if_pos hm]
      have hm' := hm
      simp only [Bool.and_eq_true, beq_iff_eq] at hm'
      obtain ⟨⟨hv, hp⟩, hg⟩ := hm'
      exact ⟨{ t with time := now }, List.mem_cons_self _ _, hv, hp, hg, rfl⟩
    · rw [if_neg hm]
      have hhit' : (check_tlb ts pid page).2 = true := by
        unfold check_tlb at hhit ⊢
        rw [@List.find?_cons_of_neg _ (fun u => u.valid && u.pid == (pid : Int) &&
          u.pageno == page) t ts hm] at hhit
        exact hhit
      obtain ⟨u, hu, hprops⟩ := ih hhit'
      exact ⟨u, List.mem_cons_of_mem _ hu, hprops⟩

namespace PyCore

/-- freeGo touches only the listed positions of the row. -/
lemma freeGo_row_not_mem (ps : List Nat) (row : List PTEntry) (free phys : List Int)
    (p : Nat) (hp : p ∉ ps) (d : PTEntry) :
    ((freeGo row free phys ps).1.getD p d) = row.getD p d := by
  induction ps generalizing row free phys with
  | nil => simp [freeGo]
  | cons q ps ih =>
    have hq : p ≠ q := fun h => hp (by simp [h])
    have hps : p ∉ ps := fun h => hp (by simp [h])
    by_cases hv : (row.getD q {}).valid = true
    · rw [freeGo, if_pos hv]
      exact (ih _ _ _ hps).trans (getD_set_ne row q p _ d (fun h => hq h.symm))
    · rw [freeGo, if_neg hv]
      exact ih row free phys hps

/-- After the freeGo loop every listed position is invalid. -/
lemma freeGo_row_invalid (ps : List Nat) (row : List PTEntry) (free phys : List Int)
    (p : Nat) (hp : p ∈ ps) :
    ((freeGo row free phys ps).1.getD p {}).valid = false := by
  induction ps generalizing row free phys with
  | nil => simp at hp
  | cons q ps ih =>
    by_cases hmem : p ∈ ps
    · by_cases hv : (row.getD q {}).valid = true
      · rw [freeGo, if_pos hv]
        exact ih _ _ _ hmem
      · rw [freeGo, if_neg hv]
        exact ih row free phys hmem
    · have hpq : p = q := by
        rcases List.mem_cons.mp hp with h | h
        · exact h
        · exact absurd h hmem
      subst hpq
      by_cases hv : (row.getD p {}).valid = true
      · have hrow := freeGo_row_not_mem ps (row.set p { row.getD p {} with valid := false })
          (free ++ [(row.getD p {}).frame]) (pySet phys (row.getD p {}).frame (-1)) p hmem {}
        rw [freeGo, if_pos hv, hrow, getD_set_self]
        by_cases hlen : p < row.length <;> simp [hlen]
      · have hrow := freeGo_row_not_mem ps row free phys p hmem {}
        rw [freeGo, if_neg hv, hrow]
        simpa using hv

/-- freeGo is the identity when every listed entry is invalid. -/
lemma freeGo_id (ps : List Nat) (row : List PTEntry) (free phys : List Int)
    (h : ∀ p ∈ ps, (row.getD p {}).valid = false) :
    freeGo row free phys ps = (row, free, phys) := by
  induction ps with
  | nil => simp [freeGo]
  | cons q ps ih =>
    have hq : (row.getD q {}).valid = false := h q (by simp)
    have hq2 : ¬((row.getD q {}).valid = true) := by rw [hq]; exact Bool.false_ne_true
    rw [freeGo, if_neg hq2]
    exact ih (fun p hp => h p (by simp [hp]))

lemma use_zero_update (q : Process) (h : q.usecount = 0) : { q with usecount := 0 } = q := by
  cases q
  simp_all

lemma mmu_update_eq (x : MMU) (pt : List (List PTEntry)) (fr ph : List Int)
    (tl : List TLBEntry) (pr : List Process)
    (h1 : pt = x.page_table) (h2 : fr = x.free_frames) (h3 : ph = x.physical_memory)
    (h4 : tl = x.tlb) (h5 : pr = x.processes) :
    { x with page_table := pt, free_frames := fr, physical_memory := ph,
             tlb := tl, processes := pr } = x := by
  subst h1 h2 h3 h4 h5
  rfl

/-- An out-of-range page number is rejected after the clock tick and
before any other state is touched. -/
lemma handle_page_request_invalid (s : MMU) (pid : Nat) (page : Int)
    (h : page < 0 ∨ ((getProc s pid).m : Int) ≤ page) :
    handle_page_request s pid page =
      (-2, Event.invalid_reference, { s with timestamp := s.timestamp + 1 }) := by
  unfold handle_page_request
  rw [if_pos]
  exact h

lemma getProc_free_other (s : MMU) (pid q : Nat) (h : q ≠ pid) :
    getProc (free_process_frames s pid) q = getProc s q := by
  unfold free_process_frames getProc
  exact getD_set_ne _ _ _ _ _ (fun he => h he.symm)

lemma getRow_free_other (s : MMU) (pid q : Nat) (h : q ≠ pid) :
    getRow (free_process_frames s pid) q = getRow s q := by
  unfold free_process_frames getRow
  exact getD_set_ne _ _ _ _ _ (fun he => h he.symm)

lemma getProc_setProc_other (s : MMU) (pid q : Nat) (p : Process) (h : q ≠ pid) :
    getProc (setProc s pid p) q = getProc s q := by
  unfold setProc getProc
  exact getD_set_ne _ _ _ _ _ (fun he => h he.symm)

lemma getRow_setProc (s : MMU) (pid q : Nat) (p : Process) :
    getRow (setProc s pid p) q = getRow s q := rfl

lemma getProc_setProc_self (s : MMU) (pid : Nat) (p : Process) (h : pid < s.processes.length) :
    getProc (setProc s pid p) pid = p := by
  unfold setProc getProc
  rw [getD_set_self, if_pos h]

lemma length_processes_free (s : MMU) (pid : Nat) :
    (free_process_frames s pid).processes.length = s.processes.length := by
  unfold free_process_frames
  exact List.length_set _ _ _

lemma getRow_setEntry_self (s : MMU) (pid : Nat) (page : Int) (e : PTEntry)
    (h2 : pid < s.page_table.length) :
    getRow (setEntry s pid page e) pid = pySet (getRow s pid) page e := by
  show (s.page_table.set pid (pySet (getRow s pid) page e)).getD pid [] = _
  rw [getD_set_self, if_pos h2]

lemma getEntry_setEntry_self (s : MMU) (pid : Nat) (page : Int) (e : PTEntry)
    (h0 : 0 ≤ page) (h1 : page.toNat < (getRow s pid).length) (h2 : pid < s.page_table.length) :
    getEntry (setEntry s pid page e) pid page = e := by
  show pyGetD (getRow (setEntry s pid page e) pid) page {} = e
  rw [getRow_setEntry_self _ _ _ _ h2, pySet_nonneg _ _ _ h0, pyGetD_nonneg _ _ _ h0,
    getD_set_self, if_pos h1]

lemma getRow_setEntry_other (s : MMU) (pid : Nat) (page : Int) (e : PTEntry)
    (q : Nat) (h : q ≠ pid) :
    getRow (setEntry s pid page e) q = getRow s q := by
  show (s.page_table.set pid _).getD q [] = s.page_table.getD q []
  exact getD_set_ne _ _ _ _ _ (fun he => h he.symm)

lemma getEntry_setEntry_other (s : MMU) (pid : Nat) (page : Int) (e : PTEntry)
    (q : Nat) (r : Int) (h : q ≠ pid) :
    getEntry (setEntry s pid page e) q r = getEntry s q r := by
  show pyGetD (getRow (setEntry s pid page e) q) r {} = pyGetD (getRow s q) r {}
  rw [getRow_setEntry_other _ _ _ _ _ h]

/-- The python-core resolve on a TLB hit: the hit counter is bumped, the
TLB entry's recency is refreshed, and the page table is left untouched. -/
lemma request_tlbhit_spec (s : MMU) (pid : Nat) (page : Int)
    (hin : ¬(page < 0 ∨ ((getProc s pid).m : Int) ≤ page))
    (hhit : (check_tlb s.tlb pid page).2 = true) :
    (handle_page_request s pid page).1 = (check_tlb s.tlb pid page).1 ∧
    (handle_page_request s pid page).2.1 = Event.tlb_hit ∧
    (handle_page_request s pid page).2.2.page_table = s.page_table ∧
    (handle_page_request s pid page).2.2.tlb_hit_count = s.tlb_hit_count + 1 ∧
    (handle_page_request s pid page).2.2.page_hit_count = s.page_hit_count ∧
    (handle_page_request s pid page).2.2.timestamp = s.timestamp + 1 ∧
    (∃ t ∈ (handle_page_request s pid page).2.2.tlb, t.valid = true ∧
      t.pid = (pid : Int) ∧ t.pageno = page ∧ t.time = s.timestamp + 1) := by
  have hbr : handle_page_request s pid page =
      ((check_tlb s.tlb pid page).1, Event.tlb_hit,
        { s with timestamp := s.timestamp + 1
                 tlb_hit_count := s.tlb_hit_count + 1
                 tlb := update_tlb_time s.tlb pid page (s.timestamp + 1) }) := by
    unfold handle_page_request
    dsimp only
    rw [show getProc { s with timestamp := s.timestamp + 1 } pid = getProc s pid from rfl]
    rw [if_neg hin]
    rw [show check_tlb ({ s with timestamp := s.timestamp + 1 } : MMU).tlb pid page =
      check_tlb s.tlb pid page from rfl]
    rcases hc : check_tlb s.tlb pid page with ⟨fr, b⟩
    rw [hc] at hhit
    dsimp at hhit
    subst hhit
    rfl
  rw [hbr]
  refine ⟨rfl, rfl, rfl, rfl, rfl, rfl, ?_⟩
  exact update_tlb_time_mem s.tlb pid page (s.timestamp + 1) hhit

/-- The python-core resolve on a TLB miss with a valid entry: the entry's
recency and frequency are refreshed, the mapping is installed in the TLB,
and the page-hit counter alone is bumped. -/
lemma request_pagehit_spec (s : MMU) (pid : Nat) (page : Int)
    (hin : ¬(page < 0 ∨ ((getProc s pid).m : Int) ≤ page))
    (hmiss : (check_tlb s.tlb pid page).2 = false)
    (hv : (getEntry s pid page).valid = true)
    (h0 : 0 ≤ page)
    (hrow : page.toNat < (getRow s pid).length)
    (hpt : pid < s.page_table.length)
    (htlb : s.tlb ≠ []) :
    (handle_page_request s pid page).1 = (getEntry s pid page).frame ∧
    (handle_page_request s pid page).2.1 = Event.page_hit ∧
    getEntry (handle_page_request s pid page).2.2 pid page =
      ⟨(getEntry s pid page).frame, true, s.timestamp + 1,
        (getEntry s pid page).frequency + 1⟩ ∧
    (handle_page_request s pid page).2.2.page_hit_count = s.page_hit_count + 1 ∧
    (handle_page_request s pid page).2.2.tlb_hit_count = s.tlb_hit_count ∧
    (handle_page_request s pid page).2.2.timestamp = s.timestamp + 1 ∧
    (∃ t ∈ (handle_page_request s pid page).2.2.tlb, t.valid = true ∧
      t.pid = (pid : Int) ∧ t.pageno = page ∧
      t.frameno = (getEntry s pid page).frame ∧ t.time = s.timestamp + 1) := by
  set e := getEntry s pid page with he
  set s1 : MMU := { s with timestamp := s.timestamp + 1 } with hs1
  set s2 := setEntry s1 pid page ⟨e.frame, e.valid, s.timestamp + 1, e.frequency + 1⟩ with hs2
  have hbr : handle_page_request s pid page =
      (e.frame, Event.page_hit,
        { s2 with page_hit_count := s2.page_hit_count + 1
                  tlb := update_tlb s2.tlb pid page e.frame (s.timestamp + 1) }) := by
    unfold handle_page_request
    dsimp only
    rw [show getProc { s with timestamp := s.timestamp + 1 } pid = getProc s pid from rfl]
    rw [if_neg hin]
    rw [show check_tlb ({ s with timestamp := s.timestamp + 1 } : MMU).tlb pid page =
      check_tlb s.tlb pid page from rfl]
    rcases hc : check_tlb s.tlb pid page with ⟨fr, b⟩
    rw [hc] at hmiss
    dsimp at hmiss
    subst hmiss
    rw [show getEntry ({ s with timestamp := s.timestamp + 1 } : MMU) pid page =
      getEntry s pid page from rfl]
    rw [if_pos hv]
    rfl
  have hlen1 : page.toNat < (getRow s1 pid).length := hrow
  have hpt1 : pid < s1.page_table.length := hpt
  have hent : getEntry s2 pid page = ⟨e.frame, e.valid, s.timestamp + 1, e.frequency + 1⟩ := by
    rw [hs2]
    exact getEntry_setEntry_self s1 pid page _ h0 hlen1 hpt1
  rw [hbr]
  refine ⟨rfl, rfl, ?_, rfl, rfl, rfl, ?_⟩
  · show getEntry s2 pid page = _
    rw [hent, hv]
  · exact update_tlb_mem s2.tlb pid page e.frame (s.timestamp + 1) (by
      show s.tlb ≠ []
      exact htlb)

end PyCore

namespace Backend

lemma getRow_setEntry_selfB (s : MMU) (pid : Nat) (page : Int) (e : PTEntry)
    (h2 : pid < s.page_table.length) :
    getRow (setEntry s pid page e) pid = pySet (getRow s pid) page e := by
  show (s.page_table.set pid (pySet (getRow s pid) page e)).getD pid [] = _
  rw [getD_set_self, if_pos h2]

lemma getEntry_setEntry_selfB (s : MMU) (pid : Nat) (page : Int) (e : PTEntry)
    (h0 : 0 ≤ page) (h1 : page.toNat < (getRow s pid).length) (h2 : pid < s.page_table.length) :
    getEntry (setEntry s pid page e) pid page = e := by
  show pyGetD (getRow (setEntry s pid page e) pid) page {} = e
  rw [getRow_setEntry_selfB _ _ _ _ h2, pySet_nonneg _ _ _ h0, pyGetD_nonneg _ _ _ h0,
    getD_set_self, if_pos h1]

lemma getRow_setEntry_otherB (s : MMU) (pid : Nat) (page : Int) (e : PTEntry)
    (q : Nat) (h : q ≠ pid) :
    getRow (setEntry s pid page e) q = getRow s q := by
  show (s.page_table.set pid _).getD q [] = s.page_table.getD q []
  exact getD_set_ne _ _ _ _ _ (fun he => h he.symm)

lemma getEntry_setEntry_otherB (s : MMU) (pid : Nat) (page : Int) (e : PTEntry)
    (q : Nat) (r : Int) (h : q ≠ pid) :
    getEntry (setEntry s pid page e) q r = getEntry s q r := by
  show pyGetD (getRow (setEntry s pid page e) q) r {} = pyGetD (getRow s q) r {}
  rw [getRow_setEntry_otherB _ _ _ _ _ h]

/-- What success of the donor scan means: the donor is a different
process, the page is within its declared count, its entry is valid, and
the returned frame is that entry's frame. -/
lemma findShareDonor_spec (s : MMU) (pid : Nat) (page : Int) (d : Nat) (fr : Int)
    (h : findShareDonor s pid page = some (d, fr)) :
    d ≠ pid ∧ page < ((getProc s d).m : Int) ∧ (getEntry s d page).valid = true ∧
      fr = (getEntry s d page).frame ∧ d < s.processes.length := by
  unfold findShareDonor at h
  dsimp only at h
  cases hc : (List.range s.processes.length).filter (fun other =>
      (other != pid) && decide (page < ((getProc s other).m : Int)) &&
        (getEntry s other page).valid) with
  | nil => rw [hc] at h; exact absurd h (by simp)
  | cons a t =>
    rw [hc] at h
    have ha : a ∈ (List.range s.processes.length).filter (fun other =>
        (other != pid) && decide (page < ((getProc s other).m : Int)) &&
          (getEntry s other page).valid) := by
      rw [hc]; exact List.mem_cons_self a t
    obtain ⟨hmem, hprop⟩ := List.mem_filter.mp ha
    have hinj := Option.some.inj h
    rw [Prod.mk.injEq] at hinj
    obtain ⟨h1, h2⟩ := hinj
    subst h1
    simp only [Bool.and_eq_true, bne_iff_ne, decide_eq_true_eq] at hprop
    exact ⟨hprop.1.1, hprop.1.2, hprop.2, h2.symm, List.mem_range.mp hmem⟩

/-- A WRITE against a valid read-only entry is a protection fault: the
sentinel -1 is returned and nothing but the clock changes. -/
lemma handle_page_request_protection (s : MMU) (pid : Nat) (page : Int)
    (hin : ¬(page < 0 ∨ ((getProc s pid).m : Int) ≤ page))
    (hv : (getEntry s pid page).valid = true)
    (hro : (getEntry s pid page).read_only = true) :
    handle_page_request s pid page AccessKind.WRITE =
      (-1, Event.protection_fault, { s with timestamp := s.timestamp + 1 }) := by
  unfold handle_page_request
  dsimp only
  rw [show getEntry { s with timestamp := s.timestamp + 1 } pid page = getEntry s pid page
        from rfl,
      show getProc { s with timestamp := s.timestamp + 1 } pid = getProc s pid from rfl]
  rw [if_neg hin, if_pos hv, if_pos (show AccessKind.WRITE = AccessKind.WRITE ∧
    (getEntry s pid page).read_only = true from ⟨rfl, hro⟩)]

end Backend

namespace Backend

lemma getProc_setProc_selfB (s : MMU) (pid : Nat) (p : Process) (h : pid < s.processes.length) :
    getProc (setProc s pid p) pid = p := by
  unfold setProc getProc
  rw [getD_set_self, if_pos h]

lemma getProc_setProc_otherB (s : MMU) (pid q : Nat) (p : Process) (h : q ≠ pid) :
    getProc (setProc s pid p) q = getProc s q := by
  unfold setProc getProc
  exact getD_set_ne _ _ _ _ _ (fun he => h he.symm)

/-- Outside the sharing branch the fault handler reduces to its
non-shared allocation tail. -/
lemma no_sharing_branch (s : MMU) (pid : Nat) (page : Int)
    (hnoshare : ¬(s.enable_shared_memory = true ∧ s.shared_page_numbers.contains page = true ∧
      (findShareDonor s pid page).isSome = true)) :
    handle_page_fault s pid page = handlePageFaultNormal s pid page := by
  unfold handle_page_fault
  by_cases hg : (s.enable_shared_memory && s.shared_page_numbers.contains page) = true
  · rw [if_pos hg]
    cases hd : findShareDonor s pid page with
    | none => rfl
    | some df =>
      exfalso
      apply hnoshare
      have hg' := hg
      rw [Bool.and_eq_true] at hg'
      exact ⟨hg'.1, hg'.2, by rw [hd]; rfl⟩
  · rw [if_neg hg]

/-- The backend resolve on a valid entry that is not a read-only WRITE:
recency and frequency are refreshed, the TLB entry is installed or
refreshed, and exactly one of the two hit counters is bumped, depending on
whether the TLB already held the mapping. -/
lemma request_hit_spec (s : MMU) (pid : Nat) (page : Int) (access : AccessKind)
    (hin : ¬(page < 0 ∨ ((getProc s pid).m : Int) ≤ page))
    (hv : (getEntry s pid page).valid = true)
    (hw : ¬(access = AccessKind.WRITE ∧ (getEntry s pid page).read_only = true))
    (h0 : 0 ≤ page)
    (hrow : page.toNat < (getRow s pid).length)
    (hpt : pid < s.page_table.length)
    (htlb : s.tlb ≠ []) :
    (handle_page_request s pid page access).1 = (getEntry s pid page).frame ∧
    getEntry (handle_page_request s pid page access).2.2 pid page =
      ⟨(getEntry s pid page).frame, true, s.timestamp + 1,
        (getEntry s pid page).frequency + 1, (getEntry s pid page).read_only,
        (getEntry s pid page).shared⟩ ∧
    (handle_page_request s pid page access).2.2.timestamp = s.timestamp + 1 ∧
    (∃ t ∈ (handle_page_request s pid page access).2.2.tlb, t.valid = true ∧
      t.pid = (pid : Int) ∧ t.pageno = page ∧ t.time = s.timestamp + 1) ∧
    ((check_tlb s.tlb pid page).2 = true →
      (handle_page_request s pid page access).2.1 = Event.tlb_hit ∧
      (handle_page_request s pid page access).2.2.tlb_hit_count = s.tlb_hit_count + 1 ∧
      (handle_page_request s pid page access).2.2.page_hit_count = s.page_hit_count) ∧
    ((check_tlb s.tlb pid page).2 = false →
      (handle_page_request s pid page access).2.1 = Event.page_hit ∧
      (handle_page_request s pid page access).2.2.page_hit_count = s.page_hit_count + 1 ∧
      (handle_page_request s pid page access).2.2.tlb_hit_count = s.tlb_hit_count) := by
  set e := getEntry s pid page with he
  set s1 : MMU := { s with timestamp := s.timestamp + 1 } with hs1
  set s2 := setEntry s1 pid page
    ⟨e.frame, e.valid, s.timestamp + 1, e.frequency + 1, e.read_only, e.shared⟩ with hs2
  have hent : getEntry s2 pid page =
      ⟨e.frame, e.valid, s.timestamp + 1, e.frequency + 1, e.read_only, e.shared⟩ := by
    rw [hs2]
    exact getEntry_setEntry_selfB s1 pid page _ h0 hrow hpt
  have hbr : handle_page_request s pid page access =
      (if (check_tlb s.tlb pid page).2 then
        (e.frame, Event.tlb_hit,
          { s2 with tlb_hit_count := s2.tlb_hit_count + 1
                    tlb := update_tlb_time s2.tlb pid page (s.timestamp + 1) })
      else
        (e.frame, Event.page_hit,
          { s2 with page_hit_count := s2.page_hit_count + 1
                    tlb := update_tlb s2.tlb pid page e.frame (s.timestamp + 1) })) := by
    unfold handle_page_request
    dsimp only
    rw [show getProc { s with timestamp := s.timestamp + 1 } pid = getProc s pid from rfl]
    rw [if_neg hin]
    rw [show getEntry ({ s with timestamp := s.timestamp + 1 } : MMU) pid page =
      getEntry s pid page from rfl]
    rw [if_pos hv, if_neg hw]
    rw [show check_tlb ({ s with timestamp := s.timestamp + 1 } : MMU).tlb pid page =
      check_tlb s.tlb pid page from rfl]
    by_cases hc : (check_tlb s.tlb pid page).2 = true
    · rw [if_pos hc, if_pos hc]
      rfl
    · rw [if_neg hc, if_neg hc]
      rfl
  have hs2tlb : s2.tlb = s.tlb := rfl
  by_cases hc : (check_tlb s.tlb pid page).2 = true
  · rw [hbr, if_pos hc]
    refine ⟨rfl, ?_, rfl, ?_, fun _ => ⟨rfl, rfl, rfl⟩,
      fun hcf => absurd hc (by rw [hcf]; simp)⟩
    · show getEntry s2 pid page = _
      rw [hent, hv]
    · show ∃ t ∈ update_tlb_time s2.tlb pid page (s.timestamp + 1), _
      rw [hs2tlb]
      exact update_tlb_time_mem s.tlb pid page (s.timestamp + 1) hc
  · rw [hbr, if_neg hc]
    refine ⟨rfl, ?_, rfl, ?_, fun hct => absurd hct hc, fun _ => ⟨rfl, rfl, rfl⟩⟩
    · show getEntry s2 pid page = _
      rw [hent, hv]
    · show ∃ t ∈ update_tlb s2.tlb pid page e.frame (s.timestamp + 1), _
      rw [hs2tlb]
      obtain ⟨t, ht, h1, h2, h3, _, h4⟩ := update_tlb_mem s.tlb pid page e.frame
        (s.timestamp + 1) htlb
      exact ⟨t, ht, h1, h2, h3, h4⟩

end Backend

/-- Claim C8: for 1 process, 3 pages, 2 frames, TLB size 1, FIFO and
reference sequence [0,1,2,0,1], the run faults on the first three
references (pages 0 and 1 fill frames 0 and 1; page 2 evicts the page
holding the smaller frame id, page 0, and reuses frame 0), faults a fourth
time when page 0 is re-referenced, and hits on the fifth reference to the
still-resident page 1. -/
theorem C8_scenarioA_trace :
    ((PyCore.iterate 9 scenarioA).steps.map (fun st => st.event) =
      [Event.page_fault, Event.page_fault_handled, Event.tlb_hit,
       Event.page_fault, Event.page_fault_handled, Event.tlb_hit,
       Event.page_fault, Event.page_fault_handled, Event.tlb_hit,
       Event.page_fault, Event.page_fault_handled, Event.tlb_hit,
       Event.page_hit, Event.process_complete]) ∧
    (PyCore.iterate 9 scenarioA).mmu.page_fault_counts = [4] ∧
    (PyCore.getEntry (PyCore.iterate 4 scenarioA).mmu 0 0).frame = 0 ∧
    (PyCore.getEntry (PyCore.iterate 4 scenarioA).mmu 0 1).frame = 1 ∧
    (PyCore.getEntry (PyCore.iterate 5 scenarioA).mmu 0 0).valid = false ∧
    (PyCore.getEntry (PyCore.iterate 5 scenarioA).mmu 0 2).frame = 0 ∧
    (PyCore.getEntry (PyCore.iterate 5 scenarioA).mmu 0 1).valid = true ∧
    ((PyCore.iterate 9 scenarioA).steps.getD 9 {}).page_number = 0 ∧
    ((PyCore.iterate 9 scenarioA).steps.getD 9 {}).event = Event.page_fault ∧
    ((PyCore.iterate 9 scenarioA).steps.getD 12 {}).page_number = 1 ∧
    ((PyCore.iterate 9 scenarioA).steps.getD 12 {}).event = Event.page_hit := by
  decide

/-- Claim C2 (failing run): in the sharing run from shareRunInit, after
process 1 — whose only valid mapping is the shared frame 0 — completes,
frame 0 sits in the free pool while process 0 still holds a valid mapping
to it, and the accounting invariant breaks: pool size plus the summed
usage counters is 3 against 2 total frames.  This is after the sharing
installation completed, not during it. -/
theorem C2_shared_frame_double_free :
    ((Backend.iterate 4 shareRunInit).mmu.free_frames.length +
      ((Backend.iterate 4 shareRunInit).mmu.processes.map (fun p => p.usecount)).sum = 3) ∧
    (Backend.iterate 4 shareRunInit).mmu.f = 2 ∧
    (0 : Int) ∈ (Backend.iterate 4 shareRunInit).mmu.free_frames ∧
    (Backend.getEntry (Backend.iterate 4 shareRunInit).mmu 0 0).valid = true ∧
    (Backend.getEntry (Backend.iterate 4 shareRunInit).mmu 0 0).frame = 0 := by
  decide

/-- Claim C1 (counterexample): at quotaFullState a free frame exists
(pool = [1]) and the sharing branch is not taken, yet — because the
process is at its quota — HandlePageFault evicts the process's own page 0
instead of taking the free frame: the pool is unchanged and the usage
counter is not incremented, refuting the claim's "in every other case a
frame is taken from the free pool and the counter is incremented". -/
theorem C1_counterexample :
    quotaFullState.free_frames = [1] ∧
    quotaFullState.enable_shared_memory = false ∧
    (Backend.handle_page_fault quotaFullState 0 1).2.free_frames = [1] ∧
    (Backend.getProc (Backend.handle_page_fault quotaFullState 0 1).2 0).usecount = 1 ∧
    (Backend.getEntry (Backend.handle_page_fault quotaFullState 0 1).2 0 0).valid = false := by
  decide

/-- Claim C4 (counterexample): at tlbHitState the python core resolves a
reference to a valid page through a TLB hit, yet leaves the page-table
entry's lastAccessTime at 5 (the clock is 11) and its accessFrequency at
2, refuting the claim's universal refresh of the entry. -/
theorem C4_counterexample :
    (PyCore.handle_page_request tlbHitState 0 0).2.1 = Event.tlb_hit ∧
    (PyCore.getEntry tlbHitState 0 0).valid = true ∧
    (PyCore.handle_page_request tlbHitState 0 0).2.2.timestamp = 11 ∧
    (PyCore.getEntry (PyCore.handle_page_request tlbHitState 0 0).2.2 0 0).time = 5 ∧
    (PyCore.getEntry (PyCore.handle_page_request tlbHitState 0 0).2.2 0 0).frequency = 2 := by
  decide

/-- Claim C1 (amended): for a HandlePageFault call that does not take the
sharing-installation branch, a page is evicted from the faulting
process's own pages if and only if no free frame exists OR the process is
at/over its frame quota — the pool and every usage counter are then left
unchanged, and no other process's page table is touched; only when a free
frame exists AND the process is under quota is the last pooled frame
taken and that process's usage counter incremented by exactly one, with
no entry of any process invalidated. -/
theorem C1_allocation_branch_amended (s : Backend.MMU) (pid : Nat) (page : Int)
    (hnoshare : ¬(s.enable_shared_memory = true ∧ s.shared_page_numbers.contains page = true ∧
      (Backend.findShareDonor s pid page).isSome = true))
    (h0 : 0 ≤ page)
    (hpt : pid < s.page_table.length)
    (hpl : pid < s.processes.length) :
    ((s.free_frames.length = 0 ∨
        (Backend.getProc s pid).allocount ≤ (Backend.getProc s pid).usecount) →
      (Backend.handle_page_fault s pid page).1 = (Backend.evict_page s pid).1 ∧
      (Backend.handle_page_fault s pid page).2.free_frames = s.free_frames ∧
      (Backend.handle_page_fault s pid page).2.processes = s.processes ∧
      (∀ q, q ≠ pid → Backend.getRow (Backend.handle_page_fault s pid page).2 q =
        Backend.getRow s q)) ∧
    (¬(s.free_frames.length = 0 ∨
        (Backend.getProc s pid).allocount ≤ (Backend.getProc s pid).usecount) →
      (Backend.handle_page_fault s pid page).1 = s.free_frames.getLastD (-1) ∧
      (Backend.handle_page_fault s pid page).2.free_frames = s.free_frames.dropLast ∧
      (Backend.getProc (Backend.handle_page_fault s pid page).2 pid).usecount =
        (Backend.getProc s pid).usecount + 1 ∧
      (∀ q, q ≠ pid → Backend.getProc (Backend.handle_page_fault s pid page).2 q =
        Backend.getProc s q) ∧
      (∀ v, 0 ≤ v → v ≠ page →
        Backend.getEntry (Backend.handle_page_fault s pid page).2 pid v =
          Backend.getEntry s pid v) ∧
      (∀ q, q ≠ pid → Backend.getRow (Backend.handle_page_fault s pid page).2 q =
        Backend.getRow s q)) := by
  open Backend in
  rw [Backend.no_sharing_branch s pid page hnoshare]
  constructor
  · intro hcond
    set ev := Backend.evict_page s pid with hev
    set s1 := ev.2 with hs1
    set s2 := Backend.setEntry s1 pid page ⟨ev.1, true, s1.timestamp, 1, false, false⟩ with hs2
    have hbr : Backend.handlePageFaultNormal s pid page =
        (ev.1, { s2 with physical_memory := pySet s2.physical_memory ev.1 (pid : Int)
                         tlb := update_tlb s2.tlb pid page ev.1 s2.timestamp }) := by
      unfold Backend.handlePageFaultNormal Backend.allocateFrame
      rw [if_pos hcond]
    rw [hbr]
    refine ⟨rfl, rfl, rfl, ?_⟩
    intro q hq
    show Backend.getRow s2 q = Backend.getRow s q
    rw [hs2, Backend.getRow_setEntry_otherB _ _ _ _ _ hq]
    show Backend.getRow (Backend.evictVictim s pid (Backend.selectVictim s pid)).2 q =
      Backend.getRow s q
    unfold Backend.evictVictim
    dsimp only
    exact Backend.getRow_setEntry_otherB _ _ _ _ _ hq
  · intro hcond
    set fr := s.free_frames.getLastD (-1) with hfr
    set sA := Backend.setProc { s with free_frames := s.free_frames.dropLast } pid
      { Backend.getProc s pid with usecount := (Backend.getProc s pid).usecount + 1 } with hsA
    set s2 := Backend.setEntry sA pid page ⟨fr, true, sA.timestamp, 1, false, false⟩ with hs2
    have hbr : Backend.handlePageFaultNormal s pid page =
        (fr, { s2 with physical_memory := pySet s2.physical_memory fr (pid : Int)
                       tlb := update_tlb s2.tlb pid page fr s2.timestamp }) := by
      unfold Backend.handlePageFaultNormal Backend.allocateFrame
      rw [if_neg hcond]
    rw [hbr]
    have hprocA : Backend.getProc sA pid =
        { Backend.getProc s pid with usecount := (Backend.getProc s pid).usecount + 1 } := by
      rw [hsA]
      exact Backend.getProc_setProc_selfB _ _ _ hpl
    refine ⟨rfl, rfl, ?_, ?_, ?_, ?_⟩
    · show (Backend.getProc s2 pid).usecount = _
      have hsame : Backend.getProc s2 pid = Backend.getProc sA pid := rfl
      rw [hsame, hprocA]
    · intro q hq
      show Backend.getProc sA q = Backend.getProc s q
      rw [hsA, Backend.getProc_setProc_otherB _ _ _ _ hq]
      rfl
    · intro v h0v hvne
      show Backend.getEntry s2 pid v = Backend.getEntry s pid v
      rw [hs2]
      show pyGetD (Backend.getRow (Backend.setEntry sA pid page _) pid) v {} =
        pyGetD (Backend.getRow s pid) v {}
      rw [Backend.getRow_setEntry_selfB _ _ _ _ (by
        show pid < (s.page_table : List (List Backend.PTEntry)).length
        exact hpt)]
      rw [pyGetD_pySet_ne _ _ _ _ _ h0 h0v hvne]
      rfl
    · intro q hq
      show Backend.getRow s2 q = Backend.getRow s q
      rw [hs2, Backend.getRow_setEntry_otherB _ _ _ _ _ hq]
      rfl

/-- Witness for C1 (amended): at quotaFullState a free frame exists but
the process is at quota, so the pool stays [1] and the usage counter
stays put; at underQuotaState the process is under quota, so the pooled
frame 1 is taken and the counter goes from 1 to 2. -/
theorem C1_allocation_branch_amended_witness :
    (Backend.handle_page_fault quotaFullState 0 1).2.free_frames = [1] ∧
    (Backend.handle_page_fault quotaFullState 0 1).2.processes = quotaFullState.processes ∧
    (Backend.handle_page_fault underQuotaState 0 1).1 = 1 ∧
    (Backend.handle_page_fault underQuotaState 0 1).2.free_frames = [] ∧
    (Backend.getProc (Backend.handle_page_fault underQuotaState 0 1).2 0).usecount = 2 := by
  have h1 := C1_allocation_branch_amended quotaFullState 0 1 (by decide) (by decide)
    (by decide) (by decide)
  have h2 := C1_allocation_branch_amended underQuotaState 0 1 (by decide) (by decide)
    (by decide) (by decide)
  have hc1 := h1.1 (by decide)
  have hc2 := h2.2 (by decide)
  refine ⟨hc1.2.1, hc1.2.2.1, ?_, hc2.2.1, ?_⟩
  · rw [hc2.1]
    decide
  · rw [hc2.2.2.1]
    decide

/-- Claim C4 (amended): in the backend core the claim holds as stated —
a resolve on a valid entry that is not a read-only WRITE refreshes the
entry's lastAccessTime to the new clock, increments its accessFrequency,
installs/refreshes the TLB entry, and bumps exactly the TLB-hit counter
when the TLB already held the mapping, else exactly the page-hit counter.
In the python core the same holds on the page-hit path (TLB miss, valid
entry), but on a TLB hit the page table is left untouched — only the TLB
entry's recency is refreshed and the TLB-hit counter bumped. -/
theorem C4_hit_bookkeeping_amended :
    (∀ (s : Backend.MMU) (pid : Nat) (page : Int) (access : AccessKind),
      ¬(page < 0 ∨ ((Backend.getProc s pid).m : Int) ≤ page) →
      (Backend.getEntry s pid page).valid = true →
      ¬(access = AccessKind.WRITE ∧ (Backend.getEntry s pid page).read_only = true) →
      0 ≤ page →
      page.toNat < (Backend.getRow s pid).length →
      pid < s.page_table.length →
      s.tlb ≠ [] →
      (Backend.handle_page_request s pid page access).1 = (Backend.getEntry s pid page).frame ∧
      Backend.getEntry (Backend.handle_page_request s pid page access).2.2 pid page =
        ⟨(Backend.getEntry s pid page).frame, true, s.timestamp + 1,
          (Backend.getEntry s pid page).frequency + 1, (Backend.getEntry s pid page).read_only,
          (Backend.getEntry s pid page).shared⟩ ∧
      (Backend.handle_page_request s pid page access).2.2.timestamp = s.timestamp + 1 ∧
      (∃ t ∈ (Backend.handle_page_request s pid page access).2.2.tlb, t.valid = true ∧
        t.pid = (pid : Int) ∧ t.pageno = page ∧ t.time = s.timestamp + 1) ∧
      ((check_tlb s.tlb pid page).2 = true →
        (Backend.handle_page_request s pid page access).2.1 = Event.tlb_hit ∧
        (Backend.handle_page_request s pid page access).2.2.tlb_hit_count =
          s.tlb_hit_count + 1 ∧
        (Backend.handle_page_request s pid page access).2.2.page_hit_count =
          s.page_hit_count) ∧
      ((check_tlb s.tlb pid page).2 = false →
        (Backend.handle_page_request s pid page access).2.1 = Event.page_hit ∧
        (Backend.handle_page_request s pid page access).2.2.page_hit_count =
          s.page_hit_count + 1 ∧
        (Backend.handle_page_request s pid page access).2.2.tlb_hit_count =
          s.tlb_hit_count)) ∧
    (∀ (s : PyCore.MMU) (pid : Nat) (page : Int),
      ¬(page < 0 ∨ ((PyCore.getProc s pid).m : Int) ≤ page) →
      (check_tlb s.tlb pid page).2 = false →
      (PyCore.getEntry s pid page).valid = true →
      0 ≤ page →
      page.toNat < (PyCore.getRow s pid).length →
      pid < s.page_table.length →
      s.tlb ≠ [] →
      (PyCore.handle_page_request s pid page).1 = (PyCore.getEntry s pid page).frame ∧
      (PyCore.handle_page_request s pid page).2.1 = Event.page_hit ∧
      PyCore.getEntry (PyCore.handle_page_request s pid page).2.2 pid page =
        ⟨(PyCore.getEntry s pid page).frame, true, s.timestamp + 1,
          (PyCore.getEntry s pid page).frequency + 1⟩ ∧
      (PyCore.handle_page_request s pid page).2.2.page_hit_count = s.page_hit_count + 1 ∧
      (PyCore.handle_page_request s pid page).2.2.tlb_hit_count = s.tlb_hit_count ∧
      (PyCore.handle_page_request s pid page).2.2.timestamp = s.timestamp + 1 ∧
      (∃ t ∈ (PyCore.handle_page_request s pid page).2.2.tlb, t.valid = true ∧
        t.pid = (pid : Int) ∧ t.pageno = page ∧
        t.frameno = (PyCore.getEntry s pid page).frame ∧ t.time = s.timestamp + 1)) ∧
    (∀ (s : PyCore.MMU) (pid : Nat) (page : Int),
      ¬(page < 0 ∨ ((PyCore.getProc s pid).m : Int) ≤ page) →
      (check_tlb s.tlb pid page).2 = true →
      (PyCore.handle_page_request s pid page).1 = (check_tlb s.tlb pid page).1 ∧
      (PyCore.handle_page_request s pid page).2.1 = Event.tlb_hit ∧
      (PyCore.handle_page_request s pid page).2.2.page_table = s.page_table ∧
      (PyCore.handle_page_request s pid page).2.2.tlb_hit_count = s.tlb_hit_count + 1 ∧
      (PyCore.handle_page_request s pid page).2.2.page_hit_count = s.page_hit_count ∧
      (PyCore.handle_page_request s pid page).2.2.timestamp = s.timestamp + 1 ∧
      (∃ t ∈ (PyCore.handle_page_request s pid page).2.2.tlb, t.valid = true ∧
        t.pid = (pid : Int) ∧ t.pageno = page ∧ t.time = s.timestamp + 1)) := by
  refine ⟨?_, ?_, ?_⟩
  · intro s pid page access h1 h2 h3 h4 h5 h6 h7
    exact Backend.request_hit_spec s pid page access h1 h2 h3 h4 h5 h6 h7
  · intro s pid page h1 h2 h3 h4 h5 h6 h7
    exact PyCore.request_pagehit_spec s pid page h1 h2 h3 h4 h5 h6 h7
  · intro s pid page h1 h2
    exact PyCore.request_tlbhit_spec s pid page h1 h2

/-- Witness for C4 (amended) at concrete states: the backend resolves a
valid read as a page hit with refreshed metadata; the python core page-hit
path bumps the page-hit counter; the python TLB-hit path bumps the
TLB-hit counter. -/
theorem C4_hit_bookkeeping_amended_witness :
    (Backend.handle_page_request sharedReadyState 1 0 AccessKind.READ).2.1 =
      Event.page_hit ∧
    (PyCore.handle_page_request pageHitState 0 0).2.1 = Event.page_hit ∧
    (PyCore.handle_page_request pageHitState 0 0).2.2.page_hit_count = 1 ∧
    (PyCore.handle_page_request tlbHitState 0 0).2.2.tlb_hit_count = 1 := by
  have h := C4_hit_bookkeeping_amended
  refine ⟨?_, ?_, ?_, ?_⟩
  · have hb := h.1 sharedReadyState 1 0 AccessKind.READ (by decide) (by decide) (by decide)
      (by decide) (by decide) (by decide) (by decide)
    exact (hb.2.2.2.2.2 (by decide)).1
  · have hp := h.2.1 pageHitState 0 0 (by decide) (by decide) (by decide) (by decide)
      (by decide) (by decide) (by decide)
    exact hp.2.1
  · have hp := h.2.1 pageHitState 0 0 (by decide) (by decide) (by decide) (by decide)
      (by decide) (by decide) (by decide)
    rw [hp.2.2.2.1]
    decide
  · have ht := h.2.2 tlbHitState 0 0 (by decide) (by decide)
    rw [ht.2.2.2.1]
    decide

/-- Claim C9: FreeProcessFrames is idempotent — a second call on a
process whose frames have already been freed leaves the free pool, the
physical-memory map, the page tables and the TLB exactly as the first
call left them (so no frame is ever returned to the pool twice), and the
process's usage counter remains 0. -/
theorem C9_free_process_frames_idempotent (s : PyCore.MMU) (pid : Nat) :
    PyCore.free_process_frames (PyCore.free_process_frames s pid) pid =
      PyCore.free_process_frames s pid ∧
    (PyCore.getProc (PyCore.free_process_frames s pid) pid).usecount = 0 := by
  open PyCore in
  set mP := (getProc s pid).m with hmP
  set rfp := PyCore.freeGo (getRow s pid) s.free_frames s.physical_memory (List.range mP) with hrfp
  set sQ := PyCore.free_process_frames s pid with hsQ
  have hsQdef : sQ = { s with
      page_table := s.page_table.set pid rfp.1
      free_frames := rfp.2.1
      physical_memory := rfp.2.2
      tlb := tlbClearPid s.tlb pid
      processes := s.processes.set pid { PyCore.getProc s pid with usecount := 0 } } := rfl
  have hprocQ : PyCore.getProc sQ pid =
      if pid < s.processes.length then { PyCore.getProc s pid with usecount := 0 }
      else PyCore.getProc s pid := by
    rw [hsQdef]
    show (s.processes.set pid _).getD pid {} = _
    by_cases h : pid < s.processes.length
    · rw [getD_set_self, if_pos h, if_pos h]
    · rw [set_oob _ _ _ (le_of_not_lt h), if_neg h]
      rfl
  have hmQ : (PyCore.getProc sQ pid).m = mP := by
    rw [hprocQ]
    by_cases h : pid < s.processes.length
    · rw [if_pos h]
    · rw [if_neg h]
  have huseQ : (PyCore.getProc sQ pid).usecount = 0 := by
    rw [hprocQ]
    by_cases h : pid < s.processes.length
    · rw [if_pos h]
    · rw [if_neg h]
      show (s.processes.getD pid {}).usecount = 0
      rw [List.getD_eq_default _ _ (le_of_not_lt h)]
  have hrowQ : PyCore.getRow sQ pid = rfp.1 := by
    rw [hsQdef]
    show (s.page_table.set pid rfp.1).getD pid [] = rfp.1
    by_cases h : pid < s.page_table.length
    · rw [getD_set_self, if_pos h]
    · rw [set_oob _ _ _ (le_of_not_lt h)]
      have hrowe : PyCore.getRow s pid = [] := by
        show s.page_table.getD pid [] = []
        exact List.getD_eq_default _ _ (le_of_not_lt h)
      have hid : rfp = (PyCore.getRow s pid, s.free_frames, s.physical_memory) := by
        rw [hrfp]
        exact PyCore.freeGo_id _ _ _ _ (by intro p _; rw [hrowe]; rfl)
      show PyCore.getRow s pid = rfp.1
      rw [hid, hrowe]
  have hfreeQ : sQ.free_frames = rfp.2.1 := by rw [hsQdef]
  have hphysQ : sQ.physical_memory = rfp.2.2 := by rw [hsQdef]
  have htlbQ : sQ.tlb = tlbClearPid s.tlb pid := by rw [hsQdef]
  have hfg2 : PyCore.freeGo (PyCore.getRow sQ pid) sQ.free_frames sQ.physical_memory
      (List.range (PyCore.getProc sQ pid).m) = (rfp.1, rfp.2.1, rfp.2.2) := by
    rw [hrowQ, hfreeQ, hphysQ, hmQ]
    exact PyCore.freeGo_id _ _ _ _ (fun p hp => PyCore.freeGo_row_invalid _ _ _ _ p hp)
  refine ⟨?_, huseQ⟩
  have houter : PyCore.free_process_frames sQ pid = { sQ with
      page_table := sQ.page_table.set pid (PyCore.freeGo (PyCore.getRow sQ pid) sQ.free_frames
        sQ.physical_memory (List.range (PyCore.getProc sQ pid).m)).1
      free_frames := (PyCore.freeGo (PyCore.getRow sQ pid) sQ.free_frames
        sQ.physical_memory (List.range (PyCore.getProc sQ pid).m)).2.1
      physical_memory := (PyCore.freeGo (PyCore.getRow sQ pid) sQ.free_frames
        sQ.physical_memory (List.range (PyCore.getProc sQ pid).m)).2.2
      tlb := tlbClearPid sQ.tlb pid
      processes := sQ.processes.set pid { PyCore.getProc sQ pid with usecount := 0 } } := rfl
  rw [houter]
  have hpr : sQ.processes.set pid { PyCore.getProc sQ pid with usecount := 0 } = sQ.processes := by
    rw [PyCore.use_zero_update _ huseQ]
    exact set_getD_self sQ.processes pid {}
  apply PyCore.mmu_update_eq
  · rw [hfg2]
    rw [hsQdef]
    show (s.page_table.set pid rfp.1).set pid rfp.1 = s.page_table.set pid rfp.1
    rw [List.set_set]
  · rw [hfg2, hfreeQ]
  · rw [hfg2, hphysQ]
  · rw [htlbQ]
    exact tlbClearPid_idem s.tlb pid
  · exact hpr

/-- Claim C7: a ResolveReference call with an out-of-range page number
returns InvalidReference with frame sentinel -2 and changes nothing but
the clock tick; the orchestrator then completes only the offending
process — it alone is marked complete and dropped from the queue, the
other processes' PCBs and page tables are untouched and remain
scheduled. -/
theorem C7_invalid_reference (st : PyCore.SimState) (pid : Nat) (rest : List Nat) (page : Int)
    (hq : st.ready_queue = pid :: rest)
    (hcur : (PyCore.getProc st.mmu pid).current_index <
      (PyCore.getProc st.mmu pid).reference_string.length)
    (hpage : page = (PyCore.getProc st.mmu pid).reference_string.getD
      (PyCore.getProc st.mmu pid).current_index 0)
    (hout : page < 0 ∨ ((PyCore.getProc st.mmu pid).m : Int) ≤ page)
    (hlen : pid < st.mmu.processes.length) :
    PyCore.handle_page_request st.mmu pid page =
      (-2, Event.invalid_reference, { st.mmu with timestamp := st.mmu.timestamp + 1 }) ∧
    (PyCore.loopStep st).ready_queue = rest ∧
    (PyCore.getProc (PyCore.loopStep st).mmu pid).completed = true ∧
    (PyCore.loopStep st).completed_count = st.completed_count + 1 ∧
    (∀ q, q ≠ pid → PyCore.getProc (PyCore.loopStep st).mmu q = PyCore.getProc st.mmu q) ∧
    (∀ q, q ≠ pid → PyCore.getRow (PyCore.loopStep st).mmu q = PyCore.getRow st.mmu q) ∧
    (PyCore.loopStep st).steps.map (fun x => x.event) =
      st.steps.map (fun x => x.event) ++ [Event.invalid_reference, Event.process_complete] := by
  open PyCore in
  have hr := PyCore.handle_page_request_invalid st.mmu pid page hout
  have hls : PyCore.loopStep st = PyCore.handleCompletion
      { st with ready_queue := rest
                mmu := { st.mmu with timestamp := st.mmu.timestamp + 1 }
                steps := st.steps ++ [PyCore.mkStep { st.mmu with timestamp := st.mmu.timestamp + 1 }
                  pid page (-2) Event.invalid_reference] } pid := by
    rw [PyCore.loopStep.eq_def, hq]
    dsimp only
    rw [if_neg (by omega), ← hpage, hr]
  refine ⟨hr, ?_, ?_, ?_, ?_, ?_, ?_⟩ <;> rw [hls]
  · rfl
  · show (getProc (setProc _ pid _) pid).completed = true
    rw [getProc_setProc_self _ _ _ (by rw [length_processes_free]; exact hlen)]
  · rfl
  · intro q hqq
    show getProc (setProc _ pid _) q = _
    rw [getProc_setProc_other _ _ _ _ hqq, getProc_free_other _ _ _ hqq]
    rfl
  · intro q hqq
    show getRow (setProc _ pid _) q = _
    rw [getRow_setProc, getRow_free_other _ _ _ hqq]
    rfl
  · show (_ ++ [_] ++ [_]).map _ = _
    simp [PyCore.mkStep]

/-- Claim C6: with sharing enabled, a fault on a shareable page already
validly mapped by another process installs a mapping to that same frame
with no allocation (free pool, usage counters and physical-memory map
untouched), marks both processes' entries read-only and shared, and a
subsequent WRITE by either process is a ProtectionFault returning the -1
sentinel with the hit counters untouched. -/
theorem C6_shared_page_mapping_cow (s : Backend.MMU) (pid d : Nat) (page fr : Int)
    (hshare : s.enable_shared_memory = true)
    (hmem : s.shared_page_numbers.contains page = true)
    (hdonor : Backend.findShareDonor s pid page = some (d, fr))
    (h0 : 0 ≤ page)
    (hpm : page < ((Backend.getProc s pid).m : Int))
    (hrowp : page.toNat < (Backend.getRow s pid).length)
    (hrowd : page.toNat < (Backend.getRow s d).length)
    (hptp : pid < s.page_table.length)
    (hptd : d < s.page_table.length) :
    (Backend.handle_page_fault s pid page).1 = fr ∧
    (Backend.handle_page_fault s pid page).2.free_frames = s.free_frames ∧
    (Backend.handle_page_fault s pid page).2.processes = s.processes ∧
    (Backend.handle_page_fault s pid page).2.physical_memory = s.physical_memory ∧
    (Backend.getEntry (Backend.handle_page_fault s pid page).2 pid page) =
      (⟨fr, true, s.timestamp, 1, true, true⟩ : Backend.PTEntry) ∧
    (Backend.getEntry (Backend.handle_page_fault s pid page).2 d page).valid = true ∧
    (Backend.getEntry (Backend.handle_page_fault s pid page).2 d page).frame = fr ∧
    (Backend.getEntry (Backend.handle_page_fault s pid page).2 d page).read_only = true ∧
    (Backend.getEntry (Backend.handle_page_fault s pid page).2 d page).shared = true ∧
    Backend.handle_page_request (Backend.handle_page_fault s pid page).2 pid page
        AccessKind.WRITE =
      (-1, Event.protection_fault,
        { (Backend.handle_page_fault s pid page).2 with
            timestamp := (Backend.handle_page_fault s pid page).2.timestamp + 1 }) ∧
    Backend.handle_page_request (Backend.handle_page_fault s pid page).2 d page
        AccessKind.WRITE =
      (-1, Event.protection_fault,
        { (Backend.handle_page_fault s pid page).2 with
            timestamp := (Backend.handle_page_fault s pid page).2.timestamp + 1 }) := by
  open Backend in
  obtain ⟨hdne, hdm, hdv, hfr, hdlen⟩ := Backend.findShareDonor_spec s pid page d fr hdonor
  set eNew : Backend.PTEntry := ⟨fr, true, s.timestamp, 1, true, true⟩ with heNew
  set s1 := Backend.setEntry s pid page eNew with hs1
  set s2 := Backend.setEntry s1 d page ⟨(Backend.getEntry s1 d page).frame,
    (Backend.getEntry s1 d page).valid, (Backend.getEntry s1 d page).time,
    (Backend.getEntry s1 d page).frequency, true, true⟩ with hs2
  set s3 : Backend.MMU :=
    { s2 with tlb := update_tlb s2.tlb pid page fr s2.timestamp } with hs3
  have hbr : Backend.handle_page_fault s pid page = (fr, s3) := by
    unfold Backend.handle_page_fault
    rw [show (s.enable_shared_memory && s.shared_page_numbers.contains page) = true by
      rw [hshare, hmem]; rfl]
    rw [if_pos rfl, hdonor]
  have hpe : Backend.getEntry s3 pid page = eNew := by
    have h1 : Backend.getEntry s3 pid page = Backend.getEntry s2 pid page := rfl
    have h2 : Backend.getEntry s2 pid page = Backend.getEntry s1 pid page :=
      Backend.getEntry_setEntry_otherB _ _ _ _ _ _ (fun he => hdne he.symm)
    rw [h1, h2, hs1]
    exact Backend.getEntry_setEntry_selfB _ _ _ _ h0 hrowp hptp
  have hde : Backend.getEntry s3 d page = ⟨(Backend.getEntry s d page).frame,
      (Backend.getEntry s d page).valid, (Backend.getEntry s d page).time,
      (Backend.getEntry s d page).frequency, true, true⟩ := by
    have h1 : Backend.getEntry s3 d page = Backend.getEntry s2 d page := rfl
    have h2 : Backend.getEntry s1 d page = Backend.getEntry s d page :=
      Backend.getEntry_setEntry_otherB _ _ _ _ _ _ hdne
    have hrowd1 : page.toNat < (Backend.getRow s1 d).length := by
      rw [hs1, Backend.getRow_setEntry_otherB _ _ _ _ _ hdne]
      exact hrowd
    have hptd1 : d < s1.page_table.length := by
      rw [hs1]
      show d < (s.page_table.set pid _).length
      rw [List.length_set]
      exact hptd
    rw [h1, hs2, Backend.getEntry_setEntry_selfB _ _ _ _ h0 hrowd1 hptd1, h2]
  have hproc3 : ∀ q, Backend.getProc s3 q = Backend.getProc s q := fun q => rfl
  refine ⟨by rw [hbr], by rw [hbr]; rfl, by rw [hbr]; rfl, by rw [hbr]; rfl,
    by rw [hbr]; exact hpe, ?_, ?_, ?_, ?_, ?_, ?_⟩
  · rw [hbr]; show (Backend.getEntry s3 d page).valid = true; rw [hde]; exact hdv
  · rw [hbr]; show (Backend.getEntry s3 d page).frame = fr; rw [hde]; exact hfr.symm
  · rw [hbr]; show (Backend.getEntry s3 d page).read_only = true; rw [hde]
  · rw [hbr]; show (Backend.getEntry s3 d page).shared = true; rw [hde]
  · rw [hbr]
    show Backend.handle_page_request s3 pid page AccessKind.WRITE = _
    apply Backend.handle_page_request_protection
    · rw [hproc3]; omega
    · rw [hpe]
    · rw [hpe]
  · rw [hbr]
    show Backend.handle_page_request s3 d page AccessKind.WRITE = _
    apply Backend.handle_page_request_protection
    · rw [hproc3]; omega
    · rw [hde]; exact hdv
    · rw [hde]

/-- Witness for C6 at sharedReadyState: process 0's fault on page 0
resolves to process 1's frame 0 and a WRITE by either process then
protection-faults. -/
theorem C6_shared_page_mapping_cow_witness :
    (Backend.handle_page_fault sharedReadyState 0 0).1 = 0 ∧
    (Backend.getEntry (Backend.handle_page_fault sharedReadyState 0 0).2 0 0).read_only = true ∧
    (Backend.handle_page_request (Backend.handle_page_fault sharedReadyState 0 0).2 1 0
      AccessKind.WRITE).2.1 = Event.protection_fault ∧
    (Backend.handle_page_request (Backend.handle_page_fault sharedReadyState 0 0).2 0 0
      AccessKind.WRITE).2.1 = Event.protection_fault := by
  have h := C6_shared_page_mapping_cow sharedReadyState 0 1 0 0 rfl (by decide) (by decide)
    (by decide) (by decide) (by decide) (by decide) (by decide) (by decide)
  obtain ⟨h1, _, _, _, h5, _, _, _, _, h10, h11⟩ := h
  refine ⟨h1, ?_, ?_, ?_⟩
  · rw [h5]
  · rw [h11]
  · rw [h10]

/-- Witness for C7 at the concrete state invalidRefState: the single
process references page 3 with 1 declared page, is completed and
dequeued. -/
theorem C7_invalid_reference_witness :
    (PyCore.loopStep invalidRefState).ready_queue = [] ∧
    (PyCore.getProc (PyCore.loopStep invalidRefState).mmu 0).completed = true ∧
    PyCore.handle_page_request invalidRefState.mmu 0 3 =
      (-2, Event.invalid_reference, { invalidRefState.mmu with timestamp := 1 }) := by
  have h := C7_invalid_reference invalidRefState 0 [] 3 rfl (by decide) (by decide)
    (by decide) (by decide)
  exact ⟨h.2.1, h.2.2.1, h.1⟩



section ScanLemmas

variable (valid : Nat → Bool) (key : Nat → Int)

lemma scanGo_fst_le : ∀ (ps : List Nat) (acc : Int × Int), (scanGo valid key ps acc).1 ≤ acc.1 := by
  intro ps
  induction ps with
  | nil => intro acc; exact le_refl _
  | cons p ps ih =>
    intro acc
    rw [scanGo]
    refine le_trans (ih _) ?_
    by_cases h : (valid p && decide (key p < acc.1)) = true
    · rw [if_pos h]
      have := (Bool.and_eq_true _ _).mp h
      exact le_of_lt (of_decide_eq_true this.2)
    · rw [if_neg h]

lemma scanGo_cases : ∀ (ps : List Nat) (acc : Int × Int),
    scanGo valid key ps acc = acc ∨
      ∃ p ∈ ps, valid p = true ∧ scanGo valid key ps acc = (key p, (p : Int)) ∧
        key p < acc.1 := by
  intro ps
  induction ps with
  | nil => intro acc; exact Or.inl rfl
  | cons p ps ih =>
    intro acc
    rw [scanGo]
    by_cases h : (valid p && decide (key p < acc.1)) = true
    · rw [if_pos h]
      obtain ⟨hv, hlt⟩ := (Bool.and_eq_true _ _).mp h
      rcases ih (key p, (p : Int)) with heq | ⟨p', hp', hv', heq', hlt'⟩
      · exact Or.inr ⟨p, List.mem_cons_self _ _, hv, heq, of_decide_eq_true hlt⟩
      · exact Or.inr ⟨p', List.mem_cons_of_mem _ hp', hv', heq',
          lt_trans hlt' (of_decide_eq_true hlt)⟩
    · rw [if_neg h]
      rcases ih acc with heq | ⟨p', hp', hv', heq', hlt'⟩
      · exact Or.inl heq
      · exact Or.inr ⟨p', List.mem_cons_of_mem _ hp', hv', heq', hlt'⟩

lemma scanGo_min : ∀ (ps : List Nat) (acc : Int × Int) (q : Nat), q ∈ ps → valid q = true →
    (scanGo valid key ps acc).1 ≤ key q := by
  intro ps
  induction ps with
  | nil => intro acc q hq; simp at hq
  | cons p ps ih =>
    intro acc q hq hvq
    rw [scanGo]
    rcases List.mem_cons.mp hq with rfl | hq'
    · by_cases h : (valid q && decide (key q < acc.1)) = true
      · rw [if_pos h]
        exact le_trans (scanGo_fst_le valid key ps _) (le_refl _)
      · rw [if_neg h]
        have hnlt : ¬(key q < acc.1) := by
          intro hlt
          exact h (by rw [hvq, decide_eq_true hlt]; rfl)
        exact le_trans (scanGo_fst_le valid key ps acc) (le_of_not_lt hnlt)
    · by_cases h : (valid p && decide (key p < acc.1)) = true
      · rw [if_pos h]
        exact ih _ q hq' hvq
      · rw [if_neg h]
        exact ih acc q hq' hvq

lemma scanGo_tie : ∀ (ps : List Nat) (acc : Int × Int) (q : Nat),
    List.Pairwise (· < ·) ps → (∀ x ∈ ps, acc.2 < (x : Int)) →
    q ∈ ps → valid q = true → key q = (scanGo valid key ps acc).1 →
    (scanGo valid key ps acc).2 ≤ (q : Int) := by
  intro ps
  induction ps with
  | nil => intro acc q _ _ hq; simp at hq
  | cons p ps ih =>
    intro acc q hsort hlow hq hvq hkey
    have hsort' := (List.pairwise_cons.mp hsort).2
    have hplt := (List.pairwise_cons.mp hsort).1
    rw [scanGo] at hkey ⊢
    rcases List.mem_cons.mp hq with rfl | hq'
    · -- q is the head p
      by_cases h : (valid q && decide (key q < acc.1)) = true
      · -- updated at q; the fold from (key q, q) ends at q or strictly below
        rw [if_pos h] at hkey ⊢
        rcases scanGo_cases valid key ps (key q, (q : Int)) with heq | ⟨p', _, _, heq', hlt'⟩
        · rw [heq]
        · rw [heq'] at hkey ⊢
          exact absurd hkey (by dsimp only at hlt' ⊢; omega)
      · -- not updated at q although q is valid: acc.1 ≤ key q
        rw [if_neg h] at hkey ⊢
        have hnlt : ¬(key q < acc.1) := by
          intro hlt
          exact h (by rw [hvq, decide_eq_true hlt]; rfl)
        rcases scanGo_cases valid key ps acc with heq | ⟨p', _, _, heq', hlt'⟩
        · rw [heq]
          exact le_of_lt (hlow q (List.mem_cons_self _ _))
        · rw [heq'] at hkey ⊢
          dsimp only at hkey hlt' ⊢
          omega
    · -- q in the tail
      by_cases h : (valid p && decide (key p < acc.1)) = true
      · rw [if_pos h] at hkey ⊢
        exact ih (key p, (p : Int)) q hsort'
          (fun x hx => by show (p : Int) < (x : Int); exact_mod_cast hplt x hx) hq' hvq hkey
      · rw [if_neg h] at hkey ⊢
        exact ih acc q hsort' (fun x hx => hlow x (List.mem_cons_of_mem _ hx)) hq' hvq hkey

lemma scanGo_found (ps : List Nat) (acc : Int × Int)
    (hex : ∃ p ∈ ps, valid p = true ∧ key p < acc.1) :
    ∃ p ∈ ps, valid p = true ∧ scanGo valid key ps acc = (key p, (p : Int)) := by
  obtain ⟨p, hp, hvp, hlt⟩ := hex
  rcases scanGo_cases valid key ps acc with heq | ⟨p', hp', hv', heq', _⟩
  · exfalso
    have := scanGo_min valid key ps acc p hp hvp
    rw [heq] at this
    omega
  · exact ⟨p', hp', hv', heq'⟩

end ScanLemmas

end VMSim

namespace VMSim

section ScanMaxLemmas

variable (valid : Nat → Bool) (key : Nat → Int)

lemma scanGoMax_fst_ge : ∀ (ps : List Nat) (acc : Int × Int),
    acc.1 ≤ (scanGoMax valid key ps acc).1 := by
  intro ps
  induction ps with
  | nil => intro acc; exact le_refl _
  | cons p ps ih =>
    intro acc
    rw [scanGoMax]
    refine le_trans ?_ (ih _)
    by_cases h : (valid p && decide (acc.1 < key p)) = true
    · rw [if_pos h]
      have := (Bool.and_eq_true _ _).mp h
      exact le_of_lt (of_decide_eq_true this.2)
    · rw [if_neg h]

lemma scanGoMax_cases : ∀ (ps : List Nat) (acc : Int × Int),
    scanGoMax valid key ps acc = acc ∨
      ∃ p ∈ ps, valid p = true ∧ scanGoMax valid key ps acc = (key p, (p : Int)) ∧
        acc.1 < key p := by
  intro ps
  induction ps with
  | nil => intro acc; exact Or.inl rfl
  | cons p ps ih =>
    intro acc
    rw [scanGoMax]
    by_cases h : (valid p && decide (acc.1 < key p)) = true
    · rw [if_pos h]
      obtain ⟨hv, hlt⟩ := (Bool.and_eq_true _ _).mp h
      rcases ih (key p, (p : Int)) with heq | ⟨p', hp', hv', heq', hlt'⟩
      · exact Or.inr ⟨p, List.mem_cons_self _ _, hv, heq, of_decide_eq_true hlt⟩
      · exact Or.inr ⟨p', List.mem_cons_of_mem _ hp', hv', heq',
          lt_trans (of_decide_eq_true hlt) hlt'⟩
    · rw [if_neg h]
      rcases ih acc with heq | ⟨p', hp', hv', heq', hlt'⟩
      · exact Or.inl heq
      · exact Or.inr ⟨p', List.mem_cons_of_mem _ hp', hv', heq', hlt'⟩

lemma scanGoMax_max : ∀ (ps : List Nat) (acc : Int × Int) (q : Nat), q ∈ ps →
    valid q = true → key q ≤ (scanGoMax valid key ps acc).1 := by
  intro ps
  induction ps with
  | nil => intro acc q hq; simp at hq
  | cons p ps ih =>
    intro acc q hq hvq
    rw [scanGoMax]
    rcases List.mem_cons.mp hq with rfl | hq'
    · by_cases h : (valid q && decide (acc.1 < key q)) = true
      · rw [if_pos h]
        exact scanGoMax_fst_ge valid key ps _
      · rw [if_neg h]
        have hnlt : ¬(acc.1 < key q) := by
          intro hlt
          exact h (by rw [hvq, decide_eq_true hlt]; rfl)
        exact le_trans (le_of_not_lt hnlt) (scanGoMax_fst_ge valid key ps acc)
    · by_cases h : (valid p && decide (acc.1 < key p)) = true
      · rw [if_pos h]
        exact ih _ q hq' hvq
      · rw [if_neg h]
        exact ih acc q hq' hvq

lemma scanGoMax_tie : ∀ (ps : List Nat) (acc : Int × Int) (q : Nat),
    List.Pairwise (· < ·) ps → (∀ x ∈ ps, acc.2 < (x : Int)) →
    q ∈ ps → valid q = true → key q = (scanGoMax valid key ps acc).1 →
    (scanGoMax valid key ps acc).2 ≤ (q : Int) := by
  intro ps
  induction ps with
  | nil => intro acc q _ _ hq; simp at hq
  | cons p ps ih =>
    intro acc q hsort hlow hq hvq hkey
    have hsort' := (List.pairwise_cons.mp hsort).2
    have hplt := (List.pairwise_cons.mp hsort).1
    rw [scanGoMax] at hkey ⊢
    rcases List.mem_cons.mp hq with rfl | hq'
    · by_cases h : (valid q && decide (acc.1 < key q)) = true
      · rw [if_pos h] at hkey ⊢
        rcases scanGoMax_cases valid key ps (key q, (q : Int)) with heq | ⟨p', _, _, heq', hlt'⟩
        · rw [heq]
        · rw [heq'] at hkey ⊢
          exact absurd hkey (by dsimp only at hlt' ⊢; omega)
      · rw [if_neg h] at hkey ⊢
        have hnlt : ¬(acc.1 < key q) := by
          intro hlt
          exact h (by rw [hvq, decide_eq_true hlt]; rfl)
        rcases scanGoMax_cases valid key ps acc with heq | ⟨p', _, _, heq', hlt'⟩
        · rw [heq]
          exact le_of_lt (hlow q (List.mem_cons_self _ _))
        · rw [heq'] at hkey ⊢
          dsimp only at hkey hlt' ⊢
          omega
    · by_cases h : (valid p && decide (acc.1 < key p)) = true
      · rw [if_pos h] at hkey ⊢
        exact ih (key p, (p : Int)) q hsort'
          (fun x hx => by show (p : Int) < (x : Int); exact_mod_cast hplt x hx) hq' hvq hkey
      · rw [if_neg h] at hkey ⊢
        exact ih acc q hsort' (fun x hx => hlow x (List.mem_cons_of_mem _ hx)) hq' hvq hkey

lemma scanGoMax_found (ps : List Nat) (acc : Int × Int)
    (hex : ∃ p ∈ ps, valid p = true ∧ acc.1 < key p) :
    ∃ p ∈ ps, valid p = true ∧ scanGoMax valid key ps acc = (key p, (p : Int)) := by
  obtain ⟨p, hp, hvp, hlt⟩ := hex
  rcases scanGoMax_cases valid key ps acc with heq | ⟨p', hp', hv', heq', _⟩
  · exfalso
    have := scanGoMax_max valid key ps acc p hp hvp
    rw [heq] at this
    omega
  · exact ⟨p', hp', hv', heq'⟩

end ScanMaxLemmas

end VMSim

namespace VMSim
namespace Backend

/-- Effects of the shared eviction tail at a nonnegative victim index
within the row: frame returned, entry invalidated, everything else
untouched. -/
lemma evictVictim_spec (s : MMU) (pid : Nat) (v : Nat)
    (hlen : v < (getRow s pid).length) (hpt : pid < s.page_table.length) :
    (evictVictim s pid (v : Int)).1 = ((getRow s pid).getD v {}).frame ∧
    getEntry (evictVictim s pid (v : Int)).2 pid (v : Int) =
      { (getRow s pid).getD v {} with valid := false } ∧
    (∀ w : Nat, w ≠ v → (getRow (evictVictim s pid (v : Int)).2 pid).getD w {} =
      (getRow s pid).getD w {}) ∧
    (∀ q, q ≠ pid → getRow (evictVictim s pid (v : Int)).2 q = getRow s q) ∧
    (evictVictim s pid (v : Int)).2.tlb = tlbInvalidatePage s.tlb pid (v : Int) ∧
    (evictVictim s pid (v : Int)).2.free_frames = s.free_frames ∧
    (evictVictim s pid (v : Int)).2.physical_memory = s.physical_memory ∧
    (evictVictim s pid (v : Int)).2.processes = s.processes ∧
    (evictVictim s pid (v : Int)).2.timestamp = s.timestamp := by
  have h0 : (0 : Int) ≤ (v : Int) := Int.ofNat_nonneg v
  have htn : ((v : Int)).toNat = v := Int.toNat_natCast v
  have hge : pyGetD (getRow s pid) (v : Int) {} = (getRow s pid).getD v {} := by
    rw [pyGetD_nonneg _ _ _ h0, htn]
  have hbr : evictVictim s pid (v : Int) =
      (((getRow s pid).getD v {}).frame,
        { setEntry s pid (v : Int) { (getRow s pid).getD v {} with valid := false } with
            tlb := tlbInvalidatePage s.tlb pid (v : Int) }) := by
    unfold evictVictim
    dsimp only
    rw [hge]
    rfl
  rw [hbr]
  refine ⟨rfl, ?_, ?_, ?_, rfl, rfl, rfl, rfl, rfl⟩
  · show getEntry (setEntry s pid (v : Int) _) pid (v : Int) = _
    exact getEntry_setEntry_selfB s pid (v : Int) _ h0 (by rw [htn]; exact hlen) hpt
  · intro w hw
    show (getRow (setEntry s pid (v : Int) _) pid).getD w {} = _
    rw [getRow_setEntry_selfB _ _ _ _ hpt, pySet_nonneg _ _ _ h0, htn]
    exact getD_set_ne _ _ _ _ _ (fun he => hw he.symm)
  · intro q hq
    show getRow (setEntry s pid (v : Int) _) q = getRow s q
    exact getRow_setEntry_otherB _ _ _ _ _ hq

end Backend
end VMSim

namespace VMSim

/-- Claim C3: eviction scans only the faulting process's own valid
page-table entries; LRU picks the smallest lastAccessTime, MRU the
largest, FIFO the smallest currently-assigned frame id, LFU the smallest
accessFrequency, each breaking ties by the first candidate in page-number
order; the victim's entry is invalidated, its (processId, victimPage) TLB
entries are invalidated, the freed frame id is returned, and nothing else
(other entries, other rows, pool, physical memory, counters) changes. -/
theorem C3_eviction_policy (s : Backend.MMU) (pid : Nat)
    (hex : ∃ p, p < (Backend.getProc s pid).m ∧
      ((Backend.getRow s pid).getD p {}).valid = true ∧
      (((Backend.getRow s pid).getD p {}).time : Int) < sysMaxsize ∧
      ((Backend.getRow s pid).getD p {}).frame < sysMaxsize ∧
      (((Backend.getRow s pid).getD p {}).frequency : Int) < sysMaxsize)
    (hrowlen : (Backend.getProc s pid).m ≤ (Backend.getRow s pid).length)
    (hpt : pid < s.page_table.length) :
    ∃ v : Nat, v < (Backend.getProc s pid).m ∧
      Backend.selectVictim s pid = (v : Int) ∧
      ((Backend.getRow s pid).getD v {}).valid = true ∧
      (match s.algorithm with
       | Backend.Alg.LRU => ∀ q, q < (Backend.getProc s pid).m →
          ((Backend.getRow s pid).getD q {}).valid = true →
          ((Backend.getRow s pid).getD v {}).time ≤ ((Backend.getRow s pid).getD q {}).time ∧
          (((Backend.getRow s pid).getD q {}).time = ((Backend.getRow s pid).getD v {}).time →
            v ≤ q)
       | Backend.Alg.MRU => ∀ q, q < (Backend.getProc s pid).m →
          ((Backend.getRow s pid).getD q {}).valid = true →
          ((Backend.getRow s pid).getD q {}).time ≤ ((Backend.getRow s pid).getD v {}).time ∧
          (((Backend.getRow s pid).getD q {}).time = ((Backend.getRow s pid).getD v {}).time →
            v ≤ q)
       | Backend.Alg.FIFO => ∀ q, q < (Backend.getProc s pid).m →
          ((Backend.getRow s pid).getD q {}).valid = true →
          ((Backend.getRow s pid).getD v {}).frame ≤ ((Backend.getRow s pid).getD q {}).frame ∧
          (((Backend.getRow s pid).getD q {}).frame = ((Backend.getRow s pid).getD v {}).frame →
            v ≤ q)
       | Backend.Alg.LFU => ∀ q, q < (Backend.getProc s pid).m →
          ((Backend.getRow s pid).getD q {}).valid = true →
          ((Backend.getRow s pid).getD v {}).frequency ≤
            ((Backend.getRow s pid).getD q {}).frequency ∧
          (((Backend.getRow s pid).getD q {}).frequency =
            ((Backend.getRow s pid).getD v {}).frequency → v ≤ q)) ∧
      (Backend.evict_page s pid).1 = ((Backend.getRow s pid).getD v {}).frame ∧
      Backend.getEntry (Backend.evict_page s pid).2 pid (v : Int) =
        { (Backend.getRow s pid).getD v {} with valid := false } ∧
      (∀ w : Nat, w ≠ v → (Backend.getRow (Backend.evict_page s pid).2 pid).getD w {} =
        (Backend.getRow s pid).getD w {}) ∧
      (∀ q, q ≠ pid → Backend.getRow (Backend.evict_page s pid).2 q = Backend.getRow s q) ∧
      (Backend.evict_page s pid).2.tlb = tlbInvalidatePage s.tlb pid (v : Int) ∧
      (Backend.evict_page s pid).2.free_frames = s.free_frames ∧
      (Backend.evict_page s pid).2.physical_memory = s.physical_memory ∧
      (Backend.evict_page s pid).2.processes = s.processes ∧
      (Backend.evict_page s pid).2.timestamp = s.timestamp := by
  obtain ⟨p0, hp0m, hp0v, hp0t, hp0f, hp0q⟩ := hex
  have hlow : ∀ x ∈ List.range (Backend.getProc s pid).m, (-1 : Int) < (x : Int) := by
    intro x _
    omega
  have hsort := List.pairwise_lt_range (Backend.getProc s pid).m
  have hmem0 : p0 ∈ List.range (Backend.getProc s pid).m := List.mem_range.mpr hp0m
  -- select the victim for the configured algorithm
  have hmain : ∃ v : Nat, v < (Backend.getProc s pid).m ∧
      Backend.selectVictim s pid = (v : Int) ∧
      ((Backend.getRow s pid).getD v {}).valid = true ∧
      (match s.algorithm with
       | Backend.Alg.LRU => ∀ q, q < (Backend.getProc s pid).m →
          ((Backend.getRow s pid).getD q {}).valid = true →
          ((Backend.getRow s pid).getD v {}).time ≤ ((Backend.getRow s pid).getD q {}).time ∧
          (((Backend.getRow s pid).getD q {}).time = ((Backend.getRow s pid).getD v {}).time →
            v ≤ q)
       | Backend.Alg.MRU => ∀ q, q < (Backend.getProc s pid).m →
          ((Backend.getRow s pid).getD q {}).valid = true →
          ((Backend.getRow s pid).getD q {}).time ≤ ((Backend.getRow s pid).getD v {}).time ∧
          (((Backend.getRow s pid).getD q {}).time = ((Backend.getRow s pid).getD v {}).time →
            v ≤ q)
       | Backend.Alg.FIFO => ∀ q, q < (Backend.getProc s pid).m →
          ((Backend.getRow s pid).getD q {}).valid = true →
          ((Backend.getRow s pid).getD v {}).frame ≤ ((Backend.getRow s pid).getD q {}).frame ∧
          (((Backend.getRow s pid).getD q {}).frame = ((Backend.getRow s pid).getD v {}).frame →
            v ≤ q)
       | Backend.Alg.LFU => ∀ q, q < (Backend.getProc s pid).m →
          ((Backend.getRow s pid).getD q {}).valid = true →
          ((Backend.getRow s pid).getD v {}).frequency ≤
            ((Backend.getRow s pid).getD q {}).frequency ∧
          (((Backend.getRow s pid).getD q {}).frequency =
            ((Backend.getRow s pid).getD v {}).frequency → v ≤ q)) := by
    cases halg : s.algorithm with
    | LRU =>
      have hfound := scanGo_found (fun p => ((Backend.getRow s pid).getD p {}).valid)
        (fun p => (((Backend.getRow s pid).getD p {}).time : Int))
        (List.range (Backend.getProc s pid).m) (sysMaxsize, -1)
        ⟨p0, hmem0, hp0v, hp0t⟩
      obtain ⟨v, hvmem, hvv, hveq⟩ := hfound
      refine ⟨v, List.mem_range.mp hvmem, ?_, hvv, ?_⟩
      · unfold Backend.selectVictim
        rw [halg]
        dsimp only
        rw [hveq]
      · intro q hq hqv
        have hmin := scanGo_min (fun p => ((Backend.getRow s pid).getD p {}).valid)
          (fun p => (((Backend.getRow s pid).getD p {}).time : Int))
          (List.range (Backend.getProc s pid).m) (sysMaxsize, -1) q
          (List.mem_range.mpr hq) hqv
        rw [hveq] at hmin
        have htie := scanGo_tie (fun p => ((Backend.getRow s pid).getD p {}).valid)
          (fun p => (((Backend.getRow s pid).getD p {}).time : Int))
          (List.range (Backend.getProc s pid).m) (sysMaxsize, -1) q hsort hlow
          (List.mem_range.mpr hq) hqv
        rw [hveq] at htie
        dsimp only at hmin htie
        constructor
        · exact_mod_cast hmin
        · intro heq
          exact_mod_cast htie (by exact_mod_cast heq)
    | MRU =>
      have hfound := scanGoMax_found (fun p => ((Backend.getRow s pid).getD p {}).valid)
        (fun p => (((Backend.getRow s pid).getD p {}).time : Int))
        (List.range (Backend.getProc s pid).m) (-1, -1)
        ⟨p0, hmem0, hp0v, by dsimp only; omega⟩
      obtain ⟨v, hvmem, hvv, hveq⟩ := hfound
      refine ⟨v, List.mem_range.mp hvmem, ?_, hvv, ?_⟩
      · unfold Backend.selectVictim
        rw [halg]
        dsimp only
        rw [hveq]
      · intro q hq hqv
        have hmax := scanGoMax_max (fun p => ((Backend.getRow s pid).getD p {}).valid)
          (fun p => (((Backend.getRow s pid).getD p {}).time : Int))
          (List.range (Backend.getProc s pid).m) (-1, -1) q
          (List.mem_range.mpr hq) hqv
        rw [hveq] at hmax
        have htie := scanGoMax_tie (fun p => ((Backend.getRow s pid).getD p {}).valid)
          (fun p => (((Backend.getRow s pid).getD p {}).time : Int))
          (List.range (Backend.getProc s pid).m) (-1, -1) q hsort hlow
          (List.mem_range.mpr hq) hqv
        rw [hveq] at htie
        dsimp only at hmax htie
        constructor
        · exact_mod_cast hmax
        · intro heq
          exact_mod_cast htie (by exact_mod_cast heq)
    | FIFO =>
      have hfound := scanGo_found (fun p => ((Backend.getRow s pid).getD p {}).valid)
        (fun p => ((Backend.getRow s pid).getD p {}).frame)
        (List.range (Backend.getProc s pid).m) (sysMaxsize, -1)
        ⟨p0, hmem0, hp0v, hp0f⟩
      obtain ⟨v, hvmem, hvv, hveq⟩ := hfound
      refine ⟨v, List.mem_range.mp hvmem, ?_, hvv, ?_⟩
      · unfold Backend.selectVictim
        rw [halg]
        dsimp only
        rw [hveq]
      · intro q hq hqv
        have hmin := scanGo_min (fun p => ((Backend.getRow s pid).getD p {}).valid)
          (fun p => ((Backend.getRow s pid).getD p {}).frame)
          (List.range (Backend.getProc s pid).m) (sysMaxsize, -1) q
          (List.mem_range.mpr hq) hqv
        rw [hveq] at hmin
        have htie := scanGo_tie (fun p => ((Backend.getRow s pid).getD p {}).valid)
          (fun p => ((Backend.getRow s pid).getD p {}).frame)
          (List.range (Backend.getProc s pid).m) (sysMaxsize, -1) q hsort hlow
          (List.mem_range.mpr hq) hqv
        rw [hveq] at htie
        dsimp only at hmin htie
        refine ⟨hmin, fun heq => ?_⟩
        exact_mod_cast htie (by rw [heq])
    | LFU =>
      have hfound := scanGo_found (fun p => ((Backend.getRow s pid).getD p {}).valid)
        (fun p => (((Backend.getRow s pid).getD p {}).frequency : Int))
        (List.range (Backend.getProc s pid).m) (sysMaxsize, -1)
        ⟨p0, hmem0, hp0v, hp0q⟩
      obtain ⟨v, hvmem, hvv, hveq⟩ := hfound
      refine ⟨v, List.mem_range.mp hvmem, ?_, hvv, ?_⟩
      · unfold Backend.selectVictim
        rw [halg]
        dsimp only
        rw [hveq]
      · intro q hq hqv
        have hmin := scanGo_min (fun p => ((Backend.getRow s pid).getD p {}).valid)
          (fun p => (((Backend.getRow s pid).getD p {}).frequency : Int))
          (List.range (Backend.getProc s pid).m) (sysMaxsize, -1) q
          (List.mem_range.mpr hq) hqv
        rw [hveq] at hmin
        have htie := scanGo_tie (fun p => ((Backend.getRow s pid).getD p {}).valid)
          (fun p => (((Backend.getRow s pid).getD p {}).frequency : Int))
          (List.range (Backend.getProc s pid).m) (sysMaxsize, -1) q hsort hlow
          (List.mem_range.mpr hq) hqv
        rw [hveq] at htie
        dsimp only at hmin htie
        constructor
        · exact_mod_cast hmin
        · intro heq
          exact_mod_cast htie (by exact_mod_cast heq)
  obtain ⟨v, hvm, hveq, hvv, hopt⟩ := hmain
  have hes := Backend.evictVictim_spec s pid v (lt_of_lt_of_le hvm hrowlen) hpt
  have hev : Backend.evict_page s pid = Backend.evictVictim s pid (v : Int) := by
    unfold Backend.evict_page
    rw [hveq]
  rw [hev]
  exact ⟨v, hvm, hveq, hvv, hopt, hes.1, hes.2.1, hes.2.2.1, hes.2.2.2.1, hes.2.2.2.2.1,
    hes.2.2.2.2.2.1, hes.2.2.2.2.2.2.1, hes.2.2.2.2.2.2.2.1, hes.2.2.2.2.2.2.2.2⟩


/-- Witness for C3 at quotaFullState (LRU): page 0 is the only valid
entry, so it is selected, its frame 0 is returned and it is
invalidated. -/
theorem C3_eviction_policy_witness :
    Backend.selectVictim quotaFullState 0 = 0 ∧
    (Backend.evict_page quotaFullState 0).1 = 0 ∧
    (Backend.getEntry (Backend.evict_page quotaFullState 0).2 0 0).valid = false := by
  have h := C3_eviction_policy quotaFullState 0
    ⟨0, by decide, by decide, by decide, by decide, by decide⟩ (by decide) (by decide)
  obtain ⟨v, hvm, hveq, hvv, hopt, hfr, hinv, hrest⟩ := h
  have hv0 : v = 0 := by
    have hcomp : Backend.selectVictim quotaFullState 0 = 0 := by decide
    rw [hcomp] at hveq
    omega
  subst hv0
  refine ⟨by rw [hveq]; rfl, ?_, ?_⟩
  · rw [hfr]
    decide
  · rw [show ((0 : Nat) : Int) = (0 : Int) from rfl] at hinv
    rw [hinv]

end VMSim

namespace VMSim

lemma pySet_length {α : Type} (l : List α) (i : Int) (a : α) :
    (pySet l i a).length = l.length := by
  unfold pySet
  by_cases h : (0 : Int) ≤ pyIdx l.length i
  · rw [if_pos h]
    exact List.length_set _ _ _
  · rw [if_neg h]

namespace PyCore

/-- A resolve that reports page_fault passed the range check, missed the
TLB, found the entry invalid, and changed only the clock and the
process's fault counter. -/
lemma request_fault_char (s : MMU) (pid : Nat) (page : Int)
    (h : (handle_page_request s pid page).2.1 = Event.page_fault) :
    ¬(page < 0 ∨ ((getProc s pid).m : Int) ≤ page) ∧
    (check_tlb s.tlb pid page).2 = false ∧
    (getEntry s pid page).valid = false ∧
    handle_page_request s pid page =
      (-1, Event.page_fault,
        { s with timestamp := s.timestamp + 1
                 page_fault_counts :=
                   s.page_fault_counts.set pid (s.page_fault_counts.getD pid 0 + 1) }) := by
  by_cases hin : (page < 0 ∨ ((getProc s pid).m : Int) ≤ page)
  · exfalso
    rw [handle_page_request_invalid s pid page hin] at h
    exact absurd h (by intro hh; cases hh)
  by_cases hc : (check_tlb s.tlb pid page).2 = true
  · exfalso
    have := (request_tlbhit_spec s pid page hin hc).2.1
    rw [this] at h
    cases h
  have hcf : (check_tlb s.tlb pid page).2 = false := by
    cases hcc : (check_tlb s.tlb pid page).2
    · rfl
    · exact absurd hcc hc
  by_cases hv : (getEntry s pid page).valid = true
  · exfalso
    have hbr : (handle_page_request s pid page).2.1 = Event.page_hit := by
      unfold handle_page_request
      dsimp only
      rw [show getProc { s with timestamp := s.timestamp + 1 } pid = getProc s pid from rfl]
      rw [if_neg hin]
      rw [show check_tlb ({ s with timestamp := s.timestamp + 1 } : MMU).tlb pid page =
        check_tlb s.tlb pid page from rfl]
      rcases hcc : check_tlb s.tlb pid page with ⟨fr, b⟩
      rw [hcc] at hcf
      dsimp at hcf
      subst hcf
      dsimp only
      rw [if_neg Bool.false_ne_true]
      rw [show getEntry ({ s with timestamp := s.timestamp + 1 } : MMU) pid page =
        getEntry s pid page from rfl]
      rw [if_pos hv]
    rw [hbr] at h
    cases h
  have hvf : (getEntry s pid page).valid = false := by
    cases hvv : (getEntry s pid page).valid
    · rfl
    · exact absurd hvv hv
  refine ⟨hin, hcf, hvf, ?_⟩
  unfold handle_page_request
  dsimp only
  rw [show getProc { s with timestamp := s.timestamp + 1 } pid = getProc s pid from rfl]
  rw [if_neg hin]
  rw [show check_tlb ({ s with timestamp := s.timestamp + 1 } : MMU).tlb pid page =
    check_tlb s.tlb pid page from rfl]
  rcases hcc : check_tlb s.tlb pid page with ⟨fr, b⟩
  rw [hcc] at hcf
  dsimp at hcf
  subst hcf
  dsimp only
  rw [if_neg Bool.false_ne_true]
  rw [show getEntry ({ s with timestamp := s.timestamp + 1 } : MMU) pid page =
    getEntry s pid page from rfl]
  have hvf2 : ¬((getEntry s pid page).valid = true) := by
    rw [hvf]
    exact Bool.false_ne_true
  rw [if_neg hvf2]

/-- A resolve of an in-range page whose entry is valid is a hit of one of
the two kinds. -/
lemma request_hit_outcome (s : MMU) (pid : Nat) (page : Int)
    (hin : ¬(page < 0 ∨ ((getProc s pid).m : Int) ≤ page))
    (hv : (getEntry s pid page).valid = true) :
    (handle_page_request s pid page).2.1 = Event.tlb_hit ∨
      (handle_page_request s pid page).2.1 = Event.page_hit := by
  by_cases hc : (check_tlb s.tlb pid page).2 = true
  · exact Or.inl (request_tlbhit_spec s pid page hin hc).2.1
  · have hcf : (check_tlb s.tlb pid page).2 = false := by
      cases hcc : (check_tlb s.tlb pid page).2
      · rfl
      · exact absurd hcc hc
    refine Or.inr ?_
    unfold handle_page_request
    dsimp only
    rw [show getProc { s with timestamp := s.timestamp + 1 } pid = getProc s pid from rfl]
    rw [if_neg hin]
    rw [show check_tlb ({ s with timestamp := s.timestamp + 1 } : MMU).tlb pid page =
      check_tlb s.tlb pid page from rfl]
    rcases hcc : check_tlb s.tlb pid page with ⟨fr, b⟩
    rw [hcc] at hcf
    dsimp at hcf
    subst hcf
    dsimp only
    rw [if_neg Bool.false_ne_true]
    rw [show getEntry ({ s with timestamp := s.timestamp + 1 } : MMU) pid page =
      getEntry s pid page from rfl]
    rw [if_pos hv]

end PyCore
end VMSim


namespace VMSim
namespace PyCore

/-- A resolve for one process never touches another process's PCB or
page-table row. -/
lemma request_preserves_other (s : MMU) (q : Nat) (page : Int) (p : Nat) (hne : p ≠ q) :
    getProc (handle_page_request s q page).2.2 p = getProc s p ∧
    getRow (handle_page_request s q page).2.2 p = getRow s p := by
  by_cases hin : (page < 0 ∨ ((getProc s q).m : Int) ≤ page)
  · rw [handle_page_request_invalid s q page hin]
    exact ⟨rfl, rfl⟩
  by_cases hc : (check_tlb s.tlb q page).2 = true
  · have hbr : handle_page_request s q page =
        ((check_tlb s.tlb q page).1, Event.tlb_hit,
          { s with timestamp := s.timestamp + 1
                   tlb_hit_count := s.tlb_hit_count + 1
                   tlb := update_tlb_time s.tlb q page (s.timestamp + 1) }) := by
      unfold handle_page_request
      dsimp only
      rw [show getProc { s with timestamp := s.timestamp + 1 } q = getProc s q from rfl]
      rw [if_neg hin]
      rw [show check_tlb ({ s with timestamp := s.timestamp + 1 } : MMU).tlb q page =
        check_tlb s.tlb q page from rfl]
      rcases hcc : check_tlb s.tlb q page with ⟨fr, b⟩
      rw [hcc] at hc
      dsimp at hc
      subst hc
      rfl
    rw [hbr]
    exact ⟨rfl, rfl⟩
  have hcf : (check_tlb s.tlb q page).2 = false := by
    cases hcc : (check_tlb s.tlb q page).2
    · rfl
    · exact absurd hcc hc
  by_cases hv : (getEntry s q page).valid = true
  · set e := getEntry s q page with he
    set s1 : MMU := { s with timestamp := s.timestamp + 1 } with hs1
    set s2 := setEntry s1 q page ⟨e.frame, e.valid, s.timestamp + 1, e.frequency + 1⟩ with hs2
    have hbr : handle_page_request s q page =
        (e.frame, Event.page_hit,
          { s2 with page_hit_count := s2.page_hit_count + 1
                    tlb := update_tlb s2.tlb q page e.frame (s.timestamp + 1) }) := by
      unfold handle_page_request
      dsimp only
      rw [show getProc { s with timestamp := s.timestamp + 1 } q = getProc s q from rfl]
      rw [if_neg hin]
      rw [show check_tlb ({ s with timestamp := s.timestamp + 1 } : MMU).tlb q page =
        check_tlb s.tlb q page from rfl]
      rcases hcc : check_tlb s.tlb q page with ⟨fr, b⟩
      rw [hcc] at hcf
      dsimp at hcf
      subst hcf
      rw [show getEntry ({ s with timestamp := s.timestamp + 1 } : MMU) q page =
        getEntry s q page from rfl]
      rw [if_pos hv]
      rfl
    rw [hbr]
    constructor
    · rfl
    · show getRow s2 p = getRow s p
      rw [hs2, getRow_setEntry_other _ _ _ _ _ hne]
      rfl
  · have hvf : (getEntry s q page).valid = false := by
      cases hvv : (getEntry s q page).valid
      · rfl
      · exact absurd hvv hv
    have hbr : handle_page_request s q page =
        (-1, Event.page_fault,
          { s with timestamp := s.timestamp + 1
                   page_fault_counts :=
                     s.page_fault_counts.set q (s.page_fault_counts.getD q 0 + 1) }) := by
      unfold handle_page_request
      dsimp only
      rw [show getProc { s with timestamp := s.timestamp + 1 } q = getProc s q from rfl]
      rw [if_neg hin]
      rw [show check_tlb ({ s with timestamp := s.timestamp + 1 } : MMU).tlb q page =
        check_tlb s.tlb q page from rfl]
      rcases hcc : check_tlb s.tlb q page with ⟨fr, b⟩
      rw [hcc] at hcf
      dsimp at hcf
      subst hcf
      dsimp only
      rw [if_neg Bool.false_ne_true]
      rw [show getEntry ({ s with timestamp := s.timestamp + 1 } : MMU) q page =
        getEntry s q page from rfl]
      have hvf2 : ¬((getEntry s q page).valid = true) := by
        rw [hvf]
        exact Bool.false_ne_true
      rw [if_neg hvf2]
    rw [hbr]
    exact ⟨rfl, rfl⟩

/-- The fault handler for one process never touches another process's PCB
or page-table row. -/
lemma fault_preserves_other (s : MMU) (q : Nat) (page : Int) (p : Nat) (hne : p ≠ q) :
    getProc (handle_page_fault s q page).2 p = getProc s p ∧
    getRow (handle_page_fault s q page).2 p = getRow s p := by
  by_cases hcond : (s.free_frames.length = 0 ∨ (getProc s q).allocount ≤ (getProc s q).usecount)
  · set ev := evict_page s q with hev
    set s1 := ev.2 with hs1
    set s2 := setEntry s1 q page ⟨ev.1, true, s1.timestamp, 1⟩ with hs2
    have hbr : handle_page_fault s q page =
        (ev.1, { s2 with physical_memory := pySet s2.physical_memory ev.1 (q : Int)
                         tlb := update_tlb s2.tlb q page ev.1 s2.timestamp }) := by
      unfold handle_page_fault
      dsimp only
      rw [if_pos hcond]
    rw [hbr]
    constructor
    · show getProc s2 p = getProc s p
      rw [hs2]
      show getProc s1 p = getProc s p
      rw [hs1, hev]
      show getProc (evictVictim s q (selectVictim s q)).2 p = getProc s p
      rfl
    · show getRow s2 p = getRow s p
      rw [hs2, getRow_setEntry_other _ _ _ _ _ hne]
      rw [hs1, hev]
      show getRow (evictVictim s q (selectVictim s q)).2 p = getRow s p
      unfold evictVictim
      dsimp only
      exact getRow_setEntry_other _ _ _ _ _ hne
  · set sA := setProc { s with free_frames := s.free_frames.dropLast } q
      { getProc s q with usecount := (getProc s q).usecount + 1 } with hsA
    set s2 := setEntry sA q page ⟨s.free_frames.getLastD (-1), true, sA.timestamp, 1⟩ with hs2
    have hbr : handle_page_fault s q page =
        (s.free_frames.getLastD (-1),
          { s2 with physical_memory :=
                      pySet s2.physical_memory (s.free_frames.getLastD (-1)) (q : Int)
                    tlb := update_tlb s2.tlb q page (s.free_frames.getLastD (-1))
                      s2.timestamp }) := by
      unfold handle_page_fault
      dsimp only
      rw [if_neg hcond]
    rw [hbr]
    constructor
    · show getProc s2 p = getProc s p
      rw [hs2]
      show getProc sA p = getProc s p
      rw [hsA, getProc_setProc_other _ _ _ _ hne]
      rfl
    · show getRow s2 p = getRow s p
      rw [hs2, getRow_setEntry_other _ _ _ _ _ hne]
      rw [hsA]
      rfl

end PyCore
end VMSim

namespace VMSim
namespace PyCore

/-- The page-table row of the faulting process after an eviction is the
old row with the victim's entry invalidated. -/
lemma getRow_evict (s : MMU) (q : Nat) (hpt : q < s.page_table.length) :
    getRow (evict_page s q).2 q =
      pySet (getRow s q) (selectVictim s q)
        { pyGetD (getRow s q) (selectVictim s q) {} with valid := false } := by
  show getRow (setEntry s q (selectVictim s q)
    { pyGetD (getRow s q) (selectVictim s q) {} with valid := false }) q = _
  exact getRow_setEntry_self _ _ _ _ hpt

lemma evict_pt_length (s : MMU) (q : Nat) :
    (evict_page s q).2.page_table.length = s.page_table.length := by
  show (s.page_table.set q (pySet (getRow s q) (selectVictim s q)
    { pyGetD (getRow s q) (selectVictim s q) {} with valid := false })).length =
    s.page_table.length
  exact List.length_set _ _ _

/-- After handle_page_fault the faulted page's entry is installed valid
with the returned frame, the clock of the fault and frequency 1, and the
process's cursor, reference string, page count and completion flag are
unchanged (only usecount may move). -/
lemma fault_installs (s : MMU) (q : Nat) (page : Int)
    (h0 : 0 ≤ page)
    (hrow : page.toNat < (getRow s q).length)
    (hpt : q < s.page_table.length)
    (hpl : q < s.processes.length) :
    getEntry (handle_page_fault s q page).2 q page =
      ⟨(handle_page_fault s q page).1, true, s.timestamp, 1⟩ ∧
    (getProc (handle_page_fault s q page).2 q).current_index =
      (getProc s q).current_index ∧
    (getProc (handle_page_fault s q page).2 q).reference_string =
      (getProc s q).reference_string ∧
    (getProc (handle_page_fault s q page).2 q).m = (getProc s q).m ∧
    (getProc (handle_page_fault s q page).2 q).completed = (getProc s q).completed := by
  by_cases hcond : (s.free_frames.length = 0 ∨ (getProc s q).allocount ≤ (getProc s q).usecount)
  · set ev := evict_page s q with hev
    set s1 := ev.2 with hs1
    set s2 := setEntry s1 q page ⟨ev.1, true, s1.timestamp, 1⟩ with hs2
    have hbr : handle_page_fault s q page =
        (ev.1, { s2 with physical_memory := pySet s2.physical_memory ev.1 (q : Int)
                         tlb := update_tlb s2.tlb q page ev.1 s2.timestamp }) := by
      unfold handle_page_fault
      dsimp only
      rw [if_pos hcond]
    rw [hbr]
    have hrow1 : page.toNat < (getRow s1 q).length := by
      rw [hs1, hev, getRow_evict s q hpt, pySet_length]
      exact hrow
    have hpt1 : q < s1.page_table.length := by
      rw [hs1, hev, evict_pt_length]
      exact hpt
    have hent : getEntry s2 q page = ⟨ev.1, true, s1.timestamp, 1⟩ := by
      rw [hs2]
      exact getEntry_setEntry_self s1 q page _ h0 hrow1 hpt1
    refine ⟨?_, rfl, rfl, rfl, rfl⟩
    show getEntry s2 q page = _
    rw [hent]
    rfl
  · set sA := setProc { s with free_frames := s.free_frames.dropLast } q
      { getProc s q with usecount := (getProc s q).usecount + 1 } with hsA
    set s2 := setEntry sA q page ⟨s.free_frames.getLastD (-1), true, sA.timestamp, 1⟩ with hs2
    have hbr : handle_page_fault s q page =
        (s.free_frames.getLastD (-1),
          { s2 with physical_memory :=
                      pySet s2.physical_memory (s.free_frames.getLastD (-1)) (q : Int)
                    tlb := update_tlb s2.tlb q page (s.free_frames.getLastD (-1))
                      s2.timestamp }) := by
      unfold handle_page_fault
      dsimp only
      rw [if_neg hcond]
    rw [hbr]
    have hrowA : page.toNat < (getRow sA q).length := hrow
    have hptA : q < sA.page_table.length := hpt
    have hent : getEntry s2 q page = ⟨s.free_frames.getLastD (-1), true, sA.timestamp, 1⟩ := by
      rw [hs2]
      exact getEntry_setEntry_self sA q page _ h0 hrowA hptA
    have hprocA : getProc sA q =
        { getProc s q with usecount := (getProc s q).usecount + 1 } := by
      rw [hsA]
      exact getProc_setProc_self _ _ _ hpl
    have hs2A : getProc s2 q = getProc sA q := rfl
    refine ⟨?_, ?_, ?_, ?_, ?_⟩
    · show getEntry s2 q page = _
      rw [hent]
      rfl
    · show (getProc s2 q).current_index = _
      rw [hs2A, hprocA]
    · show (getProc s2 q).reference_string = _
      rw [hs2A, hprocA]
    · show (getProc s2 q).m = _
      rw [hs2A, hprocA]
    · show (getProc s2 q).completed = _
      rw [hs2A, hprocA]

end PyCore
end VMSim

namespace VMSim
namespace PyCore

lemma returnToReady_mmu (st : SimState) (q : Nat) : (returnToReady st q).mmu = st.mmu := by
  unfold returnToReady
  by_cases hc : (getProc st.mmu q).completed = true
  · rw [if_pos hc]
  · rw [if_neg hc]

lemma handleCompletion_other (st : SimState) (q p : Nat) (hpq : p ≠ q) :
    getProc (handleCompletion st q).mmu p = getProc st.mmu p ∧
    getRow (handleCompletion st q).mmu p = getRow st.mmu p := by
  constructor
  · show getProc (setProc (free_process_frames st.mmu q) q
      { getProc (free_process_frames st.mmu q) q with completed := true }) p = getProc st.mmu p
    rw [getProc_setProc_other _ _ _ _ hpq]
    exact getProc_free_other _ _ _ hpq
  · show getRow (setProc (free_process_frames st.mmu q) q
      { getProc (free_process_frames st.mmu q) q with completed := true }) p = getRow st.mmu p
    rw [getRow_setProc]
    exact getRow_free_other _ _ _ hpq

/-- A loop iteration that does not dispatch process p leaves p's PCB and
page-table row untouched: completion, resolution and fault handling all
act only on the dispatched process. -/
lemma loopStep_other_preserves (st : SimState) (p : Nat)
    (hh : st.ready_queue.head? ≠ some p) :
    getProc (loopStep st).mmu p = getProc st.mmu p ∧
    getRow (loopStep st).mmu p = getRow st.mmu p := by
  cases hqe : st.ready_queue with
  | nil =>
    rw [loopStep.eq_def, hqe]
    exact ⟨rfl, rfl⟩
  | cons q rest =>
    rw [hqe] at hh
    have hpq : p ≠ q := by
      intro he
      exact hh (by rw [he]; rfl)
    rw [loopStep.eq_def, hqe]
    dsimp only
    by_cases hfin : (getProc st.mmu q).reference_string.length ≤ (getProc st.mmu q).current_index
    · rw [if_pos hfin]
      exact handleCompletion_other _ _ _ hpq
    · rw [if_neg hfin]
      set pg := (getProc st.mmu q).reference_string.getD (getProc st.mmu q).current_index 0
        with hpg
      have hpres := request_preserves_other st.mmu q pg p hpq
      cases hev : (handle_page_request st.mmu q pg).2.1 with
      | tlb_hit =>
        dsimp only
        by_cases hc2 : (getProc (setProc (handle_page_request st.mmu q pg).2.2 q
            { getProc (handle_page_request st.mmu q pg).2.2 q with
                current_index := (getProc (handle_page_request st.mmu q pg).2.2 q).current_index
                  + 1 }) q).current_index <
            (getProc (setProc (handle_page_request st.mmu q pg).2.2 q
              { getProc (handle_page_request st.mmu q pg).2.2 q with
                  current_index := (getProc (handle_page_request st.mmu q pg).2.2 q).current_index
                    + 1 }) q).reference_string.length
        · rw [if_pos hc2]
          constructor
          · rw [returnToReady_mmu]
            show getProc (setProc (handle_page_request st.mmu q pg).2.2 q _) p = _
            rw [getProc_setProc_other _ _ _ _ hpq]
            exact hpres.1
          · rw [returnToReady_mmu]
            show getRow (setProc (handle_page_request st.mmu q pg).2.2 q _) p = _
            rw [getRow_setProc]
            exact hpres.2
        · rw [if_neg hc2]
          have hco := handleCompletion_other { st with
              ready_queue := rest
              mmu := setProc (handle_page_request st.mmu q pg).2.2 q
                { getProc (handle_page_request st.mmu q pg).2.2 q with
                    current_index :=
                      (getProc (handle_page_request st.mmu q pg).2.2 q).current_index + 1 }
              steps := st.steps ++ [mkStep (handle_page_request st.mmu q pg).2.2 q pg
                (handle_page_request st.mmu q pg).1 Event.tlb_hit] } q p hpq
          refine ⟨hco.1.trans ?_, hco.2.trans ?_⟩
          · show getProc (setProc (handle_page_request st.mmu q pg).2.2 q _) p = _
            rw [getProc_setProc_other _ _ _ _ hpq]
            exact hpres.1
          · show getRow (setProc (handle_page_request st.mmu q pg).2.2 q _) p = _
            rw [getRow_setProc]
            exact hpres.2
      | page_hit =>
        dsimp only
        by_cases hc2 : (getProc (setProc (handle_page_request st.mmu q pg).2.2 q
            { getProc (handle_page_request st.mmu q pg).2.2 q with
                current_index := (getProc (handle_page_request st.mmu q pg).2.2 q).current_index
                  + 1 }) q).current_index <
            (getProc (setProc (handle_page_request st.mmu q pg).2.2 q
              { getProc (handle_page_request st.mmu q pg).2.2 q with
                  current_index := (getProc (handle_page_request st.mmu q pg).2.2 q).current_index
                    + 1 }) q).reference_string.length
        · rw [if_pos hc2]
          constructor
          · rw [returnToReady_mmu]
            show getProc (setProc (handle_page_request st.mmu q pg).2.2 q _) p = _
            rw [getProc_setProc_other _ _ _ _ hpq]
            exact hpres.1
          · rw [returnToReady_mmu]
            show getRow (setProc (handle_page_request st.mmu q pg).2.2 q _) p = _
            rw [getRow_setProc]
            exact hpres.2
        · rw [if_neg hc2]
          have hco := handleCompletion_other { st with
              ready_queue := rest
              mmu := setProc (handle_page_request st.mmu q pg).2.2 q
                { getProc (handle_page_request st.mmu q pg).2.2 q with
                    current_index :=
                      (getProc (handle_page_request st.mmu q pg).2.2 q).current_index + 1 }
              steps := st.steps ++ [mkStep (handle_page_request st.mmu q pg).2.2 q pg
                (handle_page_request st.mmu q pg).1 Event.page_hit] } q p hpq
          refine ⟨hco.1.trans ?_, hco.2.trans ?_⟩
          · show getProc (setProc (handle_page_request st.mmu q pg).2.2 q _) p = _
            rw [getProc_setProc_other _ _ _ _ hpq]
            exact hpres.1
          · show getRow (setProc (handle_page_request st.mmu q pg).2.2 q _) p = _
            rw [getRow_setProc]
            exact hpres.2
      | page_fault =>
        dsimp only
        have hfpres := fault_preserves_other (handle_page_request st.mmu q pg).2.2 q pg p hpq
        constructor
        · rw [returnToReady_mmu]
          exact hfpres.1.trans hpres.1
        · rw [returnToReady_mmu]
          exact hfpres.2.trans hpres.2
      | invalid_reference =>
        dsimp only
        have hco := handleCompletion_other { st with
            ready_queue := rest
            mmu := (handle_page_request st.mmu q pg).2.2
            steps := st.steps ++ [mkStep (handle_page_request st.mmu q pg).2.2 q pg
              (handle_page_request st.mmu q pg).1 Event.invalid_reference] } q p hpq
        exact ⟨hco.1.trans hpres.1, hco.2.trans hpres.2⟩
      | protection_fault =>
        dsimp only
        exact hpres
      | page_fault_handled =>
        dsimp only
        exact hpres
      | process_complete =>
        dsimp only
        exact hpres

/-- Unrolling a fuel-indexed run from the back. -/
lemma iterate_succ_back (n : Nat) : ∀ st, iterate (n + 1) st =
    if simActive (iterate n st) = true then loopStep (iterate n st) else iterate n st := by
  induction n with
  | zero =>
    intro st
    show (if simActive st = true then iterate 0 (loopStep st) else st) = _
    rfl
  | succ n ih =>
    intro st
    by_cases ha : simActive st = true
    · show (if simActive st = true then iterate (n + 1) (loopStep st) else st) = _
      rw [if_pos ha, ih (loopStep st)]
      have hstep : iterate (n + 1) st = iterate n (loopStep st) := by
        show (if simActive st = true then iterate n (loopStep st) else st) = _
        rw [if_pos ha]
      rw [hstep]
    · have h1 : iterate (n + 1) st = st := by
        show (if simActive st = true then iterate n (loopStep st) else st) = st
        rw [if_neg ha]
      have h2 : iterate (n + 1 + 1) st = st := by
        show (if simActive st = true then iterate (n + 1) (loopStep st) else st) = st
        rw [if_neg ha]
      rw [h2, h1, if_neg ha]

/-- As long as process p is never at the head of the queue, its PCB and
page-table row stay exactly as they were. -/
lemma iterate_not_dispatched_preserves (l : SimState) (p : Nat) :
    ∀ j, (∀ i, i < j → (iterate i l).ready_queue.head? ≠ some p) →
      getProc (iterate j l).mmu p = getProc l.mmu p ∧
      getRow (iterate j l).mmu p = getRow l.mmu p := by
  intro j
  induction j with
  | zero =>
    intro _
    exact ⟨rfl, rfl⟩
  | succ n ih =>
    intro hall
    have hP := ih (fun i hi => hall i (Nat.lt_succ_of_lt hi))
    rw [iterate_succ_back]
    by_cases ha : simActive (iterate n l) = true
    · rw [if_pos ha]
      have hpres := loopStep_other_preserves (iterate n l) p (hall n (Nat.lt_succ_self n))
      exact ⟨hpres.1.trans hP.1, hpres.2.trans hP.2⟩
    · rw [if_neg ha]
      exact hP

end PyCore
end VMSim

namespace VMSim

/-- Claim C5: on a PageFault outcome the orchestrator does not advance the
faulting process's cursor, calls handle_page_fault, emits the fault and
handled steps, and re-enqueues the process at the tail; its page-table
entry for the faulted page is installed valid, and at the first later
iteration at which the process is again at the head of the queue its
cursor and reference string are unchanged — the same reference is
re-resolved — and that re-resolution is a TLB hit or a page hit. -/
theorem C5_fault_retry_hit (st : PyCore.SimState) (pid : Nat) (rest : List Nat) (page : Int)
    (hq : st.ready_queue = pid :: rest)
    (hcur : (PyCore.getProc st.mmu pid).current_index <
      (PyCore.getProc st.mmu pid).reference_string.length)
    (hpage : page = (PyCore.getProc st.mmu pid).reference_string.getD
      (PyCore.getProc st.mmu pid).current_index 0)
    (hfault : (PyCore.handle_page_request st.mmu pid page).2.1 = Event.page_fault)
    (hcompl : (PyCore.getProc st.mmu pid).completed = false)
    (hrowlen : (PyCore.getProc st.mmu pid).m ≤ (PyCore.getRow st.mmu pid).length)
    (hpt : pid < st.mmu.page_table.length)
    (hpl : pid < st.mmu.processes.length) :
    (PyCore.loopStep st).mmu =
      (PyCore.handle_page_fault (PyCore.handle_page_request st.mmu pid page).2.2 pid page).2 ∧
    (PyCore.getProc (PyCore.loopStep st).mmu pid).current_index =
      (PyCore.getProc st.mmu pid).current_index ∧
    (PyCore.getProc (PyCore.loopStep st).mmu pid).reference_string =
      (PyCore.getProc st.mmu pid).reference_string ∧
    (PyCore.loopStep st).ready_queue = rest ++ [pid] ∧
    (PyCore.loopStep st).steps.map (fun x => x.event) =
      st.steps.map (fun x => x.event) ++ [Event.page_fault, Event.page_fault_handled] ∧
    PyCore.getEntry (PyCore.loopStep st).mmu pid page =
      ⟨(PyCore.handle_page_fault (PyCore.handle_page_request st.mmu pid page).2.2 pid page).1,
        true, st.mmu.timestamp + 1, 1⟩ ∧
    (∀ j, (∀ i, i < j →
        (PyCore.iterate i (PyCore.loopStep st)).ready_queue.head? ≠ some pid) →
      (PyCore.iterate j (PyCore.loopStep st)).ready_queue.head? = some pid →
      (PyCore.getProc (PyCore.iterate j (PyCore.loopStep st)).mmu pid).reference_string.getD
        (PyCore.getProc (PyCore.iterate j (PyCore.loopStep st)).mmu pid).current_index 0 =
        page ∧
      ((PyCore.handle_page_request (PyCore.iterate j (PyCore.loopStep st)).mmu pid page).2.1 =
          Event.tlb_hit ∨
        (PyCore.handle_page_request (PyCore.iterate j (PyCore.loopStep st)).mmu pid page).2.1 =
          Event.page_hit)) := by
  have hch := PyCore.request_fault_char st.mmu pid page hfault
  have hin := hch.1
  have hr := hch.2.2.2
  have h0 : 0 ≤ page := le_of_not_lt (fun hx => hin (Or.inl hx))
  have hpm : page < ((PyCore.getProc st.mmu pid).m : Int) :=
    lt_of_not_le (fun hx => hin (Or.inr hx))
  have hrowpage : page.toNat < (PyCore.getRow st.mmu pid).length := by
    have h1 : page.toNat < (PyCore.getProc st.mmu pid).m := by omega
    omega
  set sF := (PyCore.handle_page_request st.mmu pid page).2.2 with hsF
  have hsFdef : sF = { st.mmu with
      timestamp := st.mmu.timestamp + 1
      page_fault_counts := st.mmu.page_fault_counts.set pid
        (st.mmu.page_fault_counts.getD pid 0 + 1) } := by
    rw [hsF, hr]
  have hrowF : page.toNat < (PyCore.getRow sF pid).length := by
    rw [hsFdef]
    exact hrowpage
  have hptF : pid < sF.page_table.length := by
    rw [hsFdef]
    exact hpt
  have hplF : pid < sF.processes.length := by
    rw [hsFdef]
    exact hpl
  have hfi := PyCore.fault_installs sF pid page h0 hrowF hptF hplF
  have hprocF : PyCore.getProc sF pid = PyCore.getProc st.mmu pid := by
    rw [hsFdef]
    rfl
  have htsF : sF.timestamp = st.mmu.timestamp + 1 := by
    rw [hsFdef]
  have hcompl2 : (PyCore.getProc (PyCore.handle_page_fault sF pid page).2 pid).completed =
      false := by
    rw [hfi.2.2.2.2, hprocF]
    exact hcompl
  have hcnot :
      ¬((PyCore.getProc (PyCore.handle_page_fault sF pid page).2 pid).completed = true) := by
    rw [hcompl2]
    exact Bool.false_ne_true
  have hls : PyCore.loopStep st = PyCore.returnToReady
      { st with ready_queue := rest
                mmu := (PyCore.handle_page_fault sF pid page).2
                steps := (st.steps ++ [PyCore.mkStep sF pid page (-1) Event.page_fault])
                  ++ [PyCore.mkStep (PyCore.handle_page_fault sF pid page).2 pid page
                        (PyCore.handle_page_fault sF pid page).1
                        Event.page_fault_handled] } pid := by
    rw [PyCore.loopStep.eq_def, hq]
    dsimp only
    rw [if_neg (by omega), ← hpage, hsF, hr]
  have hmmu : (PyCore.loopStep st).mmu = (PyCore.handle_page_fault sF pid page).2 := by
    rw [hls, PyCore.returnToReady_mmu]
  have hLcur : (PyCore.getProc (PyCore.loopStep st).mmu pid).current_index =
      (PyCore.getProc st.mmu pid).current_index := by
    rw [hmmu, hfi.2.1, hprocF]
  have hLref : (PyCore.getProc (PyCore.loopStep st).mmu pid).reference_string =
      (PyCore.getProc st.mmu pid).reference_string := by
    rw [hmmu, hfi.2.2.1, hprocF]
  have hLm : (PyCore.getProc (PyCore.loopStep st).mmu pid).m =
      (PyCore.getProc st.mmu pid).m := by
    rw [hmmu, hfi.2.2.2.1, hprocF]
  have hqueue : (PyCore.loopStep st).ready_queue = rest ++ [pid] := by
    rw [hls]
    unfold PyCore.returnToReady
    dsimp only
    rw [if_neg hcnot]
  have hent : PyCore.getEntry (PyCore.loopStep st).mmu pid page =
      ⟨(PyCore.handle_page_fault sF pid page).1, true, st.mmu.timestamp + 1, 1⟩ := by
    rw [hmmu, hfi.1, htsF]
  have hsteps : (PyCore.loopStep st).steps.map (fun x => x.event) =
      st.steps.map (fun x => x.event) ++ [Event.page_fault, Event.page_fault_handled] := by
    rw [hls]
    unfold PyCore.returnToReady
    dsimp only
    rw [if_neg hcnot]
    show ((st.steps ++ [_]) ++ [_]).map _ = _
    simp [PyCore.mkStep]
  refine ⟨hmmu, hLcur, hLref, hqueue, hsteps, hent, ?_⟩
  intro j hbefore _hnow
  have hP := PyCore.iterate_not_dispatched_preserves (PyCore.loopStep st) pid j hbefore
  constructor
  · rw [hP.1, hLref, hLcur]
    exact hpage.symm
  · have hin2 : ¬(page < 0 ∨
        ((PyCore.getProc (PyCore.iterate j (PyCore.loopStep st)).mmu pid).m : Int) ≤ page) := by
      rw [hP.1, hLm]
      exact hin
    have hvj : (PyCore.getEntry (PyCore.iterate j (PyCore.loopStep st)).mmu pid page).valid =
        true := by
      show (pyGetD (PyCore.getRow (PyCore.iterate j (PyCore.loopStep st)).mmu pid)
        page {}).valid = true
      rw [hP.2]
      show (PyCore.getEntry (PyCore.loopStep st).mmu pid page).valid = true
      rw [hent]
    exact PyCore.request_hit_outcome _ pid page hin2 hvj

/-- Witness for C5 at scenario A's first iteration: process 0 faults on
page 0, is re-enqueued (queue becomes [0] again), and its immediate next
dispatch resolves the same reference as a hit. -/
theorem C5_fault_retry_hit_witness :
    (PyCore.loopStep scenarioA).ready_queue = [0] ∧
    ((PyCore.handle_page_request (PyCore.iterate 0 (PyCore.loopStep scenarioA)).mmu 0 0).2.1 =
        Event.tlb_hit ∨
      (PyCore.handle_page_request (PyCore.iterate 0 (PyCore.loopStep scenarioA)).mmu 0 0).2.1 =
        Event.page_hit) := by
  have h := C5_fault_retry_hit scenarioA 0 [] 0 (by decide) (by decide) (by decide) (by decide)
    (by decide) (by decide) (by decide) (by decide)
  refine ⟨h.2.2.2.1, ?_⟩
  exact (h.2.2.2.2.2.2 0 (fun i hi => absurd hi (Nat.not_lt_zero i)) (by decide)).2

end VMSim

namespace VMSim

lemma sum_map_set {α : Type} (f : α → Nat) :
    ∀ (l : List α) (i : Nat) (a d : α), i < l.length →
      ((l.set i a).map f).sum + f (l.getD i d) = (l.map f).sum + f a := by
  intro l
  induction l with
  | nil =>
    intro i a d hi
    simp at hi
  | cons x xs ih =>
    intro i a d hi
    cases i with
    | zero =>
      simp only [List.set_cons_zero, List.map_cons, List.sum_cons, List.getD_cons_zero]
      omega
    | succ n =>
      have hn : n < xs.length := by simpa using hi
      have h1 := ih n a d hn
      simp only [List.set_cons_succ, List.map_cons, List.sum_cons, List.getD_cons_succ]
      omega

lemma getLastD_cons_mem {α : Type} : ∀ (l : List α) (a d : α), (a :: l).getLastD d ∈ a :: l := by
  intro l
  induction l with
  | nil =>
    intro a d
    simp
  | cons b t ih =>
    intro a d
    exact List.mem_cons_of_mem a (ih b a)

namespace PyCore

lemma countValid_congr (row row' : List PTEntry) :
    ∀ n, (∀ p, p < n → (row'.getD p {}).valid = (row.getD p {}).valid) →
      countValid row' n = countValid row n := by
  intro n
  induction n with
  | zero => intro _; rfl
  | succ n ih =>
    intro h
    rw [countValid, countValid, ih (fun p hp => h p (Nat.lt_succ_of_lt hp)),
      h n (Nat.lt_succ_self n)]

lemma countValid_set (row : List PTEntry) (j : Nat) (e : PTEntry) :
    ∀ n, j < n → j < row.length →
      countValid (row.set j e) n + (if (row.getD j {}).valid then 1 else 0) =
        countValid row n + (if e.valid then 1 else 0) := by
  intro n
  induction n with
  | zero => intro h; omega
  | succ n ih =>
    intro hj hlen
    by_cases hjn : j = n
    · subst hjn
      have hc : countValid (row.set j e) j = countValid row j :=
        countValid_congr _ _ j (fun p hp => by
          rw [getD_set_ne _ _ _ _ _ (fun h2 => by omega)])
      rw [countValid, countValid, hc, getD_set_self, if_pos hlen]
      omega
    · have hjn2 : j < n := by omega
      have := ih hjn2 hlen
      rw [countValid, countValid, getD_set_ne _ _ _ _ _ hjn]
      omega

lemma countValid_pos (row : List PTEntry) :
    ∀ n, 1 ≤ countValid row n → ∃ p, p < n ∧ (row.getD p {}).valid = true := by
  intro n
  induction n with
  | zero => intro h; exact absurd h (by rw [countValid]; omega)
  | succ n ih =>
    intro h
    by_cases hv : (row.getD n {}).valid = true
    · exact ⟨n, Nat.lt_succ_self n, hv⟩
    · rw [countValid, if_neg hv] at h
      obtain ⟨p, hp, hvp⟩ := ih (by omega)
      exact ⟨p, Nat.lt_succ_of_lt hp, hvp⟩

lemma countValid_zero (row : List PTEntry) :
    ∀ n, (∀ p, p < n → (row.getD p {}).valid = false) → countValid row n = 0 := by
  intro n
  induction n with
  | zero => intro _; rfl
  | succ n ih =>
    intro h
    have hn := h n (Nat.lt_succ_self n)
    have hn2 : ¬((row.getD n {}).valid = true) := by rw [hn]; exact Bool.false_ne_true
    rw [countValid, if_neg hn2, ih (fun p hp => h p (Nat.lt_succ_of_lt hp))]

lemma sum_use_le_alloc :
    ∀ (procs : List Process),
      (∀ i, i < procs.length → (procs.getD i {}).usecount ≤ (procs.getD i {}).allocount) →
      (procs.map (fun p => p.usecount)).sum ≤ (procs.map (fun p => p.allocount)).sum := by
  intro procs
  induction procs with
  | nil => intro _; exact le_refl _
  | cons x xs ih =>
    intro h
    have hx := h 0 (by simp)
    have ht := ih (fun i hi => h (i + 1) (by simpa using hi))
    simp at hx ⊢
    omega

lemma use_eq_alloc_of_sum_eq :
    ∀ (procs : List Process),
      (∀ i, i < procs.length → (procs.getD i {}).usecount ≤ (procs.getD i {}).allocount) →
      (procs.map (fun p => p.usecount)).sum = (procs.map (fun p => p.allocount)).sum →
      ∀ i, i < procs.length → (procs.getD i {}).usecount = (procs.getD i {}).allocount := by
  intro procs
  induction procs with
  | nil =>
    intro _ _ i hi
    simp at hi
  | cons x xs ih =>
    intro h hsum i hi
    have hx := h 0 (by simp)
    have htle := sum_use_le_alloc xs (fun j hj => h (j + 1) (by simpa using hj))
    simp at hsum hx
    cases i with
    | zero =>
      simp
      omega
    | succ n =>
      have hn : n < xs.length := by simpa using hi
      have htsum : (xs.map (fun p => p.usecount)).sum = (xs.map (fun p => p.allocount)).sum := by
        omega
      exact ih (fun j hj => h (j + 1) (by simpa using hj)) htsum n hn

end PyCore
end VMSim

namespace VMSim
namespace PyCore

lemma freeGo_row_length : ∀ (ps : List Nat) (row : List PTEntry) (free phys : List Int),
    (freeGo row free phys ps).1.length = row.length := by
  intro ps
  induction ps with
  | nil =>
    intro row free phys
    rfl
  | cons q ps ih =>
    intro row free phys
    by_cases hv : (row.getD q {}).valid = true
    · rw [freeGo, if_pos hv, ih]
      exact List.length_set _ _ _
    · rw [freeGo, if_neg hv]
      exact ih _ _ _

/-- The free list produced by the freeGo loop: the old pool followed by
the frames of the valid listed entries, in page order. -/
lemma freeGo_free_eq : ∀ (ps : List Nat) (row : List PTEntry) (free phys : List Int),
    ps.Nodup →
    (freeGo row free phys ps).2.1 =
      free ++ (ps.filter (fun p => (row.getD p {}).valid)).map
        (fun p => (row.getD p {}).frame) := by
  intro ps
  induction ps with
  | nil =>
    intro row free phys _
    simp [freeGo]
  | cons q ps ih =>
    intro row free phys hnd
    have hq : q ∉ ps := (List.nodup_cons.mp hnd).1
    have hnd2 : ps.Nodup := (List.nodup_cons.mp hnd).2
    by_cases hv : (row.getD q {}).valid = true
    · rw [freeGo, if_pos hv]
      rw [ih _ _ _ hnd2]
      have hfc : ps.filter
          (fun p => ((row.set q { row.getD q {} with valid := false }).getD p {}).valid) =
          ps.filter (fun p => (row.getD p {}).valid) := by
        apply List.filter_congr
        intro p hp
        rw [getD_set_ne _ _ _ _ _ (fun h2 => hq (by rw [h2]; exact hp))]
      rw [hfc]
      have hmc : (ps.filter (fun p => (row.getD p {}).valid)).map
          (fun p => ((row.set q { row.getD q {} with valid := false }).getD p {}).frame) =
          (ps.filter (fun p => (row.getD p {}).valid)).map
            (fun p => (row.getD p {}).frame) := by
        apply List.map_congr_left
        intro p hp
        have hps : p ∈ ps := (List.mem_filter.mp hp).1
        rw [getD_set_ne _ _ _ _ _ (fun h2 => hq (by rw [h2]; exact hps))]
      rw [hmc, List.filter_cons, if_pos hv, List.map_cons]
      simp
    · rw [freeGo, if_neg hv, ih _ _ _ hnd2, List.filter_cons, if_neg hv]

/-- countValid as a filter length over the page indices. -/
lemma countValid_filter (row : List PTEntry) :
    ∀ n, countValid row n =
      ((List.range n).filter (fun p => (row.getD p {}).valid)).length := by
  intro n
  induction n with
  | zero => rfl
  | succ n ih =>
    rw [countValid, ih, List.range_succ, List.filter_append, List.length_append,
      List.filter_cons]
    by_cases hv : (row.getD n {}).valid = true
    · rw [if_pos hv, if_pos hv]
      rfl
    · rw [if_neg hv, if_neg hv]
      rfl

end PyCore
end VMSim

namespace VMSim
namespace PyCore

/-- A setProc that keeps the page count and both frame counters preserves
the MMU invariant. -/
lemma inv_setProc_fields (s : MMU) (pid : Nat) (pr : Process) (hInv : Inv s) (hpid : pid < s.k)
    (hm : pr.m = (getProc s pid).m) (ha : pr.allocount = (getProc s pid).allocount)
    (hu : pr.usecount = (getProc s pid).usecount) :
    Inv (setProc s pid pr) := by
  obtain ⟨hPL, hTL, hRL, hMM, hA1, hUA, hCV, hSUM, hSAL, hEB, hFR⟩ := hInv
  have hplen : pid < s.processes.length := by rw [hPL]; exact hpid
  have hproc : ∀ i, i < s.k → getProc (setProc s pid pr) i =
      if i = pid then pr else getProc s i := by
    intro i hi
    by_cases hip : i = pid
    · subst hip
      rw [if_pos rfl]
      exact getProc_setProc_self _ _ _ hplen
    · rw [if_neg hip]
      exact getProc_setProc_other _ _ _ _ hip
  refine ⟨?_, ?_, ?_, ?_, ?_, ?_, ?_, ?_, ?_, ?_, ?_⟩
  · show (s.processes.set pid pr).length = s.k
    rw [List.length_set]
    exact hPL
  · exact hTL
  · intro i hi
    rw [getRow_setProc]
    exact hRL i hi
  · intro i hi
    have hi2 : i < s.k := hi
    rw [hproc i hi2]
    by_cases hip : i = pid
    · rw [if_pos hip, hm]
      exact hMM pid hpid
    · rw [if_neg hip]
      exact hMM i hi2
  · intro i hi
    have hi2 : i < s.k := hi
    rw [hproc i hi2]
    by_cases hip : i = pid
    · rw [if_pos hip, ha]
      exact hA1 pid hpid
    · rw [if_neg hip]
      exact hA1 i hi2
  · intro i hi
    have hi2 : i < s.k := hi
    rw [hproc i hi2]
    by_cases hip : i = pid
    · rw [if_pos hip, ha, hu]
      exact hUA pid hpid
    · rw [if_neg hip]
      exact hUA i hi2
  · intro i hi
    have hi2 : i < s.k := hi
    rw [getRow_setProc, hproc i hi2]
    by_cases hip : i = pid
    · rw [if_pos hip, hm, hu, hip]
      exact hCV pid hpid
    · rw [if_neg hip]
      exact hCV i hi2
  · show ((s.processes.set pid pr).map (fun p => p.usecount)).sum + s.free_frames.length = s.f
    have hs := sum_map_set (fun p => p.usecount) s.processes pid pr {} hplen
    dsimp only at hs
    have hgp : ((s.processes.getD pid {}).usecount) = (getProc s pid).usecount := rfl
    omega
  · show ((s.processes.set pid pr).map (fun p => p.allocount)).sum = s.f
    have hs := sum_map_set (fun p => p.allocount) s.processes pid pr {} hplen
    dsimp only at hs
    have hgp : ((s.processes.getD pid {}).allocount) = (getProc s pid).allocount := rfl
    omega
  · intro i hi j hj hv
    have hi2 : i < s.k := hi
    have hj2 : j < (getProc s i).m := by
      rw [hproc i hi2] at hj
      by_cases hip : i = pid
      · rw [if_pos hip] at hj
        rw [hip]
        rw [hm] at hj
        exact hj
      · rw [if_neg hip] at hj
        exact hj
    rw [getRow_setProc] at hv
    rw [getRow_setProc]
    exact hEB i hi2 j hj2 hv
  · intro fr hfr
    exact hFR fr hfr

/-- free_process_frames preserves the MMU invariant: it empties the
process's row, zeroes its usage counter and returns exactly its mapped
frames (all in range) to the pool. -/
lemma inv_free_process (s : MMU) (pid : Nat) (hInv : Inv s) (hpid : pid < s.k) :
    Inv (free_process_frames s pid) := by
  obtain ⟨hPL, hTL, hRL, hMM, hA1, hUA, hCV, hSUM, hSAL, hEB, hFR⟩ := hInv
  have hplen : pid < s.processes.length := by rw [hPL]; exact hpid
  have htlen : pid < s.page_table.length := by rw [hTL]; exact hpid
  set mP := (getProc s pid).m with hmP
  set rfp := freeGo (getRow s pid) s.free_frames s.physical_memory (List.range mP) with hrfp
  have hfp : free_process_frames s pid = { s with
      page_table := s.page_table.set pid rfp.1
      free_frames := rfp.2.1
      physical_memory := rfp.2.2
      tlb := tlbClearPid s.tlb pid
      processes := s.processes.set pid { getProc s pid with usecount := 0 } } := rfl
  have hrow : ∀ i, i < s.k → getRow (free_process_frames s pid) i =
      if i = pid then rfp.1 else getRow s i := by
    intro i _
    rw [hfp]
    show (s.page_table.set pid rfp.1).getD i [] = _
    by_cases hip : i = pid
    · subst hip
      rw [if_pos rfl, getD_set_self, if_pos htlen]
    · rw [if_neg hip, getD_set_ne _ _ _ _ _ (fun h2 => hip h2.symm)]
      rfl
  have hproc : ∀ i, i < s.k → getProc (free_process_frames s pid) i =
      if i = pid then { getProc s pid with usecount := 0 } else getProc s i := by
    intro i _
    rw [hfp]
    show (s.processes.set pid { getProc s pid with usecount := 0 }).getD i {} = _
    by_cases hip : i = pid
    · subst hip
      rw [if_pos rfl, getD_set_self, if_pos hplen]
    · rw [if_neg hip, getD_set_ne _ _ _ _ _ (fun h2 => hip h2.symm)]
      rfl
  have hrowlen : rfp.1.length = (getRow s pid).length := by
    rw [hrfp]
    exact freeGo_row_length _ _ _ _
  have hrinv : ∀ p, p < mP → (rfp.1.getD p {}).valid = false := by
    intro p hp
    rw [hrfp]
    exact freeGo_row_invalid _ _ _ _ p (List.mem_range.mpr hp)
  have hfree : rfp.2.1 = s.free_frames ++ ((List.range mP).filter
      (fun p => ((getRow s pid).getD p {}).valid)).map
        (fun p => ((getRow s pid).getD p {}).frame) := by
    rw [hrfp]
    exact freeGo_free_eq _ _ _ _ (List.nodup_range mP)
  have hflen : rfp.2.1.length = s.free_frames.length + (getProc s pid).usecount := by
    have h1 := countValid_filter (getRow s pid) mP
    rw [hfree, List.length_append, List.length_map, ← h1, hCV pid hpid]
  refine ⟨?_, ?_, ?_, ?_, ?_, ?_, ?_, ?_, ?_, ?_, ?_⟩
  · rw [hfp]
    show (s.processes.set pid { getProc s pid with usecount := 0 }).length = s.k
    rw [List.length_set]
    exact hPL
  · rw [hfp]
    show (s.page_table.set pid rfp.1).length = s.k
    rw [List.length_set]
    exact hTL
  · intro i hi
    have hi2 : i < s.k := hi
    rw [hrow i hi2]
    by_cases hip : i = pid
    · rw [if_pos hip, hrowlen]
      show (getRow s pid).length = s.m
      exact hRL pid hpid
    · rw [if_neg hip]
      show (getRow s i).length = s.m
      exact hRL i hi2
  · intro i hi
    have hi2 : i < s.k := hi
    rw [hproc i hi2]
    by_cases hip : i = pid
    · rw [if_pos hip]
      show (getProc s pid).m ≤ s.m
      exact hMM pid hpid
    · rw [if_neg hip]
      show (getProc s i).m ≤ s.m
      exact hMM i hi2
  · intro i hi
    have hi2 : i < s.k := hi
    rw [hproc i hi2]
    by_cases hip : i = pid
    · rw [if_pos hip]
      show 1 ≤ (getProc s pid).allocount
      exact hA1 pid hpid
    · rw [if_neg hip]
      exact hA1 i hi2
  · intro i hi
    have hi2 : i < s.k := hi
    rw [hproc i hi2]
    by_cases hip : i = pid
    · rw [if_pos hip]
      show 0 ≤ (getProc s pid).allocount
      exact Nat.zero_le _
    · rw [if_neg hip]
      exact hUA i hi2
  · intro i hi
    have hi2 : i < s.k := hi
    rw [hrow i hi2, hproc i hi2]
    by_cases hip : i = pid
    · rw [if_pos hip, if_pos hip]
      show countValid rfp.1 mP = 0
      exact countValid_zero rfp.1 mP hrinv
    · rw [if_neg hip, if_neg hip]
      exact hCV i hi2
  · rw [hfp]
    show ((s.processes.set pid { getProc s pid with usecount := 0 }).map
      (fun p => p.usecount)).sum + rfp.2.1.length = s.f
    have hs := sum_map_set (fun p => p.usecount) s.processes pid
      { getProc s pid with usecount := 0 } {} hplen
    dsimp only at hs ⊢
    have hgp : ((s.processes.getD pid {}).usecount) = (getProc s pid).usecount := rfl
    have h0 : ({ getProc s pid with usecount := 0 } : Process).usecount = 0 := rfl
    omega
  · rw [hfp]
    show ((s.processes.set pid { getProc s pid with usecount := 0 }).map
      (fun p => p.allocount)).sum = s.f
    have hs := sum_map_set (fun p => p.allocount) s.processes pid
      { getProc s pid with usecount := 0 } {} hplen
    dsimp only at hs ⊢
    have hgp : ((s.processes.getD pid {}).allocount) = (getProc s pid).allocount := rfl
    have h0 : ({ getProc s pid with usecount := 0 } : Process).allocount =
        (getProc s pid).allocount := rfl
    omega
  · intro i hi j hj hv
    have hi2 : i < s.k := hi
    have hj2 : j < (getProc s i).m := by
      rw [hproc i hi2] at hj
      by_cases hip : i = pid
      · rw [if_pos hip] at hj
        rw [hip]
        exact hj
      · rw [if_neg hip] at hj
        exact hj
    rw [hrow i hi2] at hv
    rw [hrow i hi2]
    by_cases hip : i = pid
    · rw [if_pos hip] at hv
      subst hip
      have hfalse := hrinv j hj2
      rw [hfalse] at hv
      exact absurd hv Bool.false_ne_true
    · rw [if_neg hip] at hv
      rw [if_neg hip]
      exact hEB i hi2 j hj2 hv
  · intro fr hfr
    have hfr2 : fr ∈ rfp.2.1 := hfr
    rw [hfree] at hfr2
    rcases List.mem_append.mp hfr2 with hold | hnew
    · exact hFR fr hold
    · obtain ⟨p, hpfil, hpeq⟩ := List.mem_map.mp hnew
      have hpmem := (List.mem_filter.mp hpfil).1
      have hpval := (List.mem_filter.mp hpfil).2
      have hpm : p < mP := List.mem_range.mp hpmem
      have hb := hEB pid hpid p hpm hpval
      rw [← hpeq]
      exact ⟨hb.1, hb.2.1⟩

/-- _handle_process_completion preserves the MMU invariant and the clock
and configuration constants. -/
lemma inv_handleCompletion (st : SimState) (pid : Nat) (hInv : Inv st.mmu)
    (hpid : pid < st.mmu.k) :
    Inv (handleCompletion st pid).mmu ∧
    (handleCompletion st pid).mmu.timestamp = st.mmu.timestamp ∧
    (handleCompletion st pid).mmu.k = st.mmu.k ∧
    (handleCompletion st pid).mmu.m = st.mmu.m ∧
    (handleCompletion st pid).mmu.f = st.mmu.f := by
  have h1 := inv_free_process st.mmu pid hInv hpid
  have h2 := inv_setProc_fields (free_process_frames st.mmu pid) pid
    { getProc (free_process_frames st.mmu pid) pid with completed := true } h1 hpid rfl rfl rfl
  exact ⟨h2, rfl, rfl, rfl, rfl⟩

end PyCore
end VMSim

namespace VMSim
namespace PyCore

/-- The MMU invariant only depends on the page table, the processes, the
free pool, the constants and (monotonically) the clock. -/
lemma inv_of_fields (s s' : MMU) (hInv : Inv s)
    (hk : s'.k = s.k) (hm : s'.m = s.m) (hf : s'.f = s.f)
    (hpt : s'.page_table = s.page_table) (hproc : s'.processes = s.processes)
    (hfree : s'.free_frames = s.free_frames) (hts : s.timestamp ≤ s'.timestamp) :
    Inv s' := by
  obtain ⟨hPL, hTL, hRL, hMM, hA1, hUA, hCV, hSUM, hSAL, hEB, hFR⟩ := hInv
  have hgr : ∀ i, getRow s' i = getRow s i := by
    intro i
    show s'.page_table.getD i [] = s.page_table.getD i []
    rw [hpt]
  have hgp : ∀ i, getProc s' i = getProc s i := by
    intro i
    show s'.processes.getD i {} = s.processes.getD i {}
    rw [hproc]
  refine ⟨?_, ?_, ?_, ?_, ?_, ?_, ?_, ?_, ?_, ?_, ?_⟩
  · rw [hproc, hk]
    exact hPL
  · rw [hpt, hk]
    exact hTL
  · intro i hi
    rw [hk] at hi
    rw [hgr i, hm]
    exact hRL i hi
  · intro i hi
    rw [hk] at hi
    rw [hgp i, hm]
    exact hMM i hi
  · intro i hi
    rw [hk] at hi
    rw [hgp i]
    exact hA1 i hi
  · intro i hi
    rw [hk] at hi
    rw [hgp i]
    exact hUA i hi
  · intro i hi
    rw [hk] at hi
    rw [hgr i, hgp i]
    exact hCV i hi
  · rw [hproc, hfree, hf]
    exact hSUM
  · rw [hproc, hf]
    exact hSAL
  · intro i hi j hj hv
    rw [hk] at hi
    rw [hgp i] at hj
    rw [hgr i] at hv
    rw [hgr i, hf]
    have hb := hEB i hi j hj hv
    exact ⟨hb.1, hb.2.1, le_trans hb.2.2.1 hts, hb.2.2.2.1, le_trans hb.2.2.2.2 hts⟩
  · intro fr hfr
    rw [hfree] at hfr
    rw [hf]
    exact hFR fr hfr

/-- Full result of a TLB-hit resolve. -/
lemma request_tlbhit_full (s : MMU) (pid : Nat) (page : Int)
    (hin : ¬(page < 0 ∨ ((getProc s pid).m : Int) ≤ page))
    (hhit : (check_tlb s.tlb pid page).2 = true) :
    handle_page_request s pid page =
      ((check_tlb s.tlb pid page).1, Event.tlb_hit,
        { s with timestamp := s.timestamp + 1
                 tlb_hit_count := s.tlb_hit_count + 1
                 tlb := update_tlb_time s.tlb pid page (s.timestamp + 1) }) := by
  unfold handle_page_request
  dsimp only
  rw [show getProc { s with timestamp := s.timestamp + 1 } pid = getProc s pid from rfl]
  rw [if_neg hin]
  rw [show check_tlb ({ s with timestamp := s.timestamp + 1 } : MMU).tlb pid page =
    check_tlb s.tlb pid page from rfl]
  rcases hc : check_tlb s.tlb pid page with ⟨fr, b⟩
  rw [hc] at hhit
  dsimp at hhit
  subst hhit
  rfl

/-- Full result of a page-hit resolve. -/
lemma request_pagehit_full (s : MMU) (pid : Nat) (page : Int)
    (hin : ¬(page < 0 ∨ ((getProc s pid).m : Int) ≤ page))
    (hmiss : (check_tlb s.tlb pid page).2 = false)
    (hv : (getEntry s pid page).valid = true) :
    handle_page_request s pid page =
      ((getEntry s pid page).frame, Event.page_hit,
        { s with timestamp := s.timestamp + 1
                 page_table := s.page_table.set pid (pySet (getRow s pid) page
                   ⟨(getEntry s pid page).frame, (getEntry s pid page).valid,
                     s.timestamp + 1, (getEntry s pid page).frequency + 1⟩)
                 page_hit_count := s.page_hit_count + 1
                 tlb := update_tlb s.tlb pid page (getEntry s pid page).frame
                   (s.timestamp + 1) }) := by
  unfold handle_page_request
  dsimp only
  rw [show getProc { s with timestamp := s.timestamp + 1 } pid = getProc s pid from rfl]
  rw [if_neg hin]
  rw [show check_tlb ({ s with timestamp := s.timestamp + 1 } : MMU).tlb pid page =
    check_tlb s.tlb pid page from rfl]
  rcases hc : check_tlb s.tlb pid page with ⟨fr, b⟩
  rw [hc] at hmiss
  dsimp at hmiss
  subst hmiss
  rw [show getEntry ({ s with timestamp := s.timestamp + 1 } : MMU) pid page =
    getEntry s pid page from rfl]
  rw [if_pos hv]
  rfl

/-- Full result of a faulting resolve. -/
lemma request_fault_full (s : MMU) (pid : Nat) (page : Int)
    (hin : ¬(page < 0 ∨ ((getProc s pid).m : Int) ≤ page))
    (hmiss : (check_tlb s.tlb pid page).2 = false)
    (hvf : (getEntry s pid page).valid = false) :
    handle_page_request s pid page =
      (-1, Event.page_fault,
        { s with timestamp := s.timestamp + 1
                 page_fault_counts :=
                   s.page_fault_counts.set pid (s.page_fault_counts.getD pid 0 + 1) }) := by
  unfold handle_page_request
  dsimp only
  rw [show getProc { s with timestamp := s.timestamp + 1 } pid = getProc s pid from rfl]
  rw [if_neg hin]
  rw [show check_tlb ({ s with timestamp := s.timestamp + 1 } : MMU).tlb pid page =
    check_tlb s.tlb pid page from rfl]
  rcases hc : check_tlb s.tlb pid page with ⟨fr, b⟩
  rw [hc] at hmiss
  dsimp at hmiss
  subst hmiss
  dsimp only
  rw [if_neg Bool.false_ne_true]
  rw [show getEntry ({ s with timestamp := s.timestamp + 1 } : MMU) pid page =
    getEntry s pid page from rfl]
  have hvf2 : ¬((getEntry s pid page).valid = true) := by
    rw [hvf]
    exact Bool.false_ne_true
  rw [if_neg hvf2]

end PyCore
end VMSim

namespace VMSim
namespace PyCore

lemma getRow_evict_other (s : MMU) (pid i : Nat) (hi : i ≠ pid) :
    getRow (evict_page s pid).2 i = getRow s i := by
  show (s.page_table.set pid (pySet (getRow s pid) (selectVictim s pid)
    { pyGetD (getRow s pid) (selectVictim s pid) {} with valid := false })).getD i [] =
    s.page_table.getD i []
  exact getD_set_ne _ _ _ _ _ (fun h2 => hi h2.symm)

/-- When some page of the process is valid with all scan keys below the
sentinel, victim selection returns a real page of the process: a valid
entry, never the -1 fallback. -/
lemma selectVictim_found (s : MMU) (pid : Nat)
    (hex : ∃ p, p < (getProc s pid).m ∧ ((getRow s pid).getD p {}).valid = true ∧
      (((getRow s pid).getD p {}).time : Int) < sysMaxsize ∧
      ((getRow s pid).getD p {}).frame < sysMaxsize ∧
      (((getRow s pid).getD p {}).frequency : Int) < sysMaxsize) :
    ∃ v, v < (getProc s pid).m ∧ ((getRow s pid).getD v {}).valid = true ∧
      selectVictim s pid = (v : Int) := by
  obtain ⟨p, hp, hv, ht, hf, hq⟩ := hex
  cases halg : s.algorithm with
  | LRU =>
    have hsel : selectVictim s pid = (scanGo (fun r => ((getRow s pid).getD r {}).valid)
        (fun r => (((getRow s pid).getD r {}).time : Int)) (List.range (getProc s pid).m)
        (sysMaxsize, -1)).2 := by
      unfold selectVictim
      dsimp only
      rw [halg]
    obtain ⟨v, hvmem, hvv, heq⟩ := scanGo_found
      (fun r => ((getRow s pid).getD r {}).valid)
      (fun r => (((getRow s pid).getD r {}).time : Int)) (List.range (getProc s pid).m)
      (sysMaxsize, -1) ⟨p, List.mem_range.mpr hp, hv, ht⟩
    refine ⟨v, List.mem_range.mp hvmem, hvv, ?_⟩
    rw [hsel, heq]
  | FIFO =>
    have hsel : selectVictim s pid = (scanGo (fun r => ((getRow s pid).getD r {}).valid)
        (fun r => ((getRow s pid).getD r {}).frame) (List.range (getProc s pid).m)
        (sysMaxsize, -1)).2 := by
      unfold selectVictim
      dsimp only
      rw [halg]
    obtain ⟨v, hvmem, hvv, heq⟩ := scanGo_found
      (fun r => ((getRow s pid).getD r {}).valid)
      (fun r => ((getRow s pid).getD r {}).frame) (List.range (getProc s pid).m)
      (sysMaxsize, -1) ⟨p, List.mem_range.mpr hp, hv, hf⟩
    refine ⟨v, List.mem_range.mp hvmem, hvv, ?_⟩
    rw [hsel, heq]
  | LFU =>
    have hsel : selectVictim s pid = (scanGo (fun r => ((getRow s pid).getD r {}).valid)
        (fun r => (((getRow s pid).getD r {}).frequency : Int)) (List.range (getProc s pid).m)
        (sysMaxsize, -1)).2 := by
      unfold selectVictim
      dsimp only
      rw [halg]
    obtain ⟨v, hvmem, hvv, heq⟩ := scanGo_found
      (fun r => ((getRow s pid).getD r {}).valid)
      (fun r => (((getRow s pid).getD r {}).frequency : Int)) (List.range (getProc s pid).m)
      (sysMaxsize, -1) ⟨p, List.mem_range.mpr hp, hv, hq⟩
    refine ⟨v, List.mem_range.mp hvmem, hvv, ?_⟩
    rw [hsel, heq]

end PyCore
end VMSim

namespace VMSim
namespace PyCore

/-- Invariant preservation and frame range for the eviction path of the
fault handler. -/
lemma inv_fault_evict (s : MMU) (pid : Nat) (page : Int) (hInv : Inv s) (hpid : pid < s.k)
    (h0 : 0 ≤ page) (hpm : page.toNat < (getProc s pid).m)
    (hvf : (getEntry s pid page).valid = false)
    (hts1 : 1 ≤ s.timestamp)
    (hsent : (s.timestamp : Int) < sysMaxsize)
    (hfsent : (s.f : Int) ≤ sysMaxsize)
    (hcond : s.free_frames.length = 0 ∨
      (getProc s pid).allocount ≤ (getProc s pid).usecount) :
    Inv (handle_page_fault s pid page).2 ∧
    0 ≤ (handle_page_fault s pid page).1 ∧
    (handle_page_fault s pid page).1 < (s.f : Int) := by
  obtain ⟨hPL, hTL, hRL, hMM, hA1, hUA, hCV, hSUM, hSAL, hEB, hFR⟩ := hInv
  have hplen : pid < s.processes.length := by rw [hPL]; exact hpid
  have htlen : pid < s.page_table.length := by rw [hTL]; exact hpid
  have hrowlen : (getRow s pid).length = s.m := hRL pid hpid
  have hmle : (getProc s pid).m ≤ s.m := hMM pid hpid
  have hpgrow : page.toNat < (getRow s pid).length := by omega
  have hvfrow : ((getRow s pid).getD page.toNat {}).valid = false := by
    have h1 : getEntry s pid page = (getRow s pid).getD page.toNat {} := by
      show pyGetD (getRow s pid) page {} = _
      rw [pyGetD_nonneg _ _ _ h0]
    rw [← h1]
    exact hvf
  have huse1 : 1 ≤ (getProc s pid).usecount := by
    have hgpu : (s.processes.getD pid {}).usecount = (getProc s pid).usecount := rfl
    have hgpa : (s.processes.getD pid {}).allocount = (getProc s pid).allocount := rfl
    have ha1 := hA1 pid hpid
    rcases hcond with hfree0 | hquota
    · have hsle : ∀ i, i < s.processes.length →
          (s.processes.getD i {}).usecount ≤ (s.processes.getD i {}).allocount := by
        intro i hi
        have hik : i < s.k := by rw [← hPL]; exact hi
        exact hUA i hik
      have hsumeq : (s.processes.map (fun p => p.usecount)).sum =
          (s.processes.map (fun p => p.allocount)).sum := by omega
      have heqp := use_eq_alloc_of_sum_eq s.processes hsle hsumeq pid hplen
      omega
    · omega
  have hexcv : 1 ≤ countValid (getRow s pid) (getProc s pid).m := by
    rw [hCV pid hpid]
    exact huse1
  obtain ⟨p0, hp0, hv0⟩ := countValid_pos (getRow s pid) (getProc s pid).m hexcv
  have hb0 := hEB pid hpid p0 hp0 hv0
  have ht0 : (((getRow s pid).getD p0 {}).time : Int) < sysMaxsize := by
    have := hb0.2.2.1
    omega
  have hq0 : (((getRow s pid).getD p0 {}).frequency : Int) < sysMaxsize := by
    have := hb0.2.2.2.2
    omega
  obtain ⟨v, hvm, hvv, hsel⟩ := selectVictim_found s pid
    ⟨p0, hp0, hv0, ht0, lt_of_lt_of_le hb0.2.1 hfsent, hq0⟩
  have hbv := hEB pid hpid v hvm hvv
  have hvpg : v ≠ page.toNat := by
    intro he
    rw [he] at hvv
    rw [hvfrow] at hvv
    exact Bool.false_ne_true hvv
  have hvlen : v < (getRow s pid).length := by omega
  have hrow1 : getRow (evict_page s pid).2 pid =
      (getRow s pid).set v { (getRow s pid).getD v {} with valid := false } := by
    rw [getRow_evict s pid htlen, hsel, pySet_nonneg _ _ _ (Int.natCast_nonneg v),
      pyGetD_nonneg _ _ _ (Int.natCast_nonneg v)]
    rfl
  have hfr1 : (evict_page s pid).1 = ((getRow s pid).getD v {}).frame := by
    show (pyGetD (getRow s pid) (selectVictim s pid) {}).frame = _
    rw [hsel, pyGetD_nonneg _ _ _ (Int.natCast_nonneg v)]
    rfl
  set ev := evict_page s pid with hev
  set s1 := ev.2 with hs1
  set s2 := setEntry s1 pid page ⟨ev.1, true, s1.timestamp, 1⟩ with hs2
  have hbr : handle_page_fault s pid page =
      (ev.1, { s2 with physical_memory := pySet s2.physical_memory ev.1 (pid : Int)
                       tlb := update_tlb s2.tlb pid page ev.1 s2.timestamp }) := by
    unfold handle_page_fault
    dsimp only
    rw [if_pos hcond]
  have hs1ptlen : s1.page_table.length = s.page_table.length := by
    rw [hs1, hev]
    exact evict_pt_length s pid
  have hpid1 : pid < s1.page_table.length := by
    rw [hs1ptlen]
    exact htlen
  have hrow2 : getRow s2 pid = ((getRow s pid).set v
      { (getRow s pid).getD v {} with valid := false }).set page.toNat
      ⟨ev.1, true, s1.timestamp, 1⟩ := by
    rw [hs2, getRow_setEntry_self _ _ _ _ hpid1, pySet_nonneg _ _ _ h0, hrow1]
  have hrow2o : ∀ i, i ≠ pid → getRow s2 i = getRow s i := by
    intro i hi
    rw [hs2, getRow_setEntry_other _ _ _ _ _ hi, hs1, hev]
    exact getRow_evict_other s pid i hi
  have hs2ptlen : s2.page_table.length = s.page_table.length := by
    rw [hs2]
    show (s1.page_table.set pid (pySet (getRow s1 pid) page
      (⟨ev.1, true, s1.timestamp, 1⟩ : PTEntry))).length = s.page_table.length
    rw [List.length_set]
    exact hs1ptlen
  -- counting
  have hstep1 := countValid_set (getRow s pid) v
    { (getRow s pid).getD v {} with valid := false } (getProc s pid).m hvm hvlen
  have heInv : ({ (getRow s pid).getD v {} with valid := false } : PTEntry).valid = false :=
    rfl
  rw [hvv, heInv, if_pos (rfl : true = true), if_neg Bool.false_ne_true] at hstep1
  have hlen1 : ((getRow s pid).set v
      { (getRow s pid).getD v {} with valid := false }).length = (getRow s pid).length :=
    List.length_set _ _ _
  have hgd1 : (((getRow s pid).set v
      { (getRow s pid).getD v {} with valid := false }).getD page.toNat {}).valid = false := by
    rw [getD_set_ne _ _ _ _ _ hvpg]
    exact hvfrow
  have hstep2 := countValid_set ((getRow s pid).set v
      { (getRow s pid).getD v {} with valid := false }) page.toNat
    (⟨ev.1, true, s1.timestamp, 1⟩ : PTEntry) (getProc s pid).m hpm (by omega)
  have heNew : ((⟨ev.1, true, s1.timestamp, 1⟩ : PTEntry)).valid = true := rfl
  rw [hgd1, heNew, if_neg Bool.false_ne_true, if_pos (rfl : true = true)] at hstep2
  have hcvpid := hCV pid hpid
  have hcount : countValid (getRow s2 pid) (getProc s pid).m = (getProc s pid).usecount := by
    rw [hrow2]
    omega
  -- assemble
  rw [hbr]
  have hfrb : 0 ≤ ev.1 ∧ ev.1 < (s.f : Int) := by
    rw [hev, hfr1]
    exact ⟨hbv.1, hbv.2.1⟩
  refine ⟨⟨?_, ?_, ?_, ?_, ?_, ?_, ?_, ?_, ?_, ?_, ?_⟩, hfrb.1, hfrb.2⟩
  · exact hPL
  · show s2.page_table.length = s.k
    rw [hs2ptlen]
    exact hTL
  · intro i hi
    have hi2 : i < s.k := hi
    show (getRow s2 i).length = s.m
    by_cases hip : i = pid
    · subst hip
      rw [hrow2, List.length_set, List.length_set]
      exact hrowlen
    · rw [hrow2o i hip]
      exact hRL i hi2
  · intro i hi
    exact hMM i hi
  · intro i hi
    exact hA1 i hi
  · intro i hi
    exact hUA i hi
  · intro i hi
    have hi2 : i < s.k := hi
    show countValid (getRow s2 i) (getProc s i).m = (getProc s i).usecount
    by_cases hip : i = pid
    · subst hip
      exact hcount
    · rw [hrow2o i hip]
      exact hCV i hi2
  · exact hSUM
  · exact hSAL
  · intro i hi j hj hv2
    have hi2 : i < s.k := hi
    have hj2 : j < (getProc s i).m := hj
    show 0 ≤ ((getRow s2 i).getD j {}).frame ∧
      ((getRow s2 i).getD j {}).frame < (s.f : Int) ∧
      ((getRow s2 i).getD j {}).time ≤ s.timestamp ∧
      1 ≤ ((getRow s2 i).getD j {}).frequency ∧
      ((getRow s2 i).getD j {}).frequency ≤ s.timestamp
    have hv3 : ((getRow s2 i).getD j {}).valid = true := hv2
    by_cases hip : i = pid
    · subst hip
      rw [hrow2] at hv3 ⊢
      by_cases hjp : j = page.toNat
      · subst hjp
        rw [getD_set_self, if_pos (by omega)]
        refine ⟨hfrb.1, hfrb.2, ?_, ?_, ?_⟩
        · show s1.timestamp ≤ s.timestamp
          rw [hs1, hev]
          exact le_refl _
        · exact le_refl 1
        · show 1 ≤ s.timestamp
          exact hts1
      · rw [getD_set_ne _ _ _ _ _ (fun h2 => hjp h2.symm)] at hv3 ⊢
        by_cases hjv : j = v
        · subst hjv
          rw [getD_set_self, if_pos hvlen] at hv3
          exact absurd hv3 (by rw [heInv]; exact Bool.false_ne_true)
        · rw [getD_set_ne _ _ _ _ _ (fun h2 => hjv h2.symm)] at hv3 ⊢
          exact hEB i hpid j hj2 hv3
    · rw [hrow2o i hip] at hv3 ⊢
      exact hEB i hi2 j hj2 hv3
  · intro fr hfr
    exact hFR fr hfr

end PyCore
end VMSim

namespace VMSim
namespace PyCore

/-- Invariant preservation and frame range for the free-pool allocation
path of the fault handler. -/
lemma inv_fault_alloc (s : MMU) (pid : Nat) (page : Int) (hInv : Inv s) (hpid : pid < s.k)
    (h0 : 0 ≤ page) (hpm : page.toNat < (getProc s pid).m)
    (hvf : (getEntry s pid page).valid = false)
    (hts1 : 1 ≤ s.timestamp)
    (hcond : ¬(s.free_frames.length = 0 ∨
      (getProc s pid).allocount ≤ (getProc s pid).usecount)) :
    Inv (handle_page_fault s pid page).2 ∧
    0 ≤ (handle_page_fault s pid page).1 ∧
    (handle_page_fault s pid page).1 < (s.f : Int) := by
  obtain ⟨hPL, hTL, hRL, hMM, hA1, hUA, hCV, hSUM, hSAL, hEB, hFR⟩ := hInv
  have hplen : pid < s.processes.length := by rw [hPL]; exact hpid
  have htlen : pid < s.page_table.length := by rw [hTL]; exact hpid
  have hrowlen : (getRow s pid).length = s.m := hRL pid hpid
  have hmle : (getProc s pid).m ≤ s.m := hMM pid hpid
  have hpgrow : page.toNat < (getRow s pid).length := by omega
  have hvfrow : ((getRow s pid).getD page.toNat {}).valid = false := by
    have h1 : getEntry s pid page = (getRow s pid).getD page.toNat {} := by
      show pyGetD (getRow s pid) page {} = _
      rw [pyGetD_nonneg _ _ _ h0]
    rw [← h1]
    exact hvf
  have hfne : s.free_frames.length ≠ 0 := fun h => hcond (Or.inl h)
  have huse : (getProc s pid).usecount < (getProc s pid).allocount := by
    by_cases h : (getProc s pid).allocount ≤ (getProc s pid).usecount
    · exact absurd (Or.inr h) hcond
    · omega
  have hfrmem : s.free_frames.getLastD (-1) ∈ s.free_frames := by
    cases hfl : s.free_frames with
    | nil =>
      rw [hfl] at hfne
      exact absurd rfl hfne
    | cons x t =>
      exact getLastD_cons_mem t x (-1)
  have hfrb := hFR _ hfrmem
  set fr := s.free_frames.getLastD (-1) with hfr
  set sA := setProc { s with free_frames := s.free_frames.dropLast } pid
    { getProc s pid with usecount := (getProc s pid).usecount + 1 } with hsA
  set s2 := setEntry sA pid page ⟨fr, true, sA.timestamp, 1⟩ with hs2
  have hbr : handle_page_fault s pid page =
      (fr, { s2 with physical_memory := pySet s2.physical_memory fr (pid : Int)
                     tlb := update_tlb s2.tlb pid page fr s2.timestamp }) := by
    unfold handle_page_fault
    dsimp only
    rw [if_neg hcond]
  have hrowA : ∀ i, getRow sA i = getRow s i := by
    intro i
    rw [hsA, getRow_setProc]
    rfl
  have hprocA : ∀ i, getProc sA i =
      if i = pid then { getProc s pid with usecount := (getProc s pid).usecount + 1 }
      else getProc s i := by
    intro i
    by_cases hip : i = pid
    · rw [if_pos hip, hip, hsA]
      rw [getProc_setProc_self { s with free_frames := s.free_frames.dropLast } pid _ hplen]
    · rw [if_neg hip, hsA, getProc_setProc_other _ _ _ _ hip]
      rfl
  have hptlenA : sA.page_table.length = s.page_table.length := rfl
  have hpidA : pid < sA.page_table.length := htlen
  have hrow2 : getRow s2 pid = (getRow s pid).set page.toNat ⟨fr, true, sA.timestamp, 1⟩ := by
    rw [hs2, getRow_setEntry_self _ _ _ _ hpidA, pySet_nonneg _ _ _ h0, hrowA]
  have hrow2o : ∀ i, i ≠ pid → getRow s2 i = getRow s i := by
    intro i hi
    rw [hs2, getRow_setEntry_other _ _ _ _ _ hi, hrowA]
  have hproc2 : ∀ i, getProc s2 i =
      if i = pid then { getProc s pid with usecount := (getProc s pid).usecount + 1 }
      else getProc s i := by
    intro i
    have h1 : getProc s2 i = getProc sA i := rfl
    rw [h1, hprocA]
  have hs2ptlen : s2.page_table.length = s.page_table.length := by
    rw [hs2]
    show (sA.page_table.set pid (pySet (getRow sA pid) page
      (⟨fr, true, sA.timestamp, 1⟩ : PTEntry))).length = s.page_table.length
    rw [List.length_set]
    rfl
  -- counting
  have hstep := countValid_set (getRow s pid) page.toNat
    (⟨fr, true, sA.timestamp, 1⟩ : PTEntry) (getProc s pid).m hpm hpgrow
  have heNew : ((⟨fr, true, sA.timestamp, 1⟩ : PTEntry)).valid = true := rfl
  rw [hvfrow, heNew, if_neg Bool.false_ne_true, if_pos (rfl : true = true)] at hstep
  have hcvpid := hCV pid hpid
  rw [hbr]
  refine ⟨⟨?_, ?_, ?_, ?_, ?_, ?_, ?_, ?_, ?_, ?_, ?_⟩, hfrb.1, hfrb.2⟩
  · show sA.processes.length = s.k
    rw [hsA]
    show (s.processes.set pid _).length = s.k
    rw [List.length_set]
    exact hPL
  · show s2.page_table.length = s.k
    rw [hs2ptlen]
    exact hTL
  · intro i hi
    have hi2 : i < s.k := hi
    show (getRow s2 i).length = s.m
    by_cases hip : i = pid
    · subst hip
      rw [hrow2, List.length_set]
      exact hrowlen
    · rw [hrow2o i hip]
      exact hRL i hi2
  · intro i hi
    have hi2 : i < s.k := hi
    show (getProc s2 i).m ≤ s.m
    rw [hproc2 i]
    by_cases hip : i = pid
    · rw [if_pos hip]
      exact hMM pid hpid
    · rw [if_neg hip]
      exact hMM i hi2
  · intro i hi
    have hi2 : i < s.k := hi
    show 1 ≤ (getProc s2 i).allocount
    rw [hproc2 i]
    by_cases hip : i = pid
    · rw [if_pos hip]
      exact hA1 pid hpid
    · rw [if_neg hip]
      exact hA1 i hi2
  · intro i hi
    have hi2 : i < s.k := hi
    show (getProc s2 i).usecount ≤ (getProc s2 i).allocount
    rw [hproc2 i]
    by_cases hip : i = pid
    · rw [if_pos hip]
      show (getProc s pid).usecount + 1 ≤ (getProc s pid).allocount
      omega
    · rw [if_neg hip]
      exact hUA i hi2
  · intro i hi
    have hi2 : i < s.k := hi
    show countValid (getRow s2 i) (getProc s2 i).m = (getProc s2 i).usecount
    rw [hproc2 i]
    by_cases hip : i = pid
    · rw [if_pos hip, hip, hrow2]
      show countValid _ (getProc s pid).m = (getProc s pid).usecount + 1
      omega
    · rw [if_neg hip, hrow2o i hip]
      exact hCV i hi2
  · show (sA.processes.map (fun p => p.usecount)).sum + s.free_frames.dropLast.length = s.f
    rw [hsA]
    show ((s.processes.set pid
      { getProc s pid with usecount := (getProc s pid).usecount + 1 }).map
        (fun p => p.usecount)).sum + s.free_frames.dropLast.length = s.f
    have hs := sum_map_set (fun p => p.usecount) s.processes pid
      { getProc s pid with usecount := (getProc s pid).usecount + 1 } {} hplen
    dsimp only at hs ⊢
    have hgp : ((s.processes.getD pid {}).usecount) = (getProc s pid).usecount := rfl
    have hdl : s.free_frames.dropLast.length = s.free_frames.length - 1 :=
      List.length_dropLast _
    omega
  · show (sA.processes.map (fun p => p.allocount)).sum = s.f
    rw [hsA]
    show ((s.processes.set pid
      { getProc s pid with usecount := (getProc s pid).usecount + 1 }).map
        (fun p => p.allocount)).sum = s.f
    have hs := sum_map_set (fun p => p.allocount) s.processes pid
      { getProc s pid with usecount := (getProc s pid).usecount + 1 } {} hplen
    dsimp only at hs ⊢
    have hgp : ((s.processes.getD pid {}).allocount) = (getProc s pid).allocount := rfl
    omega
  · intro i hi j hj hv2
    have hi2 : i < s.k := hi
    have hj2 : j < (getProc s i).m := by
      have hj3 : j < (getProc s2 i).m := hj
      rw [hproc2 i] at hj3
      by_cases hip : i = pid
      · rw [if_pos hip] at hj3
        rw [hip]
        exact hj3
      · rw [if_neg hip] at hj3
        exact hj3
    have hv3 : ((getRow s2 i).getD j {}).valid = true := hv2
    show 0 ≤ ((getRow s2 i).getD j {}).frame ∧
      ((getRow s2 i).getD j {}).frame < (s.f : Int) ∧
      ((getRow s2 i).getD j {}).time ≤ s.timestamp ∧
      1 ≤ ((getRow s2 i).getD j {}).frequency ∧
      ((getRow s2 i).getD j {}).frequency ≤ s.timestamp
    by_cases hip : i = pid
    · subst hip
      rw [hrow2] at hv3 ⊢
      by_cases hjp : j = page.toNat
      · subst hjp
        rw [getD_set_self, if_pos hpgrow]
        refine ⟨hfrb.1, hfrb.2, ?_, le_refl 1, ?_⟩
        · show s.timestamp ≤ s.timestamp
          exact le_refl _
        · show 1 ≤ s.timestamp
          exact hts1
      · rw [getD_set_ne _ _ _ _ _ (fun h2 => hjp h2.symm)] at hv3 ⊢
        exact hEB i hpid j hj2 hv3
    · rw [hrow2o i hip] at hv3 ⊢
      exact hEB i hi2 j hj2 hv3
  · intro fr2 hfr2
    have hfr3 : fr2 ∈ s.free_frames := List.Sublist.subset (List.dropLast_sublist _) hfr2
    exact hFR fr2 hfr3

end PyCore
end VMSim

namespace VMSim
namespace PyCore

/-- Invariant preservation for a page-hit resolve: only the hit entry's
recency metadata moves, under the bumped clock. -/
lemma inv_pagehit (s : MMU) (pid : Nat) (page : Int) (hInv : Inv s) (hpid : pid < s.k)
    (hin : ¬(page < 0 ∨ ((getProc s pid).m : Int) ≤ page))
    (hmiss : (check_tlb s.tlb pid page).2 = false)
    (hv : (getEntry s pid page).valid = true) :
    Inv (handle_page_request s pid page).2.2 := by
  obtain ⟨hPL, hTL, hRL, hMM, hA1, hUA, hCV, hSUM, hSAL, hEB, hFR⟩ := hInv
  have hplen : pid < s.processes.length := by rw [hPL]; exact hpid
  have htlen : pid < s.page_table.length := by rw [hTL]; exact hpid
  have hrowlen : (getRow s pid).length = s.m := hRL pid hpid
  have hmle : (getProc s pid).m ≤ s.m := hMM pid hpid
  have h0 : 0 ≤ page := le_of_not_lt (fun hx => hin (Or.inl hx))
  have hpmi : page < ((getProc s pid).m : Int) := lt_of_not_le (fun hx => hin (Or.inr hx))
  have hpm : page.toNat < (getProc s pid).m := by omega
  have hpgrow : page.toNat < (getRow s pid).length := by omega
  have hvrow : ((getRow s pid).getD page.toNat {}).valid = true := by
    have h1 : getEntry s pid page = (getRow s pid).getD page.toNat {} := by
      show pyGetD (getRow s pid) page {} = _
      rw [pyGetD_nonneg _ _ _ h0]
    rw [← h1]
    exact hv
  have hbE := hEB pid hpid page.toNat hpm hvrow
  rw [request_pagehit_full s pid page hin hmiss hv]
  set eN : PTEntry := ⟨(getEntry s pid page).frame, (getEntry s pid page).valid,
    s.timestamp + 1, (getEntry s pid page).frequency + 1⟩ with heN
  have heNv : eN.valid = true := by
    rw [heN]
    show (getEntry s pid page).valid = true
    exact hv
  have heNfr : eN.frame = ((getRow s pid).getD page.toNat {}).frame := by
    rw [heN]
    show (getEntry s pid page).frame = _
    show (pyGetD (getRow s pid) page {}).frame = _
    rw [pyGetD_nonneg _ _ _ h0]
  have heNq : eN.frequency = ((getRow s pid).getD page.toNat {}).frequency + 1 := by
    rw [heN]
    show (getEntry s pid page).frequency + 1 = _
    show (pyGetD (getRow s pid) page {}).frequency + 1 = _
    rw [pyGetD_nonneg _ _ _ h0]
  have hrow2 : ∀ i, (s.page_table.set pid (pySet (getRow s pid) page eN)).getD i [] =
      if i = pid then (getRow s pid).set page.toNat eN else getRow s i := by
    intro i
    by_cases hip : i = pid
    · subst hip
      rw [if_pos rfl, getD_set_self, if_pos htlen, pySet_nonneg _ _ _ h0]
    · rw [if_neg hip, getD_set_ne _ _ _ _ _ (fun h2 => hip h2.symm)]
      rfl
  refine ⟨?_, ?_, ?_, ?_, ?_, ?_, ?_, ?_, ?_, ?_, ?_⟩
  · exact hPL
  · show (s.page_table.set pid (pySet (getRow s pid) page eN)).length = s.k
    rw [List.length_set]
    exact hTL
  · intro i hi
    have hi2 : i < s.k := hi
    show ((s.page_table.set pid (pySet (getRow s pid) page eN)).getD i []).length = s.m
    rw [hrow2 i]
    by_cases hip : i = pid
    · rw [if_pos hip, List.length_set]
      exact hrowlen
    · rw [if_neg hip]
      exact hRL i hi2
  · intro i hi
    exact hMM i hi
  · intro i hi
    exact hA1 i hi
  · intro i hi
    exact hUA i hi
  · intro i hi
    have hi2 : i < s.k := hi
    show countValid ((s.page_table.set pid (pySet (getRow s pid) page eN)).getD i [])
      (getProc s i).m = (getProc s i).usecount
    rw [hrow2 i]
    by_cases hip : i = pid
    · rw [if_pos hip, hip]
      have hc := countValid_congr (getRow s pid) ((getRow s pid).set page.toNat eN)
        (getProc s pid).m (by
          intro p hp
          by_cases hpp : p = page.toNat
          · subst hpp
            rw [getD_set_self, if_pos hpgrow, heNv, hvrow]
          · rw [getD_set_ne _ _ _ _ _ (fun h2 => hpp h2.symm)])
      rw [hc]
      exact hCV pid hpid
    · rw [if_neg hip]
      exact hCV i hi2
  · exact hSUM
  · exact hSAL
  · intro i hi j hj hv2
    have hi2 : i < s.k := hi
    have hj2 : j < (getProc s i).m := hj
    show 0 ≤ (((s.page_table.set pid (pySet (getRow s pid) page eN)).getD i []).getD j {}).frame ∧
      (((s.page_table.set pid (pySet (getRow s pid) page eN)).getD i []).getD j {}).frame <
        (s.f : Int) ∧
      (((s.page_table.set pid (pySet (getRow s pid) page eN)).getD i []).getD j {}).time ≤
        s.timestamp + 1 ∧
      1 ≤ (((s.page_table.set pid (pySet (getRow s pid) page eN)).getD i []).getD j {}).frequency ∧
      (((s.page_table.set pid (pySet (getRow s pid) page eN)).getD i []).getD j {}).frequency ≤
        s.timestamp + 1
    have hv3 : (((s.page_table.set pid (pySet (getRow s pid) page eN)).getD i []).getD
        j {}).valid = true := hv2
    rw [hrow2 i] at hv3 ⊢
    by_cases hip : i = pid
    · rw [if_pos hip] at hv3 ⊢
      by_cases hjp : j = page.toNat
      · subst hjp
        rw [getD_set_self, if_pos hpgrow]
        rw [heN]
        refine ⟨?_, ?_, le_refl _, ?_, ?_⟩
        · show 0 ≤ (getEntry s pid page).frame
          have : (getEntry s pid page).frame = ((getRow s pid).getD page.toNat {}).frame := by
            show (pyGetD (getRow s pid) page {}).frame = _
            rw [pyGetD_nonneg _ _ _ h0]
          rw [this]
          exact hbE.1
        · show (getEntry s pid page).frame < (s.f : Int)
          have : (getEntry s pid page).frame = ((getRow s pid).getD page.toNat {}).frame := by
            show (pyGetD (getRow s pid) page {}).frame = _
            rw [pyGetD_nonneg _ _ _ h0]
          rw [this]
          exact hbE.2.1
        · show 1 ≤ (getEntry s pid page).frequency + 1
          omega
        · show (getEntry s pid page).frequency + 1 ≤ s.timestamp + 1
          have : (getEntry s pid page).frequency =
              ((getRow s pid).getD page.toNat {}).frequency := by
            show (pyGetD (getRow s pid) page {}).frequency = _
            rw [pyGetD_nonneg _ _ _ h0]
          rw [this]
          have := hbE.2.2.2.2
          omega
      · rw [getD_set_ne _ _ _ _ _ (fun h2 => hjp h2.symm)] at hv3 ⊢
        have hj3 : j < (getProc s pid).m := by
          rw [hip] at hj2
          exact hj2
        have hb2 := hEB pid hpid j hj3 hv3
        exact ⟨hb2.1, hb2.2.1, by omega, hb2.2.2.2.1, by omega⟩
    · rw [if_neg hip] at hv3 ⊢
      have hb := hEB i hi2 j hj2 hv3
      exact ⟨hb.1, hb.2.1, by omega, hb.2.2.2.1, by omega⟩
  · intro fr hfr
    exact hFR fr hfr

/-- Any resolve preserves the invariant, leaves the PCBs and the free
pool untouched, and bumps the clock by exactly one. -/
lemma request_effect (s : MMU) (pid : Nat) (page : Int) (hInv : Inv s) (hpid : pid < s.k) :
    Inv (handle_page_request s pid page).2.2 ∧
    (handle_page_request s pid page).2.2.processes = s.processes ∧
    (handle_page_request s pid page).2.2.free_frames = s.free_frames ∧
    (handle_page_request s pid page).2.2.timestamp = s.timestamp + 1 ∧
    (handle_page_request s pid page).2.2.k = s.k ∧
    (handle_page_request s pid page).2.2.m = s.m ∧
    (handle_page_request s pid page).2.2.f = s.f := by
  by_cases hin : (page < 0 ∨ ((getProc s pid).m : Int) ≤ page)
  · rw [handle_page_request_invalid s pid page hin]
    refine ⟨?_, rfl, rfl, rfl, rfl, rfl, rfl⟩
    exact inv_of_fields s _ hInv rfl rfl rfl rfl rfl rfl (Nat.le_succ _)
  by_cases hc : (check_tlb s.tlb pid page).2 = true
  · rw [request_tlbhit_full s pid page hin hc]
    refine ⟨?_, rfl, rfl, rfl, rfl, rfl, rfl⟩
    exact inv_of_fields s _ hInv rfl rfl rfl rfl rfl rfl (Nat.le_succ _)
  have hcf : (check_tlb s.tlb pid page).2 = false := by
    cases hcc : (check_tlb s.tlb pid page).2
    · rfl
    · exact absurd hcc hc
  by_cases hv : (getEntry s pid page).valid = true
  · have hInv2 := inv_pagehit s pid page hInv hpid hin hcf hv
    refine ⟨hInv2, ?_, ?_, ?_, ?_, ?_, ?_⟩ <;>
      rw [request_pagehit_full s pid page hin hcf hv]
  · have hvf : (getEntry s pid page).valid = false := by
      cases hvv : (getEntry s pid page).valid
      · rfl
      · exact absurd hvv hv
    rw [request_fault_full s pid page hin hcf hvf]
    refine ⟨?_, rfl, rfl, rfl, rfl, rfl, rfl⟩
    exact inv_of_fields s _ hInv rfl rfl rfl rfl rfl rfl (Nat.le_succ _)

end PyCore
end VMSim

namespace VMSim
namespace PyCore

lemma fault_fields (s : MMU) (pid : Nat) (page : Int) :
    (handle_page_fault s pid page).2.timestamp = s.timestamp ∧
    (handle_page_fault s pid page).2.k = s.k ∧
    (handle_page_fault s pid page).2.m = s.m ∧
    (handle_page_fault s pid page).2.f = s.f := by
  unfold handle_page_fault
  dsimp only
  by_cases hcond : (s.free_frames.length = 0 ∨
      (getProc s pid).allocount ≤ (getProc s pid).usecount)
  · rw [if_pos hcond]
    exact ⟨rfl, rfl, rfl, rfl⟩
  · rw [if_neg hcond]
    exact ⟨rfl, rfl, rfl, rfl⟩

/-- The fault handler preserves the invariant and returns a frame id in
[0, f), on both of its paths. -/
lemma inv_fault (s : MMU) (pid : Nat) (page : Int) (hInv : Inv s) (hpid : pid < s.k)
    (h0 : 0 ≤ page) (hpm : page.toNat < (getProc s pid).m)
    (hvf : (getEntry s pid page).valid = false)
    (hts1 : 1 ≤ s.timestamp)
    (hsent : (s.timestamp : Int) < sysMaxsize)
    (hfsent : (s.f : Int) ≤ sysMaxsize) :
    Inv (handle_page_fault s pid page).2 ∧
    0 ≤ (handle_page_fault s pid page).1 ∧
    (handle_page_fault s pid page).1 < (s.f : Int) := by
  by_cases hcond : (s.free_frames.length = 0 ∨
      (getProc s pid).allocount ≤ (getProc s pid).usecount)
  · exact inv_fault_evict s pid page hInv hpid h0 hpm hvf hts1 hsent hfsent hcond
  · exact inv_fault_alloc s pid page hInv hpid h0 hpm hvf hts1 hcond

lemma inv_completion_mmu (s : MMU) (pid : Nat) (hInv : Inv s) (hpid : pid < s.k) :
    Inv (setProc (free_process_frames s pid) pid
      { getProc (free_process_frames s pid) pid with completed := true }) :=
  inv_setProc_fields _ pid _ (inv_free_process s pid hInv hpid) hpid rfl rfl rfl

lemma invS_returnToReady (st : SimState) (pid : Nat) (h : InvS st)
    (hpid : pid < st.mmu.k) :
    InvS (returnToReady st pid) := by
  obtain ⟨h1, h2⟩ := h
  unfold returnToReady
  by_cases hc : (getProc st.mmu pid).completed = true
  · rw [if_pos hc]
    exact ⟨h1, h2⟩
  · rw [if_neg hc]
    refine ⟨h1, ?_⟩
    intro p hp
    rcases List.mem_append.mp hp with h | h
    · exact h2 p h
    · have hppid : p = pid := by simpa using h
      rw [hppid]
      exact hpid

end PyCore
end VMSim

namespace VMSim
namespace PyCore

set_option maxHeartbeats 2000000 in
/-- One orchestrator iteration preserves the state invariant, moves the
clock by at most one tick, and leaves the configuration constants
unchanged. -/
lemma loopStep_preserves (st : SimState) (hS : InvS st)
    (hsent : (st.mmu.timestamp : Int) + 1 < sysMaxsize)
    (hfsent : (st.mmu.f : Int) ≤ sysMaxsize) :
    InvS (loopStep st) ∧
    (loopStep st).mmu.timestamp ≤ st.mmu.timestamp + 1 ∧
    (loopStep st).mmu.k = st.mmu.k ∧
    (loopStep st).mmu.m = st.mmu.m ∧
    (loopStep st).mmu.f = st.mmu.f := by
  obtain ⟨hInv, hQ⟩ := hS
  cases hqe : st.ready_queue with
  | nil =>
    rw [loopStep.eq_def, hqe]
    refine ⟨⟨hInv, ?_⟩, Nat.le_succ _, rfl, rfl, rfl⟩
    intro p hp
    exact hQ p hp
  | cons q rest =>
    have hqk : q < st.mmu.k := hQ q (by rw [hqe]; exact List.mem_cons_self q rest)
    have hrest : ∀ p ∈ rest, p < st.mmu.k := fun p hp =>
      hQ p (by rw [hqe]; exact List.mem_cons_of_mem _ hp)
    rw [loopStep.eq_def, hqe]
    dsimp only
    by_cases hfin : (getProc st.mmu q).reference_string.length ≤
        (getProc st.mmu q).current_index
    · rw [if_pos hfin]
      refine ⟨⟨inv_completion_mmu st.mmu q hInv hqk, ?_⟩, Nat.le_succ _, rfl, rfl, rfl⟩
      intro p hp
      have hp2 : p ∈ rest := hp
      exact hrest p hp2
    · rw [if_neg hfin]
      set pg := (getProc st.mmu q).reference_string.getD
        (getProc st.mmu q).current_index 0 with hpg
      have hre := request_effect st.mmu q pg hInv hqk
      set r22 := (handle_page_request st.mmu q pg).2.2 with hr22
      have hi22 : Inv r22 := hre.1
      have hpr22 : r22.processes = st.mmu.processes := hre.2.1
      have hts22 : r22.timestamp = st.mmu.timestamp + 1 := hre.2.2.2.1
      have hk22 : r22.k = st.mmu.k := hre.2.2.2.2.1
      have hm22 : r22.m = st.mmu.m := hre.2.2.2.2.2.1
      have hf22 : r22.f = st.mmu.f := hre.2.2.2.2.2.2
      have hqk2 : q < r22.k := by rw [hk22]; exact hqk
      by_cases hin : (pg < 0 ∨ ((getProc st.mmu q).m : Int) ≤ pg)
      · rw [show (handle_page_request st.mmu q pg).2.1 = Event.invalid_reference from by
          rw [handle_page_request_invalid st.mmu q pg hin]]
        dsimp only
        refine ⟨⟨inv_completion_mmu r22 q hi22 hqk2, ?_⟩, ?_, ?_, ?_, ?_⟩
        · intro p hp
          have hp2 : p ∈ rest := hp
          show p < r22.k
          rw [hk22]
          exact hrest p hp2
        · show r22.timestamp ≤ st.mmu.timestamp + 1
          exact le_of_eq hts22
        · exact hk22
        · exact hm22
        · exact hf22
      · by_cases hc : (check_tlb st.mmu.tlb q pg).2 = true
        · rw [(request_tlbhit_spec st.mmu q pg hin hc).2.1]
          dsimp only
          have hInv2 : Inv (setProc r22 q
              { getProc r22 q with current_index := (getProc r22 q).current_index + 1 }) :=
            inv_setProc_fields r22 q _ hi22 hqk2 rfl rfl rfl
          split
          · refine ⟨invS_returnToReady _ q ⟨hInv2, ?_⟩ ?_, ?_, ?_, ?_, ?_⟩
            · intro p hp
              have hp2 : p ∈ rest := hp
              show p < r22.k
              rw [hk22]
              exact hrest p hp2
            · show q < r22.k
              rw [hk22]
              exact hqk
            · rw [returnToReady_mmu]
              show r22.timestamp ≤ st.mmu.timestamp + 1
              exact le_of_eq hts22
            · rw [returnToReady_mmu]
              exact hk22
            · rw [returnToReady_mmu]
              exact hm22
            · rw [returnToReady_mmu]
              exact hf22
          · refine ⟨⟨inv_completion_mmu _ q hInv2 hqk2, ?_⟩, ?_, ?_, ?_, ?_⟩
            · intro p hp
              have hp2 : p ∈ rest := hp
              show p < r22.k
              rw [hk22]
              exact hrest p hp2
            · show r22.timestamp ≤ st.mmu.timestamp + 1
              exact le_of_eq hts22
            · exact hk22
            · exact hm22
            · exact hf22
        · have hcf : (check_tlb st.mmu.tlb q pg).2 = false := by
            cases hcc2 : (check_tlb st.mmu.tlb q pg).2
            · rfl
            · exact absurd hcc2 hc
          by_cases hv : (getEntry st.mmu q pg).valid = true
          · rw [show (handle_page_request st.mmu q pg).2.1 = Event.page_hit from by
              rw [request_pagehit_full st.mmu q pg hin hcf hv]]
            dsimp only
            have hInv2 : Inv (setProc r22 q
                { getProc r22 q with current_index := (getProc r22 q).current_index + 1 }) :=
              inv_setProc_fields r22 q _ hi22 hqk2 rfl rfl rfl
            split
            · refine ⟨invS_returnToReady _ q ⟨hInv2, ?_⟩ ?_, ?_, ?_, ?_, ?_⟩
              · intro p hp
                have hp2 : p ∈ rest := hp
                show p < r22.k
                rw [hk22]
                exact hrest p hp2
              · show q < r22.k
                rw [hk22]
                exact hqk
              · rw [returnToReady_mmu]
                show r22.timestamp ≤ st.mmu.timestamp + 1
                exact le_of_eq hts22
              · rw [returnToReady_mmu]
                exact hk22
              · rw [returnToReady_mmu]
                exact hm22
              · rw [returnToReady_mmu]
                exact hf22
            · refine ⟨⟨inv_completion_mmu _ q hInv2 hqk2, ?_⟩, ?_, ?_, ?_, ?_⟩
              · intro p hp
                have hp2 : p ∈ rest := hp
                show p < r22.k
                rw [hk22]
                exact hrest p hp2
              · show r22.timestamp ≤ st.mmu.timestamp + 1
                exact le_of_eq hts22
              · exact hk22
              · exact hm22
              · exact hf22
          · have hvf : (getEntry st.mmu q pg).valid = false := by
              cases hvv : (getEntry st.mmu q pg).valid
              · rfl
              · exact absurd hvv hv
            rw [show (handle_page_request st.mmu q pg).2.1 = Event.page_fault from by
              rw [request_fault_full st.mmu q pg hin hcf hvf]]
            dsimp only
            have h0 : 0 ≤ pg := le_of_not_lt (fun hx => hin (Or.inl hx))
            have hpmi : pg < ((getProc st.mmu q).m : Int) :=
              lt_of_not_le (fun hx => hin (Or.inr hx))
            have hgp22 : getProc r22 q = getProc st.mmu q := by
              show r22.processes.getD q {} = st.mmu.processes.getD q {}
              rw [hpr22]
            have hvf22 : (getEntry r22 q pg).valid = false := by
              rw [hr22, request_fault_full st.mmu q pg hin hcf hvf]
              exact hvf
            have hfa := inv_fault r22 q pg hi22 hqk2 h0
              (by rw [hgp22]; omega) hvf22
              (by rw [hts22]; omega)
              (by rw [hts22]; push_cast; omega)
              (by rw [hf22]; exact hfsent)
            have hff := fault_fields r22 q pg
            refine ⟨invS_returnToReady _ q ⟨hfa.1, ?_⟩ ?_, ?_, ?_, ?_, ?_⟩
            · intro p hp
              have hp2 : p ∈ rest := hp
              show p < (handle_page_fault r22 q pg).2.k
              rw [hff.2.1, hk22]
              exact hrest p hp2
            · show q < (handle_page_fault r22 q pg).2.k
              rw [hff.2.1, hk22]
              exact hqk
            · rw [returnToReady_mmu]
              show (handle_page_fault r22 q pg).2.timestamp ≤ st.mmu.timestamp + 1
              exact le_of_eq (by rw [hff.1, hts22])
            · rw [returnToReady_mmu]
              show (handle_page_fault r22 q pg).2.k = st.mmu.k
              rw [hff.2.1, hk22]
            · rw [returnToReady_mmu]
              show (handle_page_fault r22 q pg).2.m = st.mmu.m
              rw [hff.2.2.1, hm22]
            · rw [returnToReady_mmu]
              show (handle_page_fault r22 q pg).2.f = st.mmu.f
              rw [hff.2.2.2, hf22]

end PyCore
end VMSim

namespace VMSim
namespace PyCore

/-- The invariant, the clock bound and the configuration constants are
maintained along every fuel-indexed run. -/
lemma iterate_preserves : ∀ (n : Nat) (st : SimState), InvS st →
    (st.mmu.timestamp : Int) + n < sysMaxsize →
    (st.mmu.f : Int) ≤ sysMaxsize →
    InvS (iterate n st) ∧
    (iterate n st).mmu.timestamp ≤ st.mmu.timestamp + n ∧
    (iterate n st).mmu.k = st.mmu.k ∧
    (iterate n st).mmu.m = st.mmu.m ∧
    (iterate n st).mmu.f = st.mmu.f := by
  intro n
  induction n with
  | zero =>
    intro st h _ _
    exact ⟨h, Nat.le_refl _, rfl, rfl, rfl⟩
  | succ n ih =>
    intro st h hsent hfsent
    rw [show iterate (n + 1) st =
      if simActive st = true then iterate n (loopStep st) else st from rfl]
    by_cases ha : simActive st = true
    · rw [if_pos ha]
      have h1 := loopStep_preserves st h (by push_cast at hsent ⊢; omega) hfsent
      have h2 := ih (loopStep st) h1.1
        (by have h3 := h1.2.1; push_cast at hsent ⊢; omega)
        (by rw [h1.2.2.2.2]; exact hfsent)
      refine ⟨h2.1, ?_, ?_, ?_, ?_⟩
      · have h3 := h1.2.1
        have h4 := h2.2.1
        omega
      · rw [h2.2.2.1, h1.2.2.1]
      · rw [h2.2.2.2.1, h1.2.2.2.1]
      · rw [h2.2.2.2.2, h1.2.2.2.2]
    · rw [if_neg ha]
      exact ⟨h, by omega, rfl, rfl, rfl⟩

/-- Under the invariant, the eviction condition forces at least one valid
entry in the faulting process's row, and victim selection lands on a real
valid page (never the -1 fallback). -/
lemma evict_has_victim (s : MMU) (pid : Nat) (hInv : Inv s) (hpid : pid < s.k)
    (hcond : s.free_frames.length = 0 ∨
      (getProc s pid).allocount ≤ (getProc s pid).usecount)
    (hsent : (s.timestamp : Int) < sysMaxsize)
    (hfsent : (s.f : Int) ≤ sysMaxsize) :
    (∃ p, p < (getProc s pid).m ∧ ((getRow s pid).getD p {}).valid = true) ∧
    (∃ v, v < (getProc s pid).m ∧ ((getRow s pid).getD v {}).valid = true ∧
      selectVictim s pid = (v : Int)) ∧
    0 ≤ selectVictim s pid := by
  obtain ⟨hPL, hTL, hRL, hMM, hA1, hUA, hCV, hSUM, hSAL, hEB, hFR⟩ := hInv
  have hplen : pid < s.processes.length := by rw [hPL]; exact hpid
  have huse1 : 1 ≤ (getProc s pid).usecount := by
    have hgpu : (s.processes.getD pid {}).usecount = (getProc s pid).usecount := rfl
    have hgpa : (s.processes.getD pid {}).allocount = (getProc s pid).allocount := rfl
    have ha1 := hA1 pid hpid
    rcases hcond with hfree0 | hquota
    · have hsle : ∀ i, i < s.processes.length →
          (s.processes.getD i {}).usecount ≤ (s.processes.getD i {}).allocount := by
        intro i hi
        have hik : i < s.k := by rw [← hPL]; exact hi
        exact hUA i hik
      have hsumeq : (s.processes.map (fun p => p.usecount)).sum =
          (s.processes.map (fun p => p.allocount)).sum := by omega
      have heqp := use_eq_alloc_of_sum_eq s.processes hsle hsumeq pid hplen
      omega
    · omega
  have hexcv : 1 ≤ countValid (getRow s pid) (getProc s pid).m := by
    rw [hCV pid hpid]
    exact huse1
  obtain ⟨p0, hp0, hv0⟩ := countValid_pos (getRow s pid) (getProc s pid).m hexcv
  have hb0 := hEB pid hpid p0 hp0 hv0
  have ht0 : (((getRow s pid).getD p0 {}).time : Int) < sysMaxsize := by
    have := hb0.2.2.1
    omega
  have hq0 : (((getRow s pid).getD p0 {}).frequency : Int) < sysMaxsize := by
    have := hb0.2.2.2.2
    omega
  obtain ⟨v, hvm, hvv, hsel⟩ := selectVictim_found s pid
    ⟨p0, hp0, hv0, ht0, lt_of_lt_of_le hb0.2.1 hfsent, hq0⟩
  refine ⟨⟨p0, hp0, hv0⟩, ⟨v, hvm, hvv, hsel⟩, ?_⟩
  rw [hsel]
  exact Int.natCast_nonneg v

end PyCore
end VMSim

namespace VMSim

/-- Claim C10: in every reachable state in which the fault handler takes
the eviction path (free pool empty or process at/over quota), the
faulting process has at least one valid page-table entry, victim
selection returns a real valid page of that process — the victim = -1
fallback is unreachable — and the frame id the fault handler returns is
a genuine frame in [0, frameCount).  The sentinel hypotheses say the run
is short enough that the clock stays below sys.maxsize and the frame
count fits below it, true of any feasible execution. -/
theorem C10_eviction_real_victim (init st : PyCore.SimState) (n : Nat) (pid : Nat)
    (rest : List Nat) (page : Int)
    (hinit : PyCore.InvS init)
    (hrun : PyCore.iterate n init = st)
    (hsent : (init.mmu.timestamp : Int) + n + 1 < sysMaxsize)
    (hfsent : (init.mmu.f : Int) ≤ sysMaxsize)
    (hq : st.ready_queue = pid :: rest)
    (hpage : page = (PyCore.getProc st.mmu pid).reference_string.getD
      (PyCore.getProc st.mmu pid).current_index 0)
    (hfault : (PyCore.handle_page_request st.mmu pid page).2.1 = Event.page_fault)
    (hcond : st.mmu.free_frames.length = 0 ∨
      (PyCore.getProc st.mmu pid).allocount ≤ (PyCore.getProc st.mmu pid).usecount) :
    (∃ p, p < (PyCore.getProc st.mmu pid).m ∧
      ((PyCore.getRow st.mmu pid).getD p {}).valid = true) ∧
    (∃ v, v < (PyCore.getProc (PyCore.handle_page_request st.mmu pid page).2.2 pid).m ∧
      ((PyCore.getRow (PyCore.handle_page_request st.mmu pid page).2.2 pid).getD
        v {}).valid = true ∧
      PyCore.selectVictim (PyCore.handle_page_request st.mmu pid page).2.2 pid = (v : Int)) ∧
    0 ≤ PyCore.selectVictim (PyCore.handle_page_request st.mmu pid page).2.2 pid ∧
    0 ≤ (PyCore.handle_page_fault (PyCore.handle_page_request st.mmu pid page).2.2
      pid page).1 ∧
    (PyCore.handle_page_fault (PyCore.handle_page_request st.mmu pid page).2.2
      pid page).1 < (st.mmu.f : Int) := by
  have hiter := PyCore.iterate_preserves n init hinit
    (by push_cast at hsent ⊢; omega) hfsent
  rw [hrun] at hiter
  obtain ⟨⟨hInv, hQ⟩, hts, hkeq, hmeq, hfeq⟩ := hiter
  have hpidk : pid < st.mmu.k := hQ pid (by rw [hq]; exact List.mem_cons_self _ _)
  have hch := PyCore.request_fault_char st.mmu pid page hfault
  have hin := hch.1
  have hvf := hch.2.2.1
  have h0 : 0 ≤ page := le_of_not_lt (fun hx => hin (Or.inl hx))
  have hpmi : page < ((PyCore.getProc st.mmu pid).m : Int) :=
    lt_of_not_le (fun hx => hin (Or.inr hx))
  have hstts : (st.mmu.timestamp : Int) < sysMaxsize := by
    push_cast at hsent ⊢
    omega
  have hstf : (st.mmu.f : Int) ≤ sysMaxsize := by rw [hfeq]; exact hfsent
  have hre := PyCore.request_effect st.mmu pid page hInv hpidk
  set s1 := (PyCore.handle_page_request st.mmu pid page).2.2 with hs1
  have hgp1 : PyCore.getProc s1 pid = PyCore.getProc st.mmu pid := by
    show s1.processes.getD pid {} = st.mmu.processes.getD pid {}
    rw [hre.2.1]
  have hev1 := PyCore.evict_has_victim st.mmu pid hInv hpidk hcond hstts hstf
  have hcond1 : s1.free_frames.length = 0 ∨
      (PyCore.getProc s1 pid).allocount ≤ (PyCore.getProc s1 pid).usecount := by
    rw [hre.2.2.1, hgp1]
    exact hcond
  have hpidk1 : pid < s1.k := by rw [hre.2.2.2.2.1]; exact hpidk
  have hts1sent : (s1.timestamp : Int) < sysMaxsize := by
    rw [hre.2.2.2.1]
    push_cast at hsent ⊢
    omega
  have hf1sent : (s1.f : Int) ≤ sysMaxsize := by
    rw [hre.2.2.2.2.2.2]
    exact hstf
  have hev2 := PyCore.evict_has_victim s1 pid hre.1 hpidk1 hcond1 hts1sent hf1sent
  have hvf1 : (PyCore.getEntry s1 pid page).valid = false := by
    rw [hs1, hch.2.2.2]
    exact hvf
  have hfa := PyCore.inv_fault s1 pid page hre.1 hpidk1 h0
    (by rw [hgp1]; omega) hvf1
    (by rw [hre.2.2.2.1]; omega)
    hts1sent hf1sent
  refine ⟨hev1.1, hev2.2.1, hev2.2.2, hfa.2.1, ?_⟩
  have hlt := hfa.2.2
  rw [hre.2.2.2.2.2.2] at hlt
  exact hlt

/-- Witness for C10 at iteration 4 of scenario A: process 0 faults on
page 2 with the pool empty and the process at quota, and the eviction
path returns a real frame. -/
theorem C10_eviction_real_victim_witness :
    0 ≤ PyCore.selectVictim
      (PyCore.handle_page_request (PyCore.iterate 4 scenarioA).mmu 0 2).2.2 0 ∧
    0 ≤ (PyCore.handle_page_fault
      (PyCore.handle_page_request (PyCore.iterate 4 scenarioA).mmu 0 2).2.2 0 2).1 ∧
    (PyCore.handle_page_fault
      (PyCore.handle_page_request (PyCore.iterate 4 scenarioA).mmu 0 2).2.2 0 2).1 <
      ((PyCore.iterate 4 scenarioA).mmu.f : Int) := by
  have h := C10_eviction_real_victim scenarioA (PyCore.iterate 4 scenarioA) 4 0 [] 2
    (by unfold PyCore.InvS PyCore.Inv; decide)
    rfl (by decide) (by decide) (by decide) (by decide) (by decide) (by decide)
  exact ⟨h.2.2.1, h.2.2.2.1, h.2.2.2.2⟩

end VMSim
